import Mathlib

/-!
# MonoMux: channel buffering and server request handlers

A shallow embedding of `src/system/CommunicationChannel.cpp` (the buffered
`read` / `write` of a channel) and of `src/server/Dispatch.cpp` (the six
request handlers of the server), followed by theorems about them.

Conventions of the embedding:

* a byte is a natural number (the value of the `char`), a byte string is a list;
* the virtual `readImpl` / `writeImpl` of a channel are a parameter (`Backend`),
  a function of the state behind the descriptor; the `bool&` they receive is
  `true` at every call site, so only the value they leave in it is modelled;
* what `Return.reserve(Bytes)` of `read` depends on, the `max_size()` of the
  string and the memory the allocator has, is a parameter as well;
* a `std::map` is an association list kept in key order;
* a reference or pointer to a record of a table is the key of the record.
-/

namespace monomux

/-! ## CommunicationChannel -/

/-- A byte string (`std::string`, `std::string_view`). -/
abbrev Bytes := List Nat

/-- What `read` and `write` take from outside the class.  The subclass
supplies the chunk size `BufferSize` and the two virtual calls: `readImpl h n`
gives the chunk read, the value left in `Continue` and the new state behind
the descriptor; `writeImpl h v` gives the number of bytes written, the value
left in `Continue` and the new state.  The C++ library supplies what
`Return.reserve(Bytes)` of `read` depends on: `max_size` is
`std::string::max_size()`, and `allocates n` tells whether the allocator has
the memory for a string of capacity `n`. -/
structure Backend (β : Type) where
  BufferSize : Nat
  readImpl : β → Nat → Bytes × Bool × β
  writeImpl : β → Bytes → Nat × Bool × β
  max_size : Nat
  allocates : Nat → Bool

/-- The fields of `CommunicationChannel` that `read` and `write` use. -/
structure CommunicationChannel (β : Type) where
  Handle : β
  ReadBuffer : Bytes
  WriteBuffer : Bytes
  Failed : Bool

/-- The exceptions of `read` and `write`: the `std::system_error` thrown on
a failed channel (`io_error`), and the `std::length_error` and
`std::bad_alloc` of `Return.reserve(Bytes)`. -/
inductive ChannelError where
  | io_error
  | length_error
  | bad_alloc
  deriving DecidableEq

/-- The local variables of the reading loop of `read`, with the list of the
chunks that `readImpl` returned so far (`Chunks`, kept for the proofs). -/
structure ReadState (β : Type) where
  Handle : β
  ContinueReading : Bool
  RemainingBytes : Nat
  Return : Bytes
  ReadBuffer : Bytes
  Chunks : List Bytes

/-- One pass through the body of the `while` of `read` (lines 90-119). -/
def readBody {β : Type} (B : Backend β) (st : ReadState β) : ReadState β :=
  let r := B.readImpl st.Handle B.BufferSize
  let ReadChunk := r.1
  let ReadBytes := ReadChunk.length
  if ReadBytes = 0 then
    { st with Handle := r.2.2, ContinueReading := false,
              Chunks := st.Chunks ++ [ReadChunk] }
  else
    let c1 : Bool := if ReadBytes < B.BufferSize then false else r.2.1
    let BytesFillableFromCurrentRead := min ReadBytes st.RemainingBytes
    let over : Bool := decide (st.RemainingBytes < ReadBytes)
    { Handle := r.2.2
      ContinueReading := if over then false else c1
      RemainingBytes := st.RemainingBytes - BytesFillableFromCurrentRead
      Return := st.Return ++ ReadChunk.take BytesFillableFromCurrentRead
      ReadBuffer :=
        if over then st.ReadBuffer ++ ReadChunk.drop BytesFillableFromCurrentRead
        else st.ReadBuffer
      Chunks := st.Chunks ++ [ReadChunk] }

/-- The condition of the `while` of `read` (line 88). -/
def readCond {β : Type} (Bytes : Nat) (st : ReadState β) : Bool :=
  st.ContinueReading && decide (0 < st.RemainingBytes) &&
    decide (st.RemainingBytes ≤ Bytes)

/-- The `while` of `read`.  The first argument bounds the number of passes; a
pass that is followed by another one lowers `RemainingBytes`, so `read` gives
it `RemainingBytes` itself (`readLoop_exits`). -/
def readLoop {β : Type} (B : Backend β) (Bytes : Nat) :
    Nat → ReadState β → ReadState β
  | 0, st => st
  | fuel + 1, st =>
    if readCond Bytes st then readLoop B Bytes fuel (readBody B st) else st

/-- What a call of `read` gives back: the returned string, the chunks the
underlying reads returned during the call, and the channel afterwards. -/
structure ReadResult (β : Type) where
  Return : Bytes
  Chunks : List Bytes
  Channel : CommunicationChannel β

/-- `CommunicationChannel::read(Bytes)`.  `Return.reserve(Bytes)` (line 65)
comes right after the test of `failed()` and before the read buffer or the
descriptor is touched: it throws `std::length_error` when `Bytes` is above
`max_size()` and `std::bad_alloc` when the memory is not to be had; after it
`Return`, which never holds more than `Bytes` bytes, does not allocate
again. -/
def read {β : Type} (B : Backend β) (ch : CommunicationChannel β) (Bytes : Nat) :
    Except ChannelError (ReadResult β) :=
  if ch.Failed then .error .io_error
  else if B.max_size < Bytes then .error .length_error
  else if !B.allocates Bytes then .error .bad_alloc
  else
    let BytesFromRB := min ch.ReadBuffer.length Bytes
    -- lines 71-80; with an empty buffer the block changes nothing
    let Return := ch.ReadBuffer.take BytesFromRB
    let RemainingBytes := Bytes - BytesFromRB
    let ReadBuffer := ch.ReadBuffer.drop BytesFromRB
    if RemainingBytes = 0 then
      .ok { Return := Return, Chunks := [], Channel := { ch with ReadBuffer := ReadBuffer } }
    else
      let st := readLoop B Bytes RemainingBytes
        { Handle := ch.Handle, ContinueReading := true, RemainingBytes := RemainingBytes,
          Return := Return, ReadBuffer := ReadBuffer, Chunks := [] }
      .ok { Return := st.Return, Chunks := st.Chunks,
            Channel := { ch with Handle := st.Handle, ReadBuffer := st.ReadBuffer } }

/-- What a sequence of `read` calls on one channel gives: the outcome of each
call in order (the string returned or the exception thrown), the chunks the
underlying reads returned, and the channel at the end. -/
structure ReadRun (β : Type) where
  Outcomes : List (Except ChannelError Bytes)
  Chunks : List Bytes
  Channel : CommunicationChannel β

/-- A sequence of `read` calls on one channel.  A call that throws returns no
string and leaves the channel as it was (`read` throws before it changes
anything); the caller goes on with the next call. -/
def readSeq {β : Type} (B : Backend β) :
    CommunicationChannel β → List Nat → ReadRun β
  | ch, [] => { Outcomes := [], Chunks := [], Channel := ch }
  | ch, n :: ns =>
    match read B ch n with
    | .error e =>
      let rest := readSeq B ch ns
      { Outcomes := .error e :: rest.Outcomes, Chunks := rest.Chunks, Channel := rest.Channel }
    | .ok r =>
      let rest := readSeq B r.Channel ns
      { Outcomes := .ok r.Return :: rest.Outcomes, Chunks := r.Chunks ++ rest.Chunks,
        Channel := rest.Channel }

/-- The strings that a sequence of calls returned, concatenated.  A call that
threw returned nothing. -/
def returnedBytes : List (Except ChannelError Bytes) → Bytes
  | [] => []
  | .ok s :: os => s ++ returnedBytes os
  | .error _ :: os => returnedBytes os

/-- The number of underlying reads behind the outcome of a `read`: a call that
throws has made none. -/
def underlyingReads {β : Type} : Except ChannelError (ReadResult β) → Nat
  | .ok r => r.Chunks.length
  | .error _ => 0

/-- One underlying write: the bytes offered and the number accepted. -/
structure WriteCall where
  Offered : Bytes
  Written : Nat
  deriving DecidableEq

/-- The bytes that a list of underlying writes handed over to the backend. -/
def acceptedBytes (calls : List WriteCall) : Bytes :=
  (calls.map (fun c => c.Offered.take c.Written)).flatten

/-- The local variables of `write`, with the list of the underlying writes
made so far (`Calls`, kept for the proofs). -/
structure WriteState (β : Type) where
  Handle : β
  ContinueWriting : Bool
  WriteBuffer : Bytes
  Buffer : Bytes
  BytesSent : Nat
  Calls : List WriteCall

/-- One pass through the body of the first `while` of `write` (lines 138-144). -/
def drainBody {β : Type} (B : Backend β) (st : WriteState β) : WriteState β :=
  let V := st.WriteBuffer.take (min B.BufferSize st.WriteBuffer.length)
  let r := B.writeImpl st.Handle V
  { st with Handle := r.2.2, ContinueWriting := r.2.1,
            BytesSent := st.BytesSent + r.1,
            WriteBuffer := st.WriteBuffer.drop r.1,
            Calls := st.Calls ++ [⟨V, r.1⟩] }

/-- The first `while` of `write` (line 136).  `none` when the passes allowed by
the first argument do not end the loop. -/
def drainLoop {β : Type} (B : Backend β) : Nat → WriteState β → Option (WriteState β)
  | 0, st => if st.ContinueWriting && !st.WriteBuffer.isEmpty then none else some st
  | fuel + 1, st =>
    if st.ContinueWriting && !st.WriteBuffer.isEmpty then drainLoop B fuel (drainBody B st)
    else some st

/-- One pass through the body of the second `while` of `write` (lines 153-159). -/
def sendBody {β : Type} (B : Backend β) (st : WriteState β) : WriteState β :=
  let Chunk := st.Buffer.take (min B.BufferSize st.Buffer.length)
  let r := B.writeImpl st.Handle Chunk
  { st with Handle := r.2.2, ContinueWriting := r.2.1,
            BytesSent := st.BytesSent + r.1,
            Buffer := st.Buffer.drop r.1,
            Calls := st.Calls ++ [⟨Chunk, r.1⟩] }

/-- The second `while` of `write` (line 151). -/
def sendLoop {β : Type} (B : Backend β) : Nat → WriteState β → Option (WriteState β)
  | 0, st => if st.ContinueWriting && !st.Buffer.isEmpty then none else some st
  | fuel + 1, st =>
    if st.ContinueWriting && !st.Buffer.isEmpty then sendLoop B fuel (sendBody B st)
    else some st

/-- What a call of `write` gives back: the returned count, the underlying
writes made during the call, and the channel afterwards. -/
structure WriteResult (β : Type) where
  BytesSent : Nat
  Calls : List WriteCall
  Channel : CommunicationChannel β

/-- `CommunicationChannel::write(Buffer)`.  The loops of `write` need not end
(a backend may accept nothing and leave `Continue` set for ever), so the
function takes a bound on the passes of each loop and gives `none` when the
bound is reached. -/
def write {β : Type} (B : Backend β) (fuel : Nat) (ch : CommunicationChannel β)
    (Buffer : Bytes) : Option (Except ChannelError (WriteResult β)) :=
  if ch.Failed then some (.error .io_error)
  else
    match drainLoop B fuel
        { Handle := ch.Handle, ContinueWriting := true, WriteBuffer := ch.WriteBuffer,
          Buffer := Buffer, BytesSent := 0, Calls := [] } with
    | none => none
    | some st1 =>
      if !st1.ContinueWriting then
        -- line 146: return BytesSent
        some (.ok { BytesSent := st1.BytesSent, Calls := st1.Calls,
                    Channel := { ch with Handle := st1.Handle,
                                         WriteBuffer := st1.WriteBuffer } })
      else
        match sendLoop B fuel { st1 with ContinueWriting := true } with
        | none => none
        | some st2 =>
          -- lines 162-166; appending an empty rest changes nothing
          some (.ok { BytesSent := st2.BytesSent, Calls := st2.Calls,
                      Channel := { ch with Handle := st2.Handle,
                                           WriteBuffer := st2.WriteBuffer ++ st2.Buffer } })

/-! ## std::map -/

namespace Map

variable {κ ν : Type} [DecidableEq κ]

/-- The keys of a map, in iteration order. -/
def keys (m : List (κ × ν)) : List κ := m.map Prod.fst

/-- `find`: the value stored under a key, if any. -/
def find : List (κ × ν) → κ → Option ν
  | [], _ => none
  | e :: m, k => if e.1 = k then some e.2 else find m k

/-- Insertion of a new key at its place in the key order `le`. -/
def insertOrdered (le : κ → κ → Bool) (k : κ) (v : ν) : List (κ × ν) → List (κ × ν)
  | [] => [(k, v)]
  | e :: m => if le k e.1 then (k, v) :: e :: m else e :: insertOrdered le k v m

/-- `try_emplace`: inserts unless the key is present. -/
def tryEmplace (le : κ → κ → Bool) (k : κ) (v : ν) (m : List (κ × ν)) : List (κ × ν) :=
  if (find m k).isSome then m else insertOrdered le k v m

/-- A write through a reference to the record stored under `k`. -/
def modify (m : List (κ × ν)) (k : κ) (f : ν → ν) : List (κ × ν) :=
  m.map (fun e => if e.1 = k then (e.1, f e.2) else e)

/-- The assignment `m[k] = v`. -/
def assign (le : κ → κ → Bool) (k : κ) (v : ν) (m : List (κ × ν)) : List (κ × ν) :=
  if (find m k).isSome then modify m k (fun _ => v) else insertOrdered le k v m

/-- `erase` by key. -/
def erase (m : List (κ × ν)) (k : κ) : List (κ × ν) :=
  m.filter (fun e => decide (e.1 ≠ k))

end Map

/-- The order of `std::string` on the characters of two strings. -/
def lexLe : List Char → List Char → Bool
  | [], _ => true
  | _ :: _, [] => false
  | a :: as, b :: bs =>
    if a.toNat < b.toNat then true
    else if b.toNat < a.toNat then false
    else lexLe as bs

/-- The key order of a `std::map` with `std::string` keys. -/
def strLe (a b : String) : Bool := lexLe a.data b.data

/-- `std::to_string` of a `std::size_t`: the decimal digits. -/
def to_string (n : Nat) : String := Nat.repr n

/-! ## Messages -/

abbrev ClientID := Nat
abbrev Nonce := Nat
/-- The identity of a connection (a socket of the server). -/
abbrev Connection := Nat

namespace request

/-- The body of `request::DataSocket`: `Msg->Client.ID`, `Msg->Client.Nonce`. -/
structure DataSocket where
  ID : ClientID
  Nonce : Nonce
  deriving DecidableEq

/-- The `SpawnOpts` of `request::MakeSession`. -/
structure SpawnOptions where
  Program : String
  Arguments : List String
  SetEnvironment : List (String × String)
  UnsetEnvironment : List String
  deriving DecidableEq

/-- The body of `request::MakeSession`. -/
structure MakeSession where
  Name : String
  SpawnOpts : SpawnOptions
  deriving DecidableEq

/-- The body of `request::Attach`. -/
structure Attach where
  Name : String
  deriving DecidableEq

/-- The modes of `request::Detach`. -/
inductive DetachMode where
  | Latest
  | All
  deriving DecidableEq

/-- The body of `request::Detach`. -/
structure Detach where
  Mode : DetachMode
  deriving DecidableEq

end request

/-- The `message::SessionData` record of a response: name and creation time. -/
structure SessionInfo where
  Name : String
  Created : Nat
  deriving DecidableEq

/-- The modes of `notification::Detached`. -/
inductive DetachedMode where
  | Detach
  | Exit
  | ServerShutdown
  deriving DecidableEq

/-- The messages the handlers send: the six responses and the notification
of a detach. -/
inductive Message where
  | ClientID (ID : ClientID) (Nonce : Nonce)
  | DataSocket (Success : Bool)
  | SessionList (Sessions : List SessionInfo)
  | MakeSession (Name : String) (Success : Bool)
  | Attach (Success : Bool) (Session : SessionInfo)
  | Detach
  | Detached (Mode : DetachedMode)
  deriving DecidableEq

/-! ## Server state -/

/-- `Process::SpawnOptions` as `requestMakeSession` fills it in. -/
structure SpawnOptions where
  CreatePTY : Bool
  Program : String
  Arguments : List String
  Environment : List (String × Option String)
  deriving DecidableEq

/-- Modelled from the spec: the `Process` a launch hands back (section 4.7,
"a `Process` carrying the child pid"; the class is in `system/Process.hpp`).
`Launched` is false for a launch whose fork or exec failed; the value reaches
the handler either way. -/
structure Process where
  Pid : Nat
  Launched : Bool
  deriving DecidableEq

/-- Modelled from the spec: `ClientData` (section 3; the class is in
`server/ClientData.hpp`).  The id of a client is the key of its record in the
client table. -/
structure ClientData where
  Nonce : Option Nonce
  ControlConnection : Connection
  DataConnection : Option Connection
  AttachedSession : Option String
  deriving DecidableEq

/-- Modelled from the spec: `SessionData` (section 3; the class is in
`server/SessionData.hpp`).  `AttachedClients` is in order of attachment. -/
structure SessionData where
  Name : String
  Created : Nat
  Process : Option Process
  AttachedClients : List ClientID
  deriving DecidableEq

/-- The fields of `Server` that the handlers use: the identifier of the
listening socket and the two tables. -/
structure Server where
  Sock : String
  Clients : List (ClientID × ClientData)
  Sessions : List (String × SessionData)
  deriving DecidableEq

/-- What a handler does besides changing the server state, in order. -/
inductive Effect where
  | sendMessage (To : Connection) (Msg : Message)
  | spawn (Opts : SpawnOptions)
  | createCallback (Session : String)
  deriving DecidableEq

/-- What `requestMakeSession` takes from outside the server: the launcher
`Process::spawn`, the reading of the clock when the `SessionData` is made, and
`SocketPath::absolutise`. -/
structure System where
  spawn : SpawnOptions → Process
  now : Nat
  absolutise : String → String

/-- Modelled from the spec: `ClientData::makeNewNonce` (section 4.2,
"overwrites any prior pending nonce"); `Rnd` is the number drawn. -/
def ClientData.makeNewNonce (C : ClientData) (Rnd : monomux.Nonce) :
    monomux.Nonce × ClientData :=
  (Rnd, { C with Nonce := some Rnd })

/-- Modelled from the spec: `ClientData::consumeNonce` (section 4.2,
"`consume_nonce() -> Nonce?` (returns and clears)"). -/
def ClientData.consumeNonce (C : ClientData) : Option monomux.Nonce × ClientData :=
  (C.Nonce, { C with Nonce := none })

/-- Modelled from the spec: `Server::getSession`, the session of a name or
null (the session table of section 3). -/
def Server.getSession (S : Server) (Name : String) : Option SessionData :=
  Map.find S.Sessions Name

/-- Modelled from the spec: `Server::turnClientIntoDataOfOtherClient`
(section 4.1: "transfers the candidate's channel into `main.data` and deletes
the candidate ClientData"). -/
def Server.turnClientIntoDataOfOtherClient (S : Server) (Main Candidate : ClientID) :
    Server :=
  match Map.find S.Clients Candidate with
  | none => S
  | some D =>
    let Clients := Map.modify S.Clients Main
      (fun M => { M with DataConnection := some D.ControlConnection })
    { S with Clients := Map.erase Clients Candidate }

/-- Modelled from the spec: `SessionData::attachClient` (section 3: the
attachments have no duplicates and are in order of attachment, the last one
being the latest client). -/
def SessionData.attachClient (Sess : SessionData) (Client : ClientID) : SessionData :=
  { Sess with AttachedClients := Sess.AttachedClients.erase Client ++ [Client] }

/-- Modelled from the spec: `SessionData::removeClient` (section 4.3,
`detach(ClientData&)`). -/
def SessionData.removeClient (Sess : SessionData) (Client : ClientID) : SessionData :=
  { Sess with AttachedClients := Sess.AttachedClients.erase Client }

/-- Modelled from the spec: `SessionData::getLatestClient` (section 3: "returns
the last element or absent"). -/
def SessionData.getLatestClient (Sess : SessionData) : Option ClientID :=
  Sess.AttachedClients.getLast?

/-- Modelled from the spec: `Server::clientAttachedCallback` (section 4.1,
`client_attached(ClientData&, SessionData&)`): the client records the session
and the session records the client. -/
def Server.clientAttachedCallback (S : Server) (Client : ClientID) (Session : String) :
    Server :=
  { S with
    Clients := Map.modify S.Clients Client
      (fun C => { C with AttachedSession := some Session })
    Sessions := Map.modify S.Sessions Session (fun Sess => Sess.attachClient Client) }

/-- Modelled from the spec: `Server::clientDetachedCallback` (section 4.1,
`client_detached(ClientData&, SessionData&)`). -/
def Server.clientDetachedCallback (S : Server) (Client : ClientID) (Session : String) :
    Server :=
  { S with
    Clients := Map.modify S.Clients Client (fun C => { C with AttachedSession := none })
    Sessions := Map.modify S.Sessions Session (fun Sess => Sess.removeClient Client) }

/-- Modelled from the spec: `MonomuxSession::createEnvVars` (section 6:
"`MONOMUX_SESSION` = session name; `MONOMUX_SOCKET` = absolute path of server
socket"; the class is in `system/Environment.hpp`). -/
def createEnvVars (SessionName Socket : String) : List (String × String) :=
  [("MONOMUX_SESSION", SessionName), ("MONOMUX_SOCKET", Socket)]

/-- Modelled from the spec: `ClientData::sendDetachReason` (section 4.5:
`notification::Detached` is "pushed to a client being forcibly detached"); the
notification goes out on the control connection of the client. -/
def ClientData.sendDetachReason (C : ClientData) (Mode : DetachedMode) : Effect :=
  .sendMessage C.ControlConnection (.Detached Mode)

/-! ## The request handlers (`Dispatch.cpp`)

A handler takes the server, the key of the client record `Client` refers to,
and the result of `TYPE::decode(Message)`.  It gives the server afterwards and
what was sent or launched, or `none` where the C++ has no defined outcome: a
`Client` that is not a record of the table, a failed `assert`, a dangling
pointer. -/

/-- `Server::requestClientID`; `Rnd` is the number `makeNewNonce` draws. -/
def requestClientID (S : Server) (Client : ClientID) (Message : Option Unit)
    (Rnd : Nonce) : Option (Server × List Effect) :=
  match Map.find S.Clients Client with
  | none => none
  | some C =>
    match Message with
    | none => some (S, [])
    | some _ =>
      let N := C.makeNewNonce Rnd
      some ({ S with Clients := Map.modify S.Clients Client (fun _ => N.2) },
            [.sendMessage C.ControlConnection (.ClientID Client N.1)])

/-- `Server::requestDataSocket`. -/
def requestDataSocket (S : Server) (Client : ClientID)
    (Message : Option request.DataSocket) : Option (Server × List Effect) :=
  match Map.find S.Clients Client with
  | none => none
  | some C =>
    match Message with
    | none => some (S, [])
    | some Msg =>
      match Map.find S.Clients Msg.ID with
      | none => some (S, [.sendMessage C.ControlConnection (.DataSocket false)])
      | some MainClient =>
        if MainClient.DataConnection.isSome then
          some (S, [.sendMessage C.ControlConnection (.DataSocket false)])
        else
          let N := MainClient.consumeNonce
          let S1 : Server := { S with Clients := Map.modify S.Clients Msg.ID (fun _ => N.2) }
          if N.1 ≠ some Msg.Nonce then
            some (S1, [.sendMessage C.ControlConnection (.DataSocket false)])
          else
            let S2 := S1.turnClientIntoDataOfOtherClient Msg.ID Client
            -- the assert of line 109 and the use of `*MainClient.getDataSocket()`
            match (Map.find S2.Clients Msg.ID).bind (fun M => M.DataConnection) with
            | none => none
            | some D => some (S2, [.sendMessage D (.DataSocket true)])

/-- `Server::requestSessionList`. -/
def requestSessionList (S : Server) (Client : ClientID) (Message : Option Unit) :
    Option (Server × List Effect) :=
  match Map.find S.Clients Client with
  | none => none
  | some C =>
    match Message with
    | none => some (S, [])
    | some _ =>
      let Sessions := S.Sessions.map (fun SessionElem =>
        ({ Name := SessionElem.1, Created := SessionElem.2.Created } : SessionInfo))
      some (S, [.sendMessage C.ControlConnection (.SessionList Sessions)])

/-- The `while` of lines 152-153, started at `SessionNum`: the first number
from there on whose decimal string names no session.  The first argument
bounds the increments; `requestMakeSession` allows one more than there are
sessions, which the loop cannot use up (`defaultSessionNum_spec`), and so
`SessionNum` stays far below the range of `std::size_t`. -/
def defaultSessionNum (S : Server) : Nat → Nat → Nat
  | 0, SessionNum => SessionNum
  | fuel + 1, SessionNum =>
    if (S.getSession (to_string SessionNum)).isSome then
      defaultSessionNum S fuel (SessionNum + 1)
    else SessionNum

/-- Lines 165-179: the environment overlay handed to the launcher. -/
def makeEnvironment (Opts : request.SpawnOptions) (Builtin : List (String × String)) :
    List (String × Option String) :=
  let E1 := Opts.SetEnvironment.foldl
    (fun E EnvVar => Map.tryEmplace strLe EnvVar.1 (some EnvVar.2) E) []
  let E2 := Opts.UnsetEnvironment.foldl
    (fun E UnsetEnvVar => Map.tryEmplace strLe UnsetEnvVar none E) E1
  Builtin.foldl (fun E BuiltinEnvVar =>
    Map.assign strLe BuiltinEnvVar.1 (some BuiltinEnvVar.2) E) E2

/-- `Server::requestMakeSession`. -/
def requestMakeSession (Sys : System) (S : Server) (Client : ClientID)
    (Message : Option request.MakeSession) : Option (Server × List Effect) :=
  match Map.find S.Clients Client with
  | none => none
  | some C =>
    match Message with
    | none => some (S, [])
    | some Msg =>
      if Msg.Name ≠ "" ∧ (S.getSession Msg.Name).isSome then
        some (S, [.sendMessage C.ControlConnection (.MakeSession Msg.Name false)])
      else
        let Name :=
          if Msg.Name = "" then to_string (defaultSessionNum S (S.Sessions.length + 1) 1)
          else Msg.Name
        let SOpts : SpawnOptions :=
          { CreatePTY := true
            Program := Msg.SpawnOpts.Program
            Arguments := Msg.SpawnOpts.Arguments
            Environment := makeEnvironment Msg.SpawnOpts
              (createEnvVars Name (Sys.absolutise S.Sock)) }
        let P := Sys.spawn SOpts
        let Sess : SessionData :=
          { Name := Name, Created := Sys.now, Process := some P, AttachedClients := [] }
        some ({ S with Sessions := Map.tryEmplace strLe Name Sess S.Sessions },
              [.spawn SOpts, .createCallback Name,
               .sendMessage C.ControlConnection (.MakeSession Name true)])

/-- `Server::requestAttach`. -/
def requestAttach (S : Server) (Client : ClientID) (Message : Option request.Attach) :
    Option (Server × List Effect) :=
  match Map.find S.Clients Client with
  | none => none
  | some C =>
    match Message with
    | none => some (S, [])
    | some Msg =>
      match S.getSession Msg.Name with
      | none => some (S, [.sendMessage C.ControlConnection (.Attach false ⟨"", 0⟩)])
      | some Sess =>
        some (S.clientAttachedCallback Client Msg.Name,
              [.sendMessage C.ControlConnection (.Attach true ⟨Sess.Name, Sess.Created⟩)])

/-- The `for` of lines 236-240 of `requestDetach`. -/
def detachClients (Session : String) :
    List ClientID → Server × List Effect → Option (Server × List Effect)
  | [], acc => some acc
  | C :: rest, acc =>
    match Map.find acc.1.Clients C with
    | none => none
    | some CD =>
      detachClients Session rest
        (acc.1.clientDetachedCallback C Session,
         acc.2 ++ [CD.sendDetachReason .Detach])

/-- `Server::requestDetach`. -/
def requestDetach (S : Server) (Client : ClientID) (Message : Option request.Detach) :
    Option (Server × List Effect) :=
  match Map.find S.Clients Client with
  | none => none
  | some C =>
    match Message with
    | none => some (S, [])
    | some Msg =>
      match C.AttachedSession with
      | none => some (S, [])
      | some Session =>
        match S.getSession Session with
        | none => none
        | some Sess =>
          let ClientsToDetach : List ClientID :=
            match Msg.Mode with
            | .Latest => Sess.getLatestClient.toList
            | .All => Sess.AttachedClients
          match detachClients Session ClientsToDetach (S, []) with
          | none => none
          | some R =>
            some (R.1, R.2 ++ [.sendMessage C.ControlConnection .Detach])

/-! ## Definitions used in the statements and proofs -/

/-- What the reading loop keeps true: the string returned so far followed by
the read buffer is `base` followed by the chunks read, and the read buffer is
empty as long as the loop may go on. -/
def ReadInv {β : Type} (base : Bytes) (st : ReadState β) : Prop :=
  st.Return ++ st.ReadBuffer = base ++ st.Chunks.flatten ∧
    (st.ContinueReading = true → st.ReadBuffer = [])

/-- The `max_size()` of the strings of the concrete channels below,
`2^62 - 1`. -/
def stringMaxSize : Nat := 4611686018427387903

/-- The allocator of the concrete channels below: it has the memory for a
string of up to `2^30` bytes. -/
def oneGibibyte (n : Nat) : Bool := decide (n ≤ 1073741824)

/-- A backend that takes no byte and asks `write` to stop (a descriptor that
would block); its reads give nothing. -/
def blockedBackend : Backend Unit :=
  { BufferSize := 4096
    readImpl := fun _ _ => ([], false, ())
    writeImpl := fun _ _ => (0, false, ())
    max_size := stringMaxSize
    allocates := oneGibibyte }

/-- A backend whose reads give the three bytes `7, 8, 9` each time and that
takes every byte offered to a write. -/
def threeByteBackend : Backend Unit :=
  { BufferSize := 4096
    readImpl := fun _ _ => ([7, 8, 9], true, ())
    writeImpl := fun _ V => (V.length, true, ())
    max_size := stringMaxSize
    allocates := oneGibibyte }

/-- The number a list of decimal digits stands for. -/
def digitsValue (l : List Char) : Nat :=
  l.foldl (fun a c => a * 10 + (c.toNat - 48)) 0

/-- A request as it reaches its handler: the result of decoding the body, and
what the handler takes from outside the server. -/
inductive Request where
  | ClientID (Message : Option Unit) (Rnd : Nonce)
  | DataSocket (Message : Option request.DataSocket)
  | SessionList (Message : Option Unit)
  | MakeSession (Sys : System) (Message : Option request.MakeSession)
  | Attach (Message : Option request.Attach)
  | Detach (Message : Option request.Detach)

/-- The handler of each kind of request, as `setUpDispatch` registers them. -/
def dispatch (S : Server) (Client : ClientID) : Request → Option (Server × List Effect)
  | .ClientID Message Rnd => requestClientID S Client Message Rnd
  | .DataSocket Message => requestDataSocket S Client Message
  | .SessionList Message => requestSessionList S Client Message
  | .MakeSession Sys Message => requestMakeSession Sys S Client Message
  | .Attach Message => requestAttach S Client Message
  | .Detach Message => requestDetach S Client Message

/-- The server after a run of requests, each with the client that sent it. -/
def run : Server → List (ClientID × Request) → Option Server
  | S, [] => some S
  | S, r :: rest =>
    match dispatch S r.1 r.2 with
    | none => none
    | some R => run R.1 rest

/-- No nonce is pending for the client `Main` in a client table. -/
def NonceCleared (Clients : List (ClientID × ClientData)) (Main : ClientID) : Prop :=
  ∀ M, Map.find Clients Main = some M → M.Nonce = none

/-- A launcher whose launches all fail. -/
def failingSystem : System :=
  { spawn := fun _ => { Pid := 0, Launched := false }
    now := 1650000000
    absolutise := fun p => "/run/user/1000/" ++ p }

/-- A server with two connections accepted, the clients 1 and 2 on the
connections 11 and 12, and no session. -/
def twoClients : Server :=
  { Sock := "monomux.sock"
    Clients := [(1, ⟨none, 11, none, none⟩), (2, ⟨none, 12, none, none⟩)]
    Sessions := [] }

/-- The server `twoClients` after client 1 was given the nonce 7. -/
def twoClientsNonce : Server :=
  { Sock := "monomux.sock"
    Clients := [(1, ⟨some 7, 11, none, none⟩), (2, ⟨none, 12, none, none⟩)]
    Sessions := [] }

/-- The server `twoClients` with one session, `"s"`, that nobody is attached to. -/
def oneSession : Server :=
  { Sock := "monomux.sock"
    Clients := [(1, ⟨none, 11, none, none⟩), (2, ⟨none, 12, none, none⟩)]
    Sessions := [("s", ⟨"s", 1650000000, some ⟨4242, true⟩, []⟩)] }

/-- A request to run `/bin/sh` with nothing added to the environment. -/
def shell : request.SpawnOptions :=
  { Program := "/bin/sh", Arguments := [], SetEnvironment := [], UnsetEnvironment := [] }

/-- The name `requestMakeSession` gives to the session of a request that is
not refused (lines 148-155). -/
def sessionNameFor (S : Server) (Name : String) : String :=
  if Name = "" then to_string (defaultSessionNum S (S.Sessions.length + 1) 1) else Name

/-- The options `requestMakeSession` hands to the launcher (lines 161-180). -/
def spawnOptionsFor (Sys : System) (S : Server) (Msg : request.MakeSession) : SpawnOptions :=
  { CreatePTY := true
    Program := Msg.SpawnOpts.Program
    Arguments := Msg.SpawnOpts.Arguments
    Environment := makeEnvironment Msg.SpawnOpts
      (createEnvVars (sessionNameFor S Msg.Name) (Sys.absolutise S.Sock)) }

/-- The session `requestMakeSession` makes for a request that is not refused. -/
def sessionFor (Sys : System) (S : Server) (Msg : request.MakeSession) : SessionData :=
  { Name := sessionNameFor S Msg.Name
    Created := Sys.now
    Process := some (Sys.spawn (spawnOptionsFor Sys S Msg))
    AttachedClients := [] }

/-- The server `oneSession` after a `MakeSession` request without a name,
launched by `failingSystem`: the session `"1"` is in the table. -/
def afterMakeSession : Server :=
  { Sock := "monomux.sock"
    Clients := [(1, ⟨none, 11, none, none⟩), (2, ⟨none, 12, none, none⟩)]
    Sessions := [("1", ⟨"1", 1650000000, some ⟨0, false⟩, []⟩),
                 ("s", ⟨"s", 1650000000, some ⟨4242, true⟩, []⟩)] }

/-- The notification `sendDetachReason(Detach)` sends to the client `c`, when
`c` is a record of the client table. -/
def detachNotice (Clients : List (ClientID × ClientData)) (c : ClientID) : Option Effect :=
  (Map.find Clients c).map (fun CD => CD.sendDetachReason .Detach)

/-- The server after `clientDetachedCallback` for each client of a list, in
order. -/
def detachAll (Session : String) (l : List ClientID) (S : Server) : Server :=
  l.foldl (fun S c => S.clientDetachedCallback c Session) S

/-- The server `oneSession` with both clients attached to `"s"`, client 1
first. -/
def bothAttached : Server :=
  { Sock := "monomux.sock"
    Clients := [(1, ⟨none, 11, some 21, some "s"⟩), (2, ⟨none, 12, some 22, some "s"⟩)]
    Sessions := [("s", ⟨"s", 1650000000, some ⟨4242, true⟩, [1, 2]⟩)] }

/-- Every session of `S` is a session of `S'` under the same key, with the
name, the creation time and the process it had. -/
def SessionsSurvive (S S' : Server) : Prop :=
  ∀ k Sess, S.getSession k = some Sess →
    ∃ Sess', S'.getSession k = some Sess' ∧ Sess'.Name = Sess.Name ∧
      Sess'.Created = Sess.Created ∧ Sess'.Process = Sess.Process

/-- The server `bothAttached` after both clients were detached from `"s"`. -/
def bothDetached : Server :=
  { Sock := "monomux.sock"
    Clients := [(1, ⟨none, 11, some 21, none⟩), (2, ⟨none, 12, some 22, none⟩)]
    Sessions := [("s", ⟨"s", 1650000000, some ⟨4242, true⟩, []⟩)] }

/-- What the set-list and the unset-list of a request say about the variable
`k`: the value of the first entry of the set-list for `k`; failing that, to
unset `k` if the unset-list names it; failing that, nothing. -/
def clientOverlay (Opts : request.SpawnOptions) (k : String) : Option (Option String) :=
  match Map.find Opts.SetEnvironment k with
  | some v => some (some v)
  | none => if k ∈ Opts.UnsetEnvironment then some none else none

/-- A request that sets `TERM` twice, sets and unsets `LANG`, unsets `DISPLAY`
and sets the session variable of MonoMux. -/
def busyEnvironment : request.SpawnOptions :=
  { Program := "/bin/sh", Arguments := []
    SetEnvironment := [("TERM", "xterm"), ("LANG", "C"), ("TERM", "vt100"),
                       ("MONOMUX_SESSION", "mine")]
    UnsetEnvironment := ["LANG", "DISPLAY", "MONOMUX_SOCKET"] }

/-- The number of bytes the backend reported as written over a list of
underlying writes. -/
def writtenBytes (calls : List WriteCall) : Nat :=
  (calls.map (fun c => c.Written)).sum

/-- A backend that never reports more bytes written than it was offered; `write`
relies on it when it erases the bytes written from its buffers. -/
def Backend.Honest {β : Type} (B : Backend β) : Prop :=
  ∀ (h : β) (V : Bytes), (B.writeImpl h V).1 ≤ V.length

/-- A backend that, offered at least one byte, either takes at least one or
clears `Continue`. -/
def Backend.Progresses {β : Type} (B : Backend β) : Prop :=
  ∀ (h : β) (V : Bytes), V ≠ [] → (B.writeImpl h V).2.1 = true → 0 < (B.writeImpl h V).1

/-- What the first loop of `write` keeps true: the count is the number of bytes
reported written, which is the number of bytes handed over, and the bytes
handed over followed by the write buffer are the write buffer of the start. -/
def DrainInv {β : Type} (W : Bytes) (st : WriteState β) : Prop :=
  st.BytesSent = writtenBytes st.Calls ∧
    (acceptedBytes st.Calls).length = writtenBytes st.Calls ∧
    acceptedBytes st.Calls ++ st.WriteBuffer = W

/-- What the second loop of `write` keeps true, likewise, for the bytes of the
caller that are left. -/
def SendInv {β : Type} (W : Bytes) (st : WriteState β) : Prop :=
  st.BytesSent = writtenBytes st.Calls ∧
    (acceptedBytes st.Calls).length = writtenBytes st.Calls ∧
    acceptedBytes st.Calls ++ st.Buffer = W

/-- A descriptor that takes the bytes offered while they fit in what it has
room for; offered more, it takes what fits, clears `Continue`, and has room for
ten bytes again the next time.  The state is the room left. -/
def burstBackend : Backend Nat :=
  { BufferSize := 4096
    readImpl := fun q _ => ([], false, q)
    writeImpl := fun q V =>
      if V.length ≤ q then (V.length, true, q - V.length) else (q, false, 10)
    max_size := stringMaxSize
    allocates := oneGibibyte }

/-- The twenty bytes `1, ..., 20`. -/
def twentyBytes : Bytes := [1, 2, 3, 4, 5, 6, 7, 8, 9, 10, 11, 12, 13, 14, 15, 16, 17, 18, 19, 20]

/-- What the reading loop of `read(n)` keeps true: the bytes returned so far and
the bytes still wanted add up to `n`, and the string returned starts with `P`. -/
def ReadLen {β : Type} (n : Nat) (P : Bytes) (st : ReadState β) : Prop :=
  st.Return.length + st.RemainingBytes = n ∧ P <+: st.Return

/-- The underlying writes of a list take the bytes of `S` in order: each is
offered bytes from the front of what is left of `S` once the bytes reported
written before it are gone, at most `size` of them, and reports at most as many
written as it was offered. -/
def callsInOrder (size : Nat) : Bytes → List WriteCall → Prop
  | _, [] => True
  | S, c :: cs =>
    c.Offered <+: S ∧ c.Offered.length ≤ size ∧ c.Written ≤ c.Offered.length ∧
      callsInOrder size (S.drop c.Written) cs

/-- The local variables of `write` when its first loop starts (lines 131-135). -/
def writeStart {β : Type} (ch : CommunicationChannel β) (b : Bytes) : WriteState β :=
  { Handle := ch.Handle, ContinueWriting := true, WriteBuffer := ch.WriteBuffer,
    Buffer := b, BytesSent := 0, Calls := [] }

/-- What the first loop of `write` keeps true of the order of its underlying
writes, `W` being the write buffer of the start. -/
def DrainOrder {β : Type} (size : Nat) (W : Bytes) (st : WriteState β) : Prop :=
  callsInOrder size W st.Calls ∧ st.WriteBuffer = W.drop (writtenBytes st.Calls)

/-- What the second loop of `write` keeps true of the order of its underlying
writes, `S` being the write buffer of the start followed by the bytes of the
caller. -/
def SendOrder {β : Type} (size : Nat) (S : Bytes) (st : WriteState β) : Prop :=
  callsInOrder size S st.Calls ∧ st.Buffer = S.drop (writtenBytes st.Calls)

/-- A backend that takes one byte of what it is offered and clears `Continue`. -/
def oneByteBackend : Backend Unit :=
  { BufferSize := 2
    readImpl := fun _ _ => ([], false, ())
    writeImpl := fun _ V => (min 1 V.length, false, ())
    max_size := stringMaxSize
    allocates := oneGibibyte }

/-- What the reading loop keeps true of the number of underlying reads, `R0`
being the number of bytes wanted when the loop starts and `size` the chunk
size: a read that is followed by another one has filled a whole chunk of the
bytes wanted. -/
def ReadCount {β : Type} (size R0 : Nat) (st : ReadState β) : Prop :=
  st.Chunks.length * size < R0 + size ∧
    (st.ContinueReading = true → st.Chunks.length * size + st.RemainingBytes ≤ R0)

/-- A backend with chunks of two bytes whose reads give the bytes `7, 8` each
time and leave `Continue` set; it takes every byte offered to a write. -/
def pairBackend : Backend Unit :=
  { BufferSize := 2
    readImpl := fun _ _ => ([7, 8], true, ())
    writeImpl := fun _ V => (V.length, true, ())
    max_size := stringMaxSize
    allocates := oneGibibyte }

/-- A backend with chunks of two bytes whose reads give three bytes each time,
one more than they are asked for, and leave `Continue` set. -/
def overfullBackend : Backend Unit :=
  { BufferSize := 2
    readImpl := fun _ _ => ([7, 8, 9], true, ())
    writeImpl := fun _ V => (V.length, true, ())
    max_size := stringMaxSize
    allocates := oneGibibyte }

/-- The backend, offered the bytes `X` chunk by chunk from the state `h`,
accepts `k` bytes of them in all and then reports an incomplete write (clears
`Continue`), which leaves it in the state `h1`.  Each chunk is the front of
what is left of `X`, at most `BufferSize` bytes, and the backend reports at
most as many bytes written as the chunk has. -/
inductive AcceptsThenStops {β : Type} (B : Backend β) : β → Bytes → Nat → β → Prop where
  | stop (h : β) (X : Bytes) (n : Nat) (h1 : β) :
      X ≠ [] →
      B.writeImpl h (X.take (min B.BufferSize X.length)) = (n, false, h1) →
      n ≤ (X.take (min B.BufferSize X.length)).length →
      AcceptsThenStops B h X n h1
  | more (h : β) (X : Bytes) (n : Nat) (h1 : β) (k : Nat) (h2 : β) :
      X ≠ [] →
      B.writeImpl h (X.take (min B.BufferSize X.length)) = (n, true, h1) →
      n ≤ (X.take (min B.BufferSize X.length)).length →
      AcceptsThenStops B h1 (X.drop n) k h2 →
      AcceptsThenStops B h X (n + k) h2

/-- The backend, offered the bytes `X` chunk by chunk from the state `h`,
accepts all of them without reporting an incomplete write, which leaves it in
the state `h1`. -/
inductive AcceptsAll {β : Type} (B : Backend β) : β → Bytes → β → Prop where
  | done (h : β) : AcceptsAll B h [] h
  | more (h : β) (X : Bytes) (n : Nat) (h1 h2 : β) :
      X ≠ [] →
      B.writeImpl h (X.take (min B.BufferSize X.length)) = (n, true, h1) →
      n ≤ (X.take (min B.BufferSize X.length)).length →
      AcceptsAll B h1 (X.drop n) h2 →
      AcceptsAll B h X h2

/-- The kind of outcome that `read(n)` has on a channel that has not failed:
`std::length_error` when `n` is above `max_size()`, `std::bad_alloc` when the
memory for `n` bytes is not to be had, a string otherwise. -/
def ReserveOutcome {β : Type} (B : Backend β) (n : Nat)
    (o : Except ChannelError Bytes) : Prop :=
  (B.max_size < n → o = .error .length_error) ∧
    (n ≤ B.max_size → B.allocates n = false → o = .error .bad_alloc) ∧
    (n ≤ B.max_size → B.allocates n = true → ∃ s, o = .ok s)
/-! ## Theorems: CommunicationChannel -/

theorem readBody_inv {β : Type} (B : Backend β) (base : Bytes) (st : ReadState β)
    (hc : st.ContinueReading = true) (h : ReadInv base st) :
    ReadInv base (readBody B st) := by
  obtain ⟨h1, h2⟩ := h
  have hrb := h2 hc
  rw [hrb, List.append_nil] at h1
  unfold readBody
  by_cases h0 : (B.readImpl st.Handle B.BufferSize).1.length = 0
  · have hnil : (B.readImpl st.Handle B.BufferSize).1 = [] := List.length_eq_zero.mp h0
    simp only [h0, if_true]
    refine ⟨?_, by simp⟩
    simp [hrb, h1, hnil]
  · simp only [h0, if_false]
    by_cases hov : st.RemainingBytes < (B.readImpl st.Handle B.BufferSize).1.length
    · refine ⟨?_, by simp [hov]⟩
      simp [hov, hrb, h1, List.append_assoc]
    · have hle : (B.readImpl st.Handle B.BufferSize).1.length ≤ st.RemainingBytes :=
        Nat.le_of_not_lt hov
      refine ⟨?_, by simp [hov, hrb]⟩
      simp [hov, hrb, h1, Nat.min_eq_left hle]

theorem readLoop_inv {β : Type} (B : Backend β) (n : Nat) (base : Bytes) :
    ∀ (fuel : Nat) (st : ReadState β), ReadInv base st →
      ReadInv base (readLoop B n fuel st) := by
  intro fuel
  induction fuel with
  | zero => intro st h; simpa [readLoop] using h
  | succ k ih =>
    intro st h
    unfold readLoop
    by_cases hc : readCond n st = true
    · rw [if_pos hc]
      have hcont : st.ContinueReading = true := by
        simp only [readCond, Bool.and_eq_true] at hc
        exact hc.1.1
      exact ih _ (readBody_inv B base st hcont h)
    · rw [if_neg hc]; exact h

/-- The bound `read` gives to `readLoop` is never the reason the loop stops:
at the state the loop returns, the condition of the `while` is false. -/
theorem readLoop_exits {β : Type} (B : Backend β) (Bytes : Nat) :
    ∀ (fuel : Nat) (st : ReadState β),
      (st.ContinueReading = true → st.RemainingBytes ≤ fuel) →
      readCond Bytes (readLoop B Bytes fuel st) = false := by
  intro fuel
  induction fuel with
  | zero =>
    intro st h
    simp only [readLoop, readCond]
    by_cases hc : st.ContinueReading = true
    · have := h hc
      simp [hc]
      omega
    · simp [hc]
  | succ n ih =>
    intro st h
    unfold readLoop
    by_cases hc : readCond Bytes st = true
    · rw [if_pos hc]
      apply ih
      simp only [readCond, Bool.and_eq_true, decide_eq_true_eq] at hc
      have hle := h hc.1.1
      unfold readBody
      by_cases h0 : (B.readImpl st.Handle B.BufferSize).1.length = 0
      · simp [h0]
      · simp only [h0, if_false]
        intro _
        have : 0 < (B.readImpl st.Handle B.BufferSize).1.length := Nat.pos_of_ne_zero h0
        simp only [Nat.min_def]
        split <;> omega
    · rw [if_neg hc]
      exact Bool.eq_false_iff.mpr hc

/-- Above `max_size()` the reserve of `read` throws `std::length_error`. -/
theorem read_length_error {β : Type} (B : Backend β) (ch : CommunicationChannel β) (n : Nat)
    (hF : ch.Failed = false) (hm : B.max_size < n) :
    read B ch n = .error .length_error := by
  unfold read
  simp only [hF, Bool.false_eq_true, if_false, hm, if_true]

/-- Without the memory for it the reserve of `read` throws `std::bad_alloc`. -/
theorem read_bad_alloc {β : Type} (B : Backend β) (ch : CommunicationChannel β) (n : Nat)
    (hF : ch.Failed = false) (hm : n ≤ B.max_size) (ha : B.allocates n = false) :
    read B ch n = .error .bad_alloc := by
  unfold read
  simp only [hF, Bool.false_eq_true, if_false, Nat.not_lt.mpr hm, ha, Bool.not_false, if_true]

/-- Once the reserve is through, `read` is the part of the function that
follows it. -/
theorem read_of_reserved {β : Type} (B : Backend β) (ch : CommunicationChannel β) (n : Nat)
    (hF : ch.Failed = false) (hm : n ≤ B.max_size) (ha : B.allocates n = true) :
    read B ch n =
      if n - min ch.ReadBuffer.length n = 0 then
        .ok { Return := ch.ReadBuffer.take (min ch.ReadBuffer.length n), Chunks := [],
              Channel := { ch with ReadBuffer := ch.ReadBuffer.drop (min ch.ReadBuffer.length n) } }
      else
        .ok { Return := (readLoop B n (n - min ch.ReadBuffer.length n)
                { Handle := ch.Handle, ContinueReading := true,
                  RemainingBytes := n - min ch.ReadBuffer.length n,
                  Return := ch.ReadBuffer.take (min ch.ReadBuffer.length n),
                  ReadBuffer := ch.ReadBuffer.drop (min ch.ReadBuffer.length n),
                  Chunks := [] }).Return,
              Chunks := (readLoop B n (n - min ch.ReadBuffer.length n)
                { Handle := ch.Handle, ContinueReading := true,
                  RemainingBytes := n - min ch.ReadBuffer.length n,
                  Return := ch.ReadBuffer.take (min ch.ReadBuffer.length n),
                  ReadBuffer := ch.ReadBuffer.drop (min ch.ReadBuffer.length n),
                  Chunks := [] }).Chunks,
              Channel := { ch with
                Handle := (readLoop B n (n - min ch.ReadBuffer.length n)
                  { Handle := ch.Handle, ContinueReading := true,
                    RemainingBytes := n - min ch.ReadBuffer.length n,
                    Return := ch.ReadBuffer.take (min ch.ReadBuffer.length n),
                    ReadBuffer := ch.ReadBuffer.drop (min ch.ReadBuffer.length n),
                    Chunks := [] }).Handle,
                ReadBuffer := (readLoop B n (n - min ch.ReadBuffer.length n)
                  { Handle := ch.Handle, ContinueReading := true,
                    RemainingBytes := n - min ch.ReadBuffer.length n,
                    Return := ch.ReadBuffer.take (min ch.ReadBuffer.length n),
                    ReadBuffer := ch.ReadBuffer.drop (min ch.ReadBuffer.length n),
                    Chunks := [] }).ReadBuffer } } := by
  unfold read
  simp only [hF, Bool.false_eq_true, if_false, Nat.not_lt.mpr hm, ha, Bool.not_true]

/-- One `read` on a channel that has not failed, when the reserve is through,
returns, and the string returned followed by the new read buffer is the old
read buffer followed by the chunks read. -/
theorem read_stream {β : Type} (B : Backend β) (ch : CommunicationChannel β) (n : Nat)
    (hF : ch.Failed = false) (hm : n ≤ B.max_size) (ha : B.allocates n = true) :
    ∃ r, read B ch n = .ok r ∧ r.Channel.Failed = false ∧
      r.Return ++ r.Channel.ReadBuffer = ch.ReadBuffer ++ r.Chunks.flatten := by
  rw [read_of_reserved B ch n hF hm ha]
  by_cases h0 : n - min ch.ReadBuffer.length n = 0
  · simp only [h0, if_true]
    exact ⟨_, rfl, hF, by simp⟩
  · simp only [h0, if_false]
    refine ⟨_, rfl, hF, ?_⟩
    have hlt : ch.ReadBuffer.length < n := by
      simp only [Nat.min_def] at h0
      split at h0 <;> omega
    have hmin : min ch.ReadBuffer.length n = ch.ReadBuffer.length :=
      Nat.min_eq_left (Nat.le_of_lt hlt)
    have hinv := readLoop_inv B n ch.ReadBuffer (n - min ch.ReadBuffer.length n)
      { Handle := ch.Handle, ContinueReading := true,
        RemainingBytes := n - min ch.ReadBuffer.length n,
        Return := ch.ReadBuffer.take (min ch.ReadBuffer.length n),
        ReadBuffer := ch.ReadBuffer.drop (min ch.ReadBuffer.length n), Chunks := [] }
      ⟨by simp, by intro _; simp [hmin]⟩
    exact hinv.1

/-- The three outcomes of a `read` on a channel that has not failed. -/
theorem read_outcome {β : Type} (B : Backend β) (ch : CommunicationChannel β) (n : Nat)
    (hF : ch.Failed = false) :
    (B.max_size < n ∧ read B ch n = .error .length_error) ∨
    (n ≤ B.max_size ∧ B.allocates n = false ∧ read B ch n = .error .bad_alloc) ∨
    (n ≤ B.max_size ∧ B.allocates n = true ∧ ∃ r, read B ch n = .ok r ∧
      r.Channel.Failed = false ∧
      r.Return ++ r.Channel.ReadBuffer = ch.ReadBuffer ++ r.Chunks.flatten) := by
  by_cases hm : B.max_size < n
  · exact Or.inl ⟨hm, read_length_error B ch n hF hm⟩
  · have hm' : n ≤ B.max_size := Nat.not_lt.mp hm
    cases ha : B.allocates n with
    | false => exact Or.inr (Or.inl ⟨hm', rfl, read_bad_alloc B ch n hF hm' ha⟩)
    | true => exact Or.inr (Or.inr ⟨hm', rfl, read_stream B ch n hF hm' ha⟩)

theorem readSeq_stream {β : Type} (B : Backend β) (ns : List Nat) :
    ∀ (ch : CommunicationChannel β), ch.Failed = false →
      returnedBytes (readSeq B ch ns).Outcomes ++ (readSeq B ch ns).Channel.ReadBuffer =
          ch.ReadBuffer ++ (readSeq B ch ns).Chunks.flatten ∧
        List.Forall₂ (ReserveOutcome B) ns (readSeq B ch ns).Outcomes := by
  induction ns with
  | nil => intro ch _; exact ⟨by simp [readSeq, returnedBytes], List.Forall₂.nil⟩
  | cons n ns ih =>
    intro ch hF
    rcases read_outcome B ch n hF with ⟨hm, hr⟩ | ⟨hm, ha, hr⟩ | ⟨hm, ha, r, hr, hF1, hs⟩
    · obtain ⟨h1, h2⟩ := ih ch hF
      simp only [readSeq, hr, returnedBytes]
      refine ⟨h1, List.Forall₂.cons ⟨fun _ => rfl, fun h => ?_, fun h => ?_⟩ h2⟩
      · exact absurd hm (Nat.not_lt.mpr h)
      · exact absurd hm (Nat.not_lt.mpr h)
    · obtain ⟨h1, h2⟩ := ih ch hF
      simp only [readSeq, hr, returnedBytes]
      refine ⟨h1, List.Forall₂.cons ⟨fun h => ?_, fun _ _ => rfl, fun _ h => ?_⟩ h2⟩
      · exact absurd h (Nat.not_lt.mpr hm)
      · rw [ha] at h; cases h
    · obtain ⟨h1, h2⟩ := ih r.Channel hF1
      simp only [readSeq, hr, returnedBytes]
      refine ⟨?_, List.Forall₂.cons ⟨fun h => ?_, fun _ h => ?_, fun _ _ => ⟨_, rfl⟩⟩ h2⟩
      · simp only [List.flatten_append, List.append_assoc]
        rw [h1, ← List.append_assoc, hs, List.append_assoc]
      · exact absurd h (Nat.not_lt.mpr hm)
      · rw [ha] at h; cases h

/-! ## Lemmas: maps, decimal strings -/

namespace Map

variable {κ ν : Type} [DecidableEq κ]

theorem find_modify (m : List (κ × ν)) (k k' : κ) (f : ν → ν) :
    find (modify m k f) k' = if k' = k then (find m k').map f else find m k' := by
  induction m with
  | nil => simp [modify, find]
  | cons e m ih =>
    have ih' : find (List.map (fun e => if e.1 = k then (e.1, f e.2) else e) m) k'
        = if k' = k then (find m k').map f else find m k' := ih
    by_cases h1 : e.1 = k <;> by_cases h2 : e.1 = k' <;> by_cases h3 : k' = k <;>
      simp_all [modify, find]

theorem find_erase (m : List (κ × ν)) (k k' : κ) :
    find (erase m k) k' = if k' = k then none else find m k' := by
  induction m with
  | nil => simp [erase, find]
  | cons e m ih =>
    have ih' : find (List.filter (fun e => decide (e.1 ≠ k)) m) k'
        = if k' = k then none else find m k' := ih
    by_cases h1 : e.1 = k <;> by_cases h2 : e.1 = k' <;> by_cases h3 : k' = k <;>
      simp_all [erase, find, List.filter_cons]

theorem keys_modify (m : List (κ × ν)) (k : κ) (f : ν → ν) :
    keys (modify m k f) = keys m := by
  induction m with
  | nil => rfl
  | cons e m ih =>
    have ih' : List.map Prod.fst (List.map (fun e => if e.1 = k then (e.1, f e.2) else e) m)
        = List.map Prod.fst m := ih
    by_cases h1 : e.1 = k <;> simp_all [modify, keys]

theorem find_isSome_iff (m : List (κ × ν)) (k : κ) :
    (find m k).isSome = true ↔ k ∈ keys m := by
  induction m with
  | nil => simp [find, keys]
  | cons e m ih =>
    by_cases h : e.1 = k
    · simp [find, keys, h]
    · have h' : ¬ k = e.1 := fun x => h x.symm
      simp only [find, h, if_false, ih]
      simp [keys, h']

theorem find_eq_none_iff (m : List (κ × ν)) (k : κ) :
    find m k = none ↔ k ∉ keys m := by
  rw [← find_isSome_iff]
  cases find m k <;> simp

theorem mem_of_find (m : List (κ × ν)) (k : κ) (v : ν) (h : find m k = some v) :
    (k, v) ∈ m := by
  induction m with
  | nil => simp [find] at h
  | cons e m ih =>
    by_cases h1 : e.1 = k
    · simp only [find, h1, if_true, Option.some.injEq] at h
      have : e = (k, v) := Prod.ext h1 h
      simp [this]
    · simp only [find, h1, if_false] at h
      exact List.mem_cons_of_mem _ (ih h)

theorem find_insertOrdered_self (le : κ → κ → Bool) (k : κ) (v : ν) (m : List (κ × ν))
    (h : find m k = none) : find (insertOrdered le k v m) k = some v := by
  induction m with
  | nil => simp [insertOrdered, find]
  | cons e m ih =>
    by_cases h1 : e.1 = k
    · simp [find, h1] at h
    · simp only [find, h1, if_false] at h
      by_cases h2 : le k e.1 = true
      · simp [insertOrdered, h2, find]
      · simp [insertOrdered, h2, find, h1, ih h]

theorem find_insertOrdered_ne (le : κ → κ → Bool) (k k' : κ) (v : ν) (m : List (κ × ν))
    (h : k ≠ k') : find (insertOrdered le k v m) k' = find m k' := by
  induction m with
  | nil => simp [insertOrdered, find, h]
  | cons e m ih =>
    by_cases h2 : le k e.1 = true
    · simp [insertOrdered, h2, find, h]
    · simp only [insertOrdered, h2, Bool.false_eq_true, if_false, find, ih]

end Map

theorem Map.keys_insertOrdered_perm {κ ν : Type} (le : κ → κ → Bool) (k : κ) (v : ν) (m : List (κ × ν)) :
    (Map.keys (Map.insertOrdered le k v m)).Perm (k :: Map.keys m) := by
  induction m with
  | nil => simp [Map.insertOrdered, Map.keys]
  | cons e m ih =>
    by_cases h2 : le k e.1 = true
    · simp [Map.insertOrdered, h2, Map.keys]
    · have ih' : (List.map Prod.fst (Map.insertOrdered le k v m)).Perm (k :: List.map Prod.fst m) := ih
      simp only [Map.insertOrdered, h2, Map.keys, List.map_cons]
      exact (List.Perm.cons e.1 ih').trans (List.Perm.swap k e.1 _)

theorem digitsValue_append_singleton (l : List Char) (c : Char) :
    digitsValue (l ++ [c]) = digitsValue l * 10 + (c.toNat - 48) := by
  simp [digitsValue, List.foldl_append]

theorem digitChar_value (k : Nat) (h : k < 10) : (Nat.digitChar k).toNat - 48 = k := by
  interval_cases k <;> rfl

theorem toDigitsCore_append (fuel : Nat) :
    ∀ (n : Nat) (ds : List Char),
      Nat.toDigitsCore 10 fuel n ds = Nat.toDigitsCore 10 fuel n [] ++ ds := by
  induction fuel with
  | zero => intro n ds; simp [Nat.toDigitsCore]
  | succ f ih =>
    intro n ds
    simp only [Nat.toDigitsCore]
    by_cases h : n / 10 = 0
    · simp [h]
    · simp only [h, if_false]
      rw [ih (n / 10) (Nat.digitChar (n % 10) :: ds), ih (n / 10) [Nat.digitChar (n % 10)]]
      simp

theorem digitsValue_toDigitsCore (fuel : Nat) :
    ∀ n : Nat, n < fuel → digitsValue (Nat.toDigitsCore 10 fuel n []) = n := by
  induction fuel with
  | zero => intro n h; omega
  | succ f ih =>
    intro n hn
    simp only [Nat.toDigitsCore]
    by_cases h : n / 10 = 0
    · simp only [h, if_true]
      have hlt : n < 10 := by omega
      have := digitChar_value (n % 10) (Nat.mod_lt _ (by decide))
      simp only [digitsValue, List.foldl_cons, List.foldl_nil, Nat.zero_mul, Nat.zero_add]
      omega
    · simp only [h, if_false]
      rw [toDigitsCore_append, digitsValue_append_singleton, ih (n / 10) (by omega),
        digitChar_value (n % 10) (Nat.mod_lt _ (by decide))]
      omega

theorem to_string_injective : Function.Injective to_string := by
  intro a b h
  have h' : Nat.toDigits 10 a = Nat.toDigits 10 b := by
    have := congrArg String.data h
    simpa [to_string, Nat.repr, List.asString] using this
  have ha := digitsValue_toDigitsCore (a + 1) a (Nat.lt_succ_self a)
  have hb := digitsValue_toDigitsCore (b + 1) b (Nat.lt_succ_self b)
  unfold Nat.toDigits at h'
  rw [h'] at ha
  omega

/-- What the loop of `defaultSessionNum` gives when it starts at `n`: every
number from `n` up to the result names a session, and the result names none
unless the bound was used up. -/
theorem defaultSessionNum_scan (S : Server) (fuel : Nat) :
    ∀ n : Nat, n ≤ defaultSessionNum S fuel n ∧ defaultSessionNum S fuel n ≤ n + fuel ∧
      (∀ j, n ≤ j → j < defaultSessionNum S fuel n →
        (S.getSession (to_string j)).isSome = true) ∧
      (defaultSessionNum S fuel n < n + fuel →
        S.getSession (to_string (defaultSessionNum S fuel n)) = none) := by
  induction fuel with
  | zero =>
    intro n
    refine ⟨Nat.le_refl _, Nat.le_refl _, ?_, ?_⟩
    · intro j h1 h2; simp only [defaultSessionNum] at h2; omega
    · intro h; simp only [defaultSessionNum] at h; omega
  | succ f ih =>
    intro n
    obtain ⟨i1, i2, i3, i4⟩ := ih (n + 1)
    by_cases h : (S.getSession (to_string n)).isSome = true
    · simp only [defaultSessionNum, h, if_true]
      refine ⟨by omega, by omega, ?_, ?_⟩
      · intro j h1 h2
        by_cases hj : j = n
        · rw [hj]; exact h
        · exact i3 j (by omega) h2
      · intro hlt; exact i4 (by omega)
    · simp only [defaultSessionNum, h]
      refine ⟨Nat.le_refl _, by simp, ?_, ?_⟩
      · intro j h1 h2; simp at h2; omega
      · intro _
        simp only [Bool.false_eq_true, if_false]
        cases hg : S.getSession (to_string n) with
        | none => rfl
        | some x => simp [hg] at h

/-- The decimal strings of `1, ..., length + 1` cannot all be keys of a table
of `length` entries. -/
theorem not_all_taken (S : Server) :
    ¬ ∀ j, 1 ≤ j → j < 1 + (S.Sessions.length + 1) →
      (S.getSession (to_string j)).isSome = true := by
  intro h
  have hsub : (Finset.Icc 1 (S.Sessions.length + 1)).image to_string
      ⊆ (Map.keys S.Sessions).toFinset := by
    intro x hx
    obtain ⟨j, hj, rfl⟩ := Finset.mem_image.mp hx
    rw [Finset.mem_Icc] at hj
    rw [List.mem_toFinset, ← Map.find_isSome_iff]
    exact h j hj.1 (by omega)
  have h1 := Finset.card_le_card hsub
  rw [Finset.card_image_of_injective _ to_string_injective] at h1
  have h2 := List.toFinset_card_le (Map.keys S.Sessions)
  simp only [Nat.card_Icc, Map.keys, List.length_map] at h1 h2
  omega

/-- The number `requestMakeSession` picks for a session without a name is the
least `k ≥ 1` whose decimal string names no session. -/
theorem defaultSessionNum_spec (S : Server) :
    1 ≤ defaultSessionNum S (S.Sessions.length + 1) 1 ∧
      S.getSession (to_string (defaultSessionNum S (S.Sessions.length + 1) 1)) = none ∧
      ∀ j, 1 ≤ j → j < defaultSessionNum S (S.Sessions.length + 1) 1 →
        (S.getSession (to_string j)).isSome = true := by
  obtain ⟨h1, h2, h3, h4⟩ := defaultSessionNum_scan S (S.Sessions.length + 1) 1
  refine ⟨h1, ?_, h3⟩
  apply h4
  by_contra hge
  have heq : defaultSessionNum S (S.Sessions.length + 1) 1 = 1 + (S.Sessions.length + 1) := by
    omega
  rw [heq] at h3
  exact not_all_taken S h3

/-- The outcome of `requestMakeSession` on a request that is not refused. -/
theorem requestMakeSession_of_free (Sys : System) (S : Server) (Client : ClientID)
    (C : ClientData) (Msg : request.MakeSession)
    (hC : Map.find S.Clients Client = some C)
    (hfree : ¬ (Msg.Name ≠ "" ∧ (S.getSession Msg.Name).isSome = true)) :
    requestMakeSession Sys S Client (some Msg) =
      some ({ S with Sessions := (Map.tryEmplace strLe (sessionNameFor S Msg.Name)
                (sessionFor Sys S Msg) S.Sessions) },
            [.spawn (spawnOptionsFor Sys S Msg), .createCallback (sessionNameFor S Msg.Name),
             .sendMessage C.ControlConnection
               (.MakeSession (sessionNameFor S Msg.Name) true)]) := by
  simp only [requestMakeSession, hC]
  rw [if_neg hfree]
  rfl

/-- The name given to a session that is not refused names no session yet. -/
theorem sessionNameFor_free (S : Server) (Name : String)
    (hfree : ¬ (Name ≠ "" ∧ (S.getSession Name).isSome = true)) :
    Map.find S.Sessions (sessionNameFor S Name) = none := by
  unfold sessionNameFor
  by_cases hE : Name = ""
  · rw [if_pos hE]
    exact (defaultSessionNum_spec S).2.1
  · rw [if_neg hE]
    have : ¬ (S.getSession Name).isSome = true := fun h => hfree ⟨hE, h⟩
    cases hg : S.getSession Name with
    | none => exact hg
    | some x => simp [hg] at this

/-- The turnover in `requestDataSocket`, for a candidate that is a record of
the client table. -/
theorem turnover_of_candidate (S : Server) (Main Candidate : ClientID) (D : ClientData)
    (hD : Map.find S.Clients Candidate = some D) :
    S.turnClientIntoDataOfOtherClient Main Candidate =
      { S with Clients := Map.erase (Map.modify S.Clients Main
          (fun M => { M with DataConnection := some D.ControlConnection })) Candidate } := by
  simp only [Server.turnClientIntoDataOfOtherClient, hD]

/-- The outcome of `requestDataSocket` when the main client exists, has no data
connection and its pending nonce is the one of the request, for a candidate
that is another client than the main one. -/
theorem requestDataSocket_of_match (S : Server) (Client : ClientID) (C M : ClientData)
    (Msg : request.DataSocket)
    (hC : Map.find S.Clients Client = some C) (hne : Msg.ID ≠ Client)
    (hM : Map.find S.Clients Msg.ID = some M) (hD : M.DataConnection = none)
    (hN : M.Nonce = some Msg.Nonce) :
    ∃ S', requestDataSocket S Client (some Msg) =
        some (S', [.sendMessage C.ControlConnection (.DataSocket true)]) ∧
      Map.find S'.Clients Msg.ID =
        some { M with Nonce := none, DataConnection := some C.ControlConnection } ∧
      Map.find S'.Clients Client = none ∧ S'.Sessions = S.Sessions := by
  have hne' : ¬ Client = Msg.ID := fun h => hne h.symm
  have hC1 : Map.find (Map.modify S.Clients Msg.ID (fun _ => M.consumeNonce.2)) Client
      = some C := by
    rw [Map.find_modify, if_neg hne', hC]
  have hturn := turnover_of_candidate
    { S with Clients := Map.modify S.Clients Msg.ID (fun _ => M.consumeNonce.2) }
    Msg.ID Client C hC1
  have hMain : Map.find (Map.erase (Map.modify
      (Map.modify S.Clients Msg.ID (fun _ => M.consumeNonce.2)) Msg.ID
      (fun M' => { M' with DataConnection := some C.ControlConnection })) Client) Msg.ID
      = some { M with Nonce := none, DataConnection := some C.ControlConnection } := by
    rw [Map.find_erase, if_neg hne, Map.find_modify, if_pos rfl, Map.find_modify, if_pos rfl,
      hM]
    rfl
  refine ⟨{ S with Clients := Map.erase (Map.modify
      (Map.modify S.Clients Msg.ID (fun _ => M.consumeNonce.2)) Msg.ID
      (fun M' => { M' with DataConnection := some C.ControlConnection })) Client },
    ?_, hMain, ?_, rfl⟩
  · have hsome : ¬ (M.DataConnection.isSome = true) := by simp [hD]
    have hnonce : ¬ (M.consumeNonce.1 ≠ some Msg.Nonce) := fun h => h hN
    simp only [requestDataSocket, hC, hM]
    rw [if_neg hsome, if_neg hnonce, hturn]
    simp only [hMain, Option.bind]
  · rw [Map.find_erase, if_pos rfl]

/-- The outcome of `requestDataSocket` in the three cases of refusal: the
answer is `Success = false` on the control connection of the requester, and no
client gets or loses a data connection. -/
theorem requestDataSocket_of_mismatch (S : Server) (Client : ClientID) (C : ClientData)
    (Msg : request.DataSocket)
    (hC : Map.find S.Clients Client = some C)
    (hno : ¬ ∃ M, Map.find S.Clients Msg.ID = some M ∧ M.DataConnection = none ∧
      M.Nonce = some Msg.Nonce) :
    ∃ S', requestDataSocket S Client (some Msg) =
        some (S', [.sendMessage C.ControlConnection (.DataSocket false)]) ∧
      (∀ k, (Map.find S'.Clients k).map (fun X => X.DataConnection) =
        (Map.find S.Clients k).map (fun X => X.DataConnection)) ∧
      S'.Sessions = S.Sessions := by
  cases hM : Map.find S.Clients Msg.ID with
  | none =>
    refine ⟨S, ?_, fun _ => rfl, rfl⟩
    simp only [requestDataSocket, hC, hM]
  | some M =>
    by_cases hD : M.DataConnection.isSome = true
    · refine ⟨S, ?_, fun _ => rfl, rfl⟩
      simp only [requestDataSocket, hC, hM]
      rw [if_pos hD]
    · have hDn : M.DataConnection = none := by
        cases h : M.DataConnection with
        | none => rfl
        | some d => simp [h] at hD
      have hnonce : M.consumeNonce.1 ≠ some Msg.Nonce := fun h => hno ⟨M, hM, hDn, h⟩
      refine ⟨{ S with Clients := Map.modify S.Clients Msg.ID (fun _ => M.consumeNonce.2) },
        ?_, ?_, rfl⟩
      · simp only [requestDataSocket, hC, hM]
        rw [if_neg hD, if_pos hnonce]
      · intro k
        rw [Map.find_modify]
        by_cases hk : k = Msg.ID
        · rw [if_pos hk, hk, hM]; rfl
        · rw [if_neg hk]

theorem NonceCleared_modify (Clients : List (ClientID × ClientData)) (Main k : ClientID)
    (f : ClientData → ClientData) (hf : ∀ x, x.Nonce = none → (f x).Nonce = none)
    (h : NonceCleared Clients Main) : NonceCleared (Map.modify Clients k f) Main := by
  intro M' hM'
  rw [Map.find_modify] at hM'
  by_cases hk : Main = k
  · rw [if_pos hk] at hM'
    cases hfind : Map.find Clients Main with
    | none => rw [hfind] at hM'; cases hM'
    | some M =>
      rw [hfind] at hM'
      simp only [Option.map_some', Option.some.injEq] at hM'
      rw [← hM']
      exact hf M (h M hfind)
  · rw [if_neg hk] at hM'
    exact h M' hM'

theorem NonceCleared_modify_ne (Clients : List (ClientID × ClientData)) (Main k : ClientID)
    (f : ClientData → ClientData) (hk : Main ≠ k)
    (h : NonceCleared Clients Main) : NonceCleared (Map.modify Clients k f) Main := by
  intro M' hM'
  rw [Map.find_modify, if_neg hk] at hM'
  exact h M' hM'

theorem NonceCleared_erase (Clients : List (ClientID × ClientData)) (Main k : ClientID)
    (h : NonceCleared Clients Main) : NonceCleared (Map.erase Clients k) Main := by
  intro M' hM'
  rw [Map.find_erase] at hM'
  by_cases hk : Main = k
  · rw [if_pos hk] at hM'; cases hM'
  · rw [if_neg hk] at hM'; exact h M' hM'

theorem detachClients_keeps_NonceCleared (Session : String) (Main : ClientID) :
    ∀ (l : List ClientID) (acc R : Server × List Effect),
      NonceCleared acc.1.Clients Main → detachClients Session l acc = some R →
      NonceCleared R.1.Clients Main := by
  intro l
  induction l with
  | nil =>
    intro acc R h hrun
    simp only [detachClients, Option.some.injEq] at hrun
    rw [← hrun]; exact h
  | cons c rest ih =>
    intro acc R h hrun
    simp only [detachClients] at hrun
    cases hfind : Map.find acc.1.Clients c with
    | none => rw [hfind] at hrun; cases hrun
    | some CD =>
      rw [hfind] at hrun
      refine ih _ R ?_ hrun
      exact NonceCleared_modify acc.1.Clients Main c
        (fun C => { C with AttachedSession := none }) (fun _ hx => hx) h

/-- No handler gives a client a pending nonce, except `requestClientID` on a
request of that client that decodes. -/
theorem dispatch_keeps_NonceCleared (S : Server) (Main Client : ClientID) (r : Request)
    (R : Server × List Effect)
    (hexcl : ¬ ∃ Rnd, (Client, r) = (Main, Request.ClientID (some ()) Rnd))
    (h : NonceCleared S.Clients Main) (hrun : dispatch S Client r = some R) :
    NonceCleared R.1.Clients Main := by
  cases r with
  | ClientID Message Rnd =>
    simp only [dispatch, requestClientID] at hrun
    cases hC : Map.find S.Clients Client with
    | none => rw [hC] at hrun; cases hrun
    | some C =>
      rw [hC] at hrun
      cases Message with
      | none => simp only [Option.some.injEq] at hrun; rw [← hrun]; exact h
      | some u =>
        simp only [Option.some.injEq] at hrun
        rw [← hrun]
        have hne : Main ≠ Client := by
          intro heq
          exact hexcl ⟨Rnd, by rw [heq]⟩
        exact NonceCleared_modify_ne S.Clients Main Client
          (fun _ => (C.makeNewNonce Rnd).2) hne h
  | DataSocket Message =>
    simp only [dispatch, requestDataSocket] at hrun
    cases hC : Map.find S.Clients Client with
    | none => rw [hC] at hrun; cases hrun
    | some C =>
      rw [hC] at hrun
      cases Message with
      | none => simp only [Option.some.injEq] at hrun; rw [← hrun]; exact h
      | some Msg =>
        simp only at hrun
        cases hM : Map.find S.Clients Msg.ID with
        | none =>
          rw [hM] at hrun
          simp only [Option.some.injEq] at hrun; rw [← hrun]; exact h
        | some M =>
          rw [hM] at hrun
          simp only at hrun
          have h1 : NonceCleared (Map.modify S.Clients Msg.ID (fun _ => M.consumeNonce.2))
              Main := NonceCleared_modify _ _ _ _ (fun _ _ => rfl) h
          split at hrun
          · simp only [Option.some.injEq] at hrun; rw [← hrun]; exact h
          · split at hrun
            · simp only [Option.some.injEq] at hrun; rw [← hrun]; exact h1
            · split at hrun
              · cases hrun
              · simp only [Option.some.injEq] at hrun
                rw [← hrun]
                simp only [Server.turnClientIntoDataOfOtherClient]
                split
                · exact h1
                · exact NonceCleared_erase _ _ _
                    (NonceCleared_modify _ _ _ _ (fun _ hx => hx) h1)
  | SessionList Message =>
    simp only [dispatch, requestSessionList] at hrun
    cases hC : Map.find S.Clients Client with
    | none => rw [hC] at hrun; cases hrun
    | some C =>
      rw [hC] at hrun
      cases Message with
      | none => simp only [Option.some.injEq] at hrun; rw [← hrun]; exact h
      | some u => simp only [Option.some.injEq] at hrun; rw [← hrun]; exact h
  | MakeSession Sys Message =>
    simp only [dispatch, requestMakeSession] at hrun
    cases hC : Map.find S.Clients Client with
    | none => rw [hC] at hrun; cases hrun
    | some C =>
      rw [hC] at hrun
      cases Message with
      | none => simp only [Option.some.injEq] at hrun; rw [← hrun]; exact h
      | some Msg =>
        simp only at hrun
        split at hrun
        · simp only [Option.some.injEq] at hrun; rw [← hrun]; exact h
        · simp only [Option.some.injEq] at hrun; rw [← hrun]; exact h
  | Attach Message =>
    simp only [dispatch, requestAttach] at hrun
    cases hC : Map.find S.Clients Client with
    | none => rw [hC] at hrun; cases hrun
    | some C =>
      rw [hC] at hrun
      cases Message with
      | none => simp only [Option.some.injEq] at hrun; rw [← hrun]; exact h
      | some Msg =>
        simp only at hrun
        split at hrun
        · simp only [Option.some.injEq] at hrun; rw [← hrun]; exact h
        · simp only [Option.some.injEq] at hrun
          rw [← hrun]
          exact NonceCleared_modify S.Clients Main Client
            (fun C => { C with AttachedSession := some Msg.Name }) (fun _ hx => hx) h
  | Detach Message =>
    simp only [dispatch, requestDetach] at hrun
    cases hC : Map.find S.Clients Client with
    | none => rw [hC] at hrun; cases hrun
    | some C =>
      rw [hC] at hrun
      cases Message with
      | none => simp only [Option.some.injEq] at hrun; rw [← hrun]; exact h
      | some Msg =>
        simp only at hrun
        split at hrun
        · simp only [Option.some.injEq] at hrun; rw [← hrun]; exact h
        · split at hrun
          · cases hrun
          · split at hrun
            · cases hrun
            · rename_i R' hdet
              simp only [Option.some.injEq] at hrun
              rw [← hrun]
              exact detachClients_keeps_NonceCleared _ _ _ _ R' h hdet

theorem run_keeps_NonceCleared (Main : ClientID) :
    ∀ (later : List (ClientID × Request)) (S S2 : Server),
      (∀ r ∈ later, ¬ ∃ Rnd, r = (Main, Request.ClientID (some ()) Rnd)) →
      NonceCleared S.Clients Main → run S later = some S2 →
      NonceCleared S2.Clients Main := by
  intro later
  induction later with
  | nil =>
    intro S S2 _ h hrun
    simp only [run, Option.some.injEq] at hrun
    rw [← hrun]; exact h
  | cons r rest ih =>
    intro S S2 hex h hrun
    simp only [run] at hrun
    cases hd : dispatch S r.1 r.2 with
    | none => rw [hd] at hrun; cases hrun
    | some R =>
      rw [hd] at hrun
      refine ih R.1 S2 (fun x hx => hex x (List.mem_cons_of_mem _ hx)) ?_ hrun
      exact dispatch_keeps_NonceCleared S Main r.1 r.2 R
        (hex r (List.mem_cons_self _ _)) h hd

/-- A `DataSocket` request that names a client with no pending nonce is
refused. -/
theorem requestDataSocket_of_cleared (S : Server) (Client : ClientID) (C : ClientData)
    (Msg : request.DataSocket)
    (hC : Map.find S.Clients Client = some C) (h : NonceCleared S.Clients Msg.ID) :
    ∃ S', requestDataSocket S Client (some Msg) =
      some (S', [.sendMessage C.ControlConnection (.DataSocket false)]) := by
  have hno : ¬ ∃ M, Map.find S.Clients Msg.ID = some M ∧ M.DataConnection = none ∧
      M.Nonce = some Msg.Nonce := by
    rintro ⟨M, hM, _, hN⟩
    rw [h M hM] at hN
    cases hN
  obtain ⟨S', hrun, _⟩ := requestDataSocket_of_mismatch S Client C Msg hC hno
  exact ⟨S', hrun⟩

theorem detachNotice_clientDetachedCallback (S : Server) (c c' : ClientID)
    (Session : String) :
    detachNotice (S.clientDetachedCallback c Session).Clients c' =
      detachNotice S.Clients c' := by
  simp only [detachNotice, Server.clientDetachedCallback]
  rw [Map.find_modify]
  by_cases h : c' = c
  · rw [if_pos h]
    cases Map.find S.Clients c' <;> rfl
  · rw [if_neg h]

theorem find_clientDetachedCallback_isSome (S : Server) (c c' : ClientID)
    (Session : String) (h : (Map.find S.Clients c').isSome = true) :
    (Map.find (S.clientDetachedCallback c Session).Clients c').isSome = true := by
  simp only [Server.clientDetachedCallback]
  rw [Map.find_modify]
  by_cases hc : c' = c
  · rw [if_pos hc]
    cases hf : Map.find S.Clients c' with
    | none => rw [hf] at h; cases h
    | some x => rfl
  · rw [if_neg hc]; exact h

/-- The `for` of `requestDetach` over clients that are all records of the
client table: each is notified on its control connection and detached, in
order. -/
theorem detachClients_eq (Session : String) :
    ∀ (l : List ClientID) (acc : Server × List Effect),
      (∀ c ∈ l, (Map.find acc.1.Clients c).isSome = true) →
      detachClients Session l acc =
        some (detachAll Session l acc.1, acc.2 ++ l.filterMap (detachNotice acc.1.Clients)) := by
  intro l
  induction l with
  | nil => intro acc _; simp [detachClients, detachAll]
  | cons c rest ih =>
    intro acc hall
    have hc := hall c (List.mem_cons_self _ _)
    cases hf : Map.find acc.1.Clients c with
    | none => rw [hf] at hc; cases hc
    | some CD =>
      have hrest : ∀ c' ∈ rest,
          (Map.find (acc.1.clientDetachedCallback c Session).Clients c').isSome = true :=
        fun c' hc' => find_clientDetachedCallback_isSome acc.1 c c' Session
          (hall c' (List.mem_cons_of_mem _ hc'))
      have hfun : detachNotice (acc.1.clientDetachedCallback c Session).Clients
          = detachNotice acc.1.Clients :=
        funext (fun c' => detachNotice_clientDetachedCallback acc.1 c c' Session)
      have hnote : detachNotice acc.1.Clients c = some (CD.sendDetachReason .Detach) := by
        simp only [detachNotice, hf, Option.map_some']
      simp only [detachClients, hf]
      rw [ih _ hrest]
      simp only [hfun, List.filterMap_cons, hnote, detachAll, List.foldl_cons,
        List.append_assoc, List.singleton_append]

theorem detachAll_keys (Session : String) :
    ∀ (l : List ClientID) (S : Server),
      Map.keys (detachAll Session l S).Sessions = Map.keys S.Sessions := by
  intro l
  induction l with
  | nil => intro S; rfl
  | cons c rest ih =>
    intro S
    simp only [detachAll, List.foldl_cons]
    have := ih (S.clientDetachedCallback c Session)
    simp only [detachAll] at this
    rw [this]
    exact Map.keys_modify S.Sessions Session (fun Sess => Sess.removeClient c)

theorem detachAll_getSession (Session : String) :
    ∀ (l : List ClientID) (S : Server) (Sess : SessionData),
      S.getSession Session = some Sess →
      (detachAll Session l S).getSession Session =
        some { Sess with AttachedClients := l.foldl (fun a c => a.erase c) Sess.AttachedClients } := by
  intro l
  induction l with
  | nil => intro S Sess h; simpa [detachAll] using h
  | cons c rest ih =>
    intro S Sess h
    have h1 : (S.clientDetachedCallback c Session).getSession Session
        = some (Sess.removeClient c) := by
      have h' : Map.find S.Sessions Session = some Sess := h
      simp only [Server.getSession, Server.clientDetachedCallback]
      rw [Map.find_modify, if_pos rfl, h']
      rfl
    have := ih (S.clientDetachedCallback c Session) (Sess.removeClient c) h1
    simp only [detachAll, List.foldl_cons] at this ⊢
    rw [this]
    rfl

theorem detachAll_find_client (Session : String) :
    ∀ (l : List ClientID) (S : Server) (c : ClientID),
      Map.find (detachAll Session l S).Clients c =
        (Map.find S.Clients c).map
          (fun CD => if c ∈ l then { CD with AttachedSession := none } else CD) := by
  intro l
  induction l with
  | nil => intro S c; simp [detachAll]
  | cons c' rest ih =>
    intro S c
    have := ih (S.clientDetachedCallback c' Session) c
    simp only [detachAll, List.foldl_cons] at this ⊢
    rw [this]
    simp only [Server.clientDetachedCallback]
    rw [Map.find_modify]
    by_cases hc : c = c'
    · rw [if_pos hc]
      cases Map.find S.Clients c with
      | none => rfl
      | some CD =>
        by_cases hr : c ∈ rest <;> simp [hr, hc]
    · rw [if_neg hc]
      cases Map.find S.Clients c with
      | none => rfl
      | some CD =>
        by_cases hr : c ∈ rest <;> simp [hr, hc]

/-- Erasing the elements of a list from it one after the other, in order,
leaves what came after them. -/
theorem foldl_erase_self (l : List ClientID) :
    ∀ t : List ClientID, l.foldl (fun a c => a.erase c) (l ++ t) = t := by
  induction l with
  | nil => intro t; rfl
  | cons c rest ih =>
    intro t
    simp only [List.foldl_cons, List.cons_append, List.erase_cons_head]
    exact ih t

theorem erase_getLast_of_nodup (l : List ClientID) (h : l ≠ []) (hn : l.Nodup) :
    l.erase (l.getLast h) = l.dropLast := by
  have hsplit := List.dropLast_append_getLast h
  have hnot : l.getLast h ∉ l.dropLast := by
    intro hin
    rw [← hsplit] at hn
    have := List.nodup_append.mp hn
    exact this.2.2 hin (List.mem_singleton_self _)
  have hx : ∀ x, x ∉ l.dropLast → l.dropLast ++ [x] = l → l.erase x = l.dropLast := by
    intro x hx heq
    have h1 : (l.dropLast ++ [x]).erase x = l.dropLast := by
      rw [List.erase_append_right _ hx]
      simp
    rw [heq] at h1
    exact h1
  exact hx _ hnot hsplit

theorem filterMap_length_of_isSome {α β : Type} (f : α → Option β) :
    ∀ l : List α, (∀ a ∈ l, (f a).isSome = true) → (l.filterMap f).length = l.length := by
  intro l
  induction l with
  | nil => intro _; rfl
  | cons a rest ih =>
    intro h
    have ha := h a (List.mem_cons_self _ _)
    cases hf : f a with
    | none => rw [hf] at ha; cases ha
    | some b =>
      simp only [List.filterMap_cons, hf, List.length_cons]
      rw [ih (fun x hx => h x (List.mem_cons_of_mem _ hx))]

/-- The outcome of `requestDetach` for a requester attached to a session of the
table, when the clients to detach are all records of the client table. -/
theorem requestDetach_eq (S : Server) (Client : ClientID) (C : ClientData)
    (Msg : request.Detach) (Name : String) (Sess : SessionData) (l : List ClientID)
    (hC : Map.find S.Clients Client = some C) (hA : C.AttachedSession = some Name)
    (hS : S.getSession Name = some Sess)
    (hl : l = match Msg.Mode with
      | .Latest => Sess.getLatestClient.toList
      | .All => Sess.AttachedClients)
    (hT : ∀ c ∈ l, (Map.find S.Clients c).isSome = true) :
    requestDetach S Client (some Msg) =
      some (detachAll Name l S,
        l.filterMap (detachNotice S.Clients) ++ [.sendMessage C.ControlConnection .Detach]) := by
  simp only [requestDetach, hC, hA, hS]
  rw [← hl, detachClients_eq Name l (S, []) hT]
  simp

theorem SessionsSurvive_of_eq (S S' : Server) (h : S'.Sessions = S.Sessions) :
    SessionsSurvive S S' := by
  intro k Sess hk
  refine ⟨Sess, ?_, rfl, rfl, rfl⟩
  simp only [Server.getSession, h]
  exact hk

theorem SessionsSurvive_trans (S S1 S2 : Server) (h1 : SessionsSurvive S S1)
    (h2 : SessionsSurvive S1 S2) : SessionsSurvive S S2 := by
  intro k Sess hk
  obtain ⟨Sess1, hk1, a1, b1, c1⟩ := h1 k Sess hk
  obtain ⟨Sess2, hk2, a2, b2, c2⟩ := h2 k Sess1 hk1
  exact ⟨Sess2, hk2, a2.trans a1, b2.trans b1, c2.trans c1⟩

theorem SessionsSurvive_modify (S S' : Server) (k : String) (f : SessionData → SessionData)
    (hf : ∀ x, (f x).Name = x.Name ∧ (f x).Created = x.Created ∧ (f x).Process = x.Process)
    (h : S'.Sessions = Map.modify S.Sessions k f) : SessionsSurvive S S' := by
  intro k' Sess hk
  have hk' : Map.find S.Sessions k' = some Sess := hk
  simp only [Server.getSession, h]
  rw [Map.find_modify]
  by_cases hkk : k' = k
  · rw [if_pos hkk, hk']
    exact ⟨f Sess, rfl, (hf Sess).1, (hf Sess).2.1, (hf Sess).2.2⟩
  · rw [if_neg hkk]
    exact ⟨Sess, hk', rfl, rfl, rfl⟩

theorem SessionsSurvive_tryEmplace (S S' : Server) (k : String) (v : SessionData)
    (h : S'.Sessions = Map.tryEmplace strLe k v S.Sessions) : SessionsSurvive S S' := by
  intro k' Sess hk
  have hk' : Map.find S.Sessions k' = some Sess := hk
  refine ⟨Sess, ?_, rfl, rfl, rfl⟩
  simp only [Server.getSession, h, Map.tryEmplace]
  by_cases hs : (Map.find S.Sessions k).isSome = true
  · rw [if_pos hs]; exact hk'
  · rw [if_neg hs]
    have hne : k ≠ k' := by
      intro heq
      rw [heq, hk'] at hs
      exact hs rfl
    rw [Map.find_insertOrdered_ne _ _ _ _ _ hne]
    exact hk'

theorem SessionsSurvive_clientDetachedCallback (S : Server) (c : ClientID)
    (Session : String) : SessionsSurvive S (S.clientDetachedCallback c Session) :=
  SessionsSurvive_modify S _ Session (fun Sess => Sess.removeClient c)
    (fun _ => ⟨rfl, rfl, rfl⟩) rfl

theorem detachClients_SessionsSurvive (Session : String) :
    ∀ (l : List ClientID) (acc R : Server × List Effect),
      detachClients Session l acc = some R → SessionsSurvive acc.1 R.1 := by
  intro l
  induction l with
  | nil =>
    intro acc R hrun
    simp only [detachClients, Option.some.injEq] at hrun
    rw [← hrun]
    exact SessionsSurvive_of_eq _ _ rfl
  | cons c rest ih =>
    intro acc R hrun
    simp only [detachClients] at hrun
    cases hfind : Map.find acc.1.Clients c with
    | none => rw [hfind] at hrun; cases hrun
    | some CD =>
      rw [hfind] at hrun
      exact SessionsSurvive_trans _ _ _
        (SessionsSurvive_clientDetachedCallback acc.1 c Session) (ih _ R hrun)

/-- No handler removes a session from the table or changes its name, its
creation time or its process. -/
theorem dispatch_SessionsSurvive (S : Server) (Client : ClientID) (r : Request)
    (R : Server × List Effect) (hrun : dispatch S Client r = some R) :
    SessionsSurvive S R.1 := by
  cases r with
  | ClientID Message Rnd =>
    simp only [dispatch, requestClientID] at hrun
    cases hC : Map.find S.Clients Client with
    | none => rw [hC] at hrun; cases hrun
    | some C =>
      rw [hC] at hrun
      cases Message with
      | none =>
        simp only [Option.some.injEq] at hrun; rw [← hrun]
        exact SessionsSurvive_of_eq _ _ rfl
      | some u =>
        simp only [Option.some.injEq] at hrun; rw [← hrun]
        exact SessionsSurvive_of_eq _ _ rfl
  | DataSocket Message =>
    simp only [dispatch, requestDataSocket] at hrun
    cases hC : Map.find S.Clients Client with
    | none => rw [hC] at hrun; cases hrun
    | some C =>
      rw [hC] at hrun
      cases Message with
      | none =>
        simp only [Option.some.injEq] at hrun; rw [← hrun]
        exact SessionsSurvive_of_eq _ _ rfl
      | some Msg =>
        simp only at hrun
        cases hM : Map.find S.Clients Msg.ID with
        | none =>
          rw [hM] at hrun
          simp only [Option.some.injEq] at hrun; rw [← hrun]
          exact SessionsSurvive_of_eq _ _ rfl
        | some M =>
          rw [hM] at hrun
          simp only at hrun
          split at hrun
          · simp only [Option.some.injEq] at hrun; rw [← hrun]
            exact SessionsSurvive_of_eq _ _ rfl
          · split at hrun
            · simp only [Option.some.injEq] at hrun; rw [← hrun]
              exact SessionsSurvive_of_eq _ _ rfl
            · split at hrun
              · cases hrun
              · simp only [Option.some.injEq] at hrun
                rw [← hrun]
                apply SessionsSurvive_of_eq
                simp only [Server.turnClientIntoDataOfOtherClient]
                split <;> rfl
  | SessionList Message =>
    simp only [dispatch, requestSessionList] at hrun
    cases hC : Map.find S.Clients Client with
    | none => rw [hC] at hrun; cases hrun
    | some C =>
      rw [hC] at hrun
      cases Message with
      | none =>
        simp only [Option.some.injEq] at hrun; rw [← hrun]
        exact SessionsSurvive_of_eq _ _ rfl
      | some u =>
        simp only [Option.some.injEq] at hrun; rw [← hrun]
        exact SessionsSurvive_of_eq _ _ rfl
  | MakeSession Sys Message =>
    simp only [dispatch, requestMakeSession] at hrun
    cases hC : Map.find S.Clients Client with
    | none => rw [hC] at hrun; cases hrun
    | some C =>
      rw [hC] at hrun
      cases Message with
      | none =>
        simp only [Option.some.injEq] at hrun; rw [← hrun]
        exact SessionsSurvive_of_eq _ _ rfl
      | some Msg =>
        simp only at hrun
        split at hrun
        · simp only [Option.some.injEq] at hrun; rw [← hrun]
          exact SessionsSurvive_of_eq _ _ rfl
        · simp only [Option.some.injEq] at hrun; rw [← hrun]
          exact SessionsSurvive_tryEmplace S _ _ _ rfl
  | Attach Message =>
    simp only [dispatch, requestAttach] at hrun
    cases hC : Map.find S.Clients Client with
    | none => rw [hC] at hrun; cases hrun
    | some C =>
      rw [hC] at hrun
      cases Message with
      | none =>
        simp only [Option.some.injEq] at hrun; rw [← hrun]
        exact SessionsSurvive_of_eq _ _ rfl
      | some Msg =>
        simp only at hrun
        split at hrun
        · simp only [Option.some.injEq] at hrun; rw [← hrun]
          exact SessionsSurvive_of_eq _ _ rfl
        · simp only [Option.some.injEq] at hrun
          rw [← hrun]
          exact SessionsSurvive_modify S _ Msg.Name (fun Sess => Sess.attachClient Client)
            (fun _ => ⟨rfl, rfl, rfl⟩) rfl
  | Detach Message =>
    simp only [dispatch, requestDetach] at hrun
    cases hC : Map.find S.Clients Client with
    | none => rw [hC] at hrun; cases hrun
    | some C =>
      rw [hC] at hrun
      cases Message with
      | none =>
        simp only [Option.some.injEq] at hrun; rw [← hrun]
        exact SessionsSurvive_of_eq _ _ rfl
      | some Msg =>
        simp only at hrun
        split at hrun
        · simp only [Option.some.injEq] at hrun; rw [← hrun]
          exact SessionsSurvive_of_eq _ _ rfl
        · split at hrun
          · cases hrun
          · split at hrun
            · cases hrun
            · rename_i R' hdet
              simp only [Option.some.injEq] at hrun
              rw [← hrun]
              exact detachClients_SessionsSurvive _ _ _ R' hdet

theorem Map.find_assign {ν : Type} (le : String → String → Bool) (k k' : String) (v : ν)
    (m : List (String × ν)) :
    Map.find (Map.assign le k v m) k' = if k' = k then some v else Map.find m k' := by
  unfold Map.assign
  by_cases hs : (Map.find m k).isSome = true
  · rw [if_pos hs, Map.find_modify]
    by_cases hk : k' = k
    · rw [if_pos hk, if_pos hk, hk]
      cases hf : Map.find m k with
      | none => rw [hf] at hs; cases hs
      | some x => rfl
    · rw [if_neg hk, if_neg hk]
  · rw [if_neg hs]
    have hnone : Map.find m k = none := by
      cases hf : Map.find m k with
      | none => rfl
      | some x => rw [hf] at hs; exact absurd rfl hs
    by_cases hk : k' = k
    · rw [if_pos hk, hk]
      exact Map.find_insertOrdered_self le k v m hnone
    · rw [if_neg hk]
      exact Map.find_insertOrdered_ne le k k' v m (fun h => hk h.symm)

theorem Map.find_tryEmplace {ν : Type} (le : String → String → Bool) (k k' : String) (v : ν)
    (m : List (String × ν)) :
    Map.find (Map.tryEmplace le k v m) k' =
      match Map.find m k' with
      | some x => some x
      | none => if k' = k then some v else none := by
  unfold Map.tryEmplace
  by_cases hs : (Map.find m k).isSome = true
  · rw [if_pos hs]
    cases hf : Map.find m k' with
    | some x => rfl
    | none =>
      have hk : ¬ k' = k := by
        intro heq
        rw [← heq, hf] at hs
        cases hs
      simp only [if_neg hk]
  · rw [if_neg hs]
    have hnone : Map.find m k = none := by
      cases hf : Map.find m k with
      | none => rfl
      | some x => rw [hf] at hs; exact absurd rfl hs
    by_cases hk : k' = k
    · rw [hk, Map.find_insertOrdered_self le k v m hnone, hnone]
      simp
    · rw [Map.find_insertOrdered_ne le k k' v m (fun h => hk h.symm)]
      cases hf : Map.find m k' with
      | some x => rfl
      | none => simp only [if_neg hk]

/-- The overlay after the loop over the set-list (lines 165-168). -/
theorem find_foldl_set (k : String) :
    ∀ (l : List (String × String)) (m : List (String × Option String)),
      Map.find (l.foldl (fun E EnvVar => Map.tryEmplace strLe EnvVar.1 (some EnvVar.2) E) m) k =
        match Map.find m k with
        | some x => some x
        | none => (Map.find l k).map some := by
  intro l
  induction l with
  | nil =>
    intro m
    cases hf : Map.find m k <;> simp [Map.find, hf]
  | cons e rest ih =>
    intro m
    simp only [List.foldl_cons]
    rw [ih, Map.find_tryEmplace]
    cases hf : Map.find m k with
    | some x => rfl
    | none =>
      by_cases hk : k = e.1
      · have hk' : e.1 = k := hk.symm
        simp only [if_pos hk, Map.find, if_pos hk', Option.map_some']
      · have hk' : ¬ e.1 = k := fun h => hk h.symm
        simp only [if_neg hk, Map.find, if_neg hk']

/-- The overlay after the loop over the unset-list (lines 169-170). -/
theorem find_foldl_unset (k : String) :
    ∀ (l : List String) (m : List (String × Option String)),
      Map.find (l.foldl (fun E UnsetEnvVar => Map.tryEmplace strLe UnsetEnvVar none E) m) k =
        match Map.find m k with
        | some x => some x
        | none => if k ∈ l then some none else none := by
  intro l
  induction l with
  | nil =>
    intro m
    cases hf : Map.find m k <;> simp [hf]
  | cons u rest ih =>
    intro m
    simp only [List.foldl_cons]
    rw [ih, Map.find_tryEmplace]
    cases hf : Map.find m k with
    | some x => rfl
    | none =>
      by_cases hk : k = u
      · simp [hk]
      · simp [hk]

/-- The overlay `requestMakeSession` builds, for two built-in variables: the
built-in values, and for every other variable what the request says. -/
theorem find_makeEnvironment (Opts : request.SpawnOptions) (k1 v1 k2 v2 k : String) :
    Map.find (makeEnvironment Opts [(k1, v1), (k2, v2)]) k =
      if k = k2 then some (some v2)
      else if k = k1 then some (some v1)
      else clientOverlay Opts k := by
  simp only [makeEnvironment, List.foldl_cons, List.foldl_nil]
  rw [Map.find_assign, Map.find_assign, find_foldl_unset, find_foldl_set]
  by_cases h2 : k = k2
  · rw [if_pos h2, if_pos h2]
  · rw [if_neg h2, if_neg h2]
    by_cases h1 : k = k1
    · rw [if_pos h1, if_pos h1]
    · rw [if_neg h1, if_neg h1]
      simp only [Map.find, clientOverlay]
      cases Map.find Opts.SetEnvironment k <;> rfl

theorem writtenBytes_append (calls : List WriteCall) (c : WriteCall) :
    writtenBytes (calls ++ [c]) = writtenBytes calls + c.Written := by
  simp [writtenBytes]

theorem acceptedBytes_append (calls : List WriteCall) (c : WriteCall) :
    acceptedBytes (calls ++ [c]) = acceptedBytes calls ++ c.Offered.take c.Written := by
  simp [acceptedBytes]

/-- An honest backend is handed the first `n` bytes of the buffer when it
reports `n` bytes written of the chunk offered. -/
theorem take_chunk_of_le (X : Bytes) (size n : Nat)
    (h : n ≤ (X.take (min size X.length)).length) :
    (X.take (min size X.length)).take n = X.take n ∧ (X.take n).length = n := by
  have hlen : (X.take (min size X.length)).length = min size X.length := by
    rw [List.length_take]
    omega
  rw [hlen] at h
  constructor
  · rw [List.take_take, Nat.min_eq_left h]
  · rw [List.length_take]
    omega

theorem drainBody_inv {β : Type} (B : Backend β) (hB : B.Honest) (W : Bytes)
    (st : WriteState β) (h : DrainInv W st) : DrainInv W (drainBody B st) := by
  obtain ⟨h1, h2, h3⟩ := h
  have hn := hB st.Handle (st.WriteBuffer.take (min B.BufferSize st.WriteBuffer.length))
  obtain ⟨ht, hl⟩ := take_chunk_of_le st.WriteBuffer B.BufferSize _ hn
  refine ⟨?_, ?_, ?_⟩
  · simp only [drainBody, writtenBytes_append, h1]
  · simp only [drainBody, writtenBytes_append, acceptedBytes_append, List.length_append, h2,
      ht, hl]
  · simp only [drainBody, acceptedBytes_append, ht, List.append_assoc, List.take_append_drop]
    exact h3

theorem sendBody_inv {β : Type} (B : Backend β) (hB : B.Honest) (W : Bytes)
    (st : WriteState β) (h : SendInv W st) : SendInv W (sendBody B st) := by
  obtain ⟨h1, h2, h3⟩ := h
  have hn := hB st.Handle (st.Buffer.take (min B.BufferSize st.Buffer.length))
  obtain ⟨ht, hl⟩ := take_chunk_of_le st.Buffer B.BufferSize _ hn
  refine ⟨?_, ?_, ?_⟩
  · simp only [sendBody, writtenBytes_append, h1]
  · simp only [sendBody, writtenBytes_append, acceptedBytes_append, List.length_append, h2,
      ht, hl]
  · simp only [sendBody, acceptedBytes_append, ht, List.append_assoc, List.take_append_drop]
    exact h3

/-- The first loop of `write`, when it ends: the invariant holds, the bytes of
the caller are untouched, and the write buffer is empty unless the backend
cleared `Continue`. -/
theorem drainLoop_spec {β : Type} (B : Backend β) (hB : B.Honest) (W : Bytes) :
    ∀ (fuel : Nat) (st st' : WriteState β), DrainInv W st →
      drainLoop B fuel st = some st' →
      DrainInv W st' ∧ st'.Buffer = st.Buffer ∧
        (st'.ContinueWriting = true → st'.WriteBuffer = []) := by
  intro fuel
  induction fuel with
  | zero =>
    intro st st' h hrun
    simp only [drainLoop] at hrun
    split at hrun
    · cases hrun
    · rename_i hc
      simp only [Option.some.injEq] at hrun
      rw [← hrun]
      refine ⟨h, rfl, ?_⟩
      intro hcont
      simp only [hcont, Bool.true_and, Bool.not_eq_true', Bool.not_eq_false,
        List.isEmpty_iff] at hc
      simpa using hc
  | succ n ih =>
    intro st st' h hrun
    simp only [drainLoop] at hrun
    split at hrun
    · obtain ⟨a, b, c⟩ := ih _ st' (drainBody_inv B hB W st h) hrun
      exact ⟨a, by rw [b]; rfl, c⟩
    · rename_i hc
      simp only [Option.some.injEq] at hrun
      rw [← hrun]
      refine ⟨h, rfl, ?_⟩
      intro hcont
      simp only [hcont, Bool.true_and, Bool.not_eq_true', Bool.not_eq_false,
        List.isEmpty_iff] at hc
      simpa using hc

/-- The second loop of `write`, when it ends: the invariant holds and the write
buffer is untouched. -/
theorem sendLoop_spec {β : Type} (B : Backend β) (hB : B.Honest) (W : Bytes) :
    ∀ (fuel : Nat) (st st' : WriteState β), SendInv W st →
      sendLoop B fuel st = some st' →
      SendInv W st' ∧ st'.WriteBuffer = st.WriteBuffer := by
  intro fuel
  induction fuel with
  | zero =>
    intro st st' h hrun
    simp only [sendLoop] at hrun
    split at hrun
    · cases hrun
    · simp only [Option.some.injEq] at hrun
      rw [← hrun]
      exact ⟨h, rfl⟩
  | succ n ih =>
    intro st st' h hrun
    simp only [sendLoop] at hrun
    split at hrun
    · obtain ⟨a, b⟩ := ih _ st' (sendBody_inv B hB W st h) hrun
      exact ⟨a, by rw [b]; rfl⟩
    · simp only [Option.some.injEq] at hrun
      rw [← hrun]
      exact ⟨h, rfl⟩

theorem chunk_ne_nil (X : Bytes) (size : Nat) (hs : 0 < size) (hX : X ≠ []) :
    X.take (min size X.length) ≠ [] := by
  intro h
  have hl := congrArg List.length h
  have hpos : 0 < X.length := List.length_pos.mpr hX
  rw [List.length_take] at hl
  simp only [List.length_nil] at hl
  omega

/-- The first loop of `write` ends within as many passes as there are bytes in
the write buffer, for a backend that progresses. -/
theorem drainLoop_terminates {β : Type} (B : Backend β) (hP : B.Progresses)
    (hs : 0 < B.BufferSize) :
    ∀ (fuel : Nat) (st : WriteState β),
      (st.ContinueWriting = true → st.WriteBuffer.length ≤ fuel) →
      ∃ st', drainLoop B fuel st = some st' := by
  intro fuel
  induction fuel with
  | zero =>
    intro st h
    simp only [drainLoop]
    split
    · rename_i hc
      simp only [Bool.and_eq_true, Bool.not_eq_true', List.isEmpty_eq_false] at hc
      have := h hc.1
      have hpos : 0 < st.WriteBuffer.length := List.length_pos.mpr hc.2
      omega
    · exact ⟨st, rfl⟩
  | succ n ih =>
    intro st h
    simp only [drainLoop]
    split
    · rename_i hc
      simp only [Bool.and_eq_true, Bool.not_eq_true', List.isEmpty_eq_false] at hc
      apply ih
      intro hcont
      have hle := h hc.1
      have hV := chunk_ne_nil st.WriteBuffer B.BufferSize hs hc.2
      have hpos := hP st.Handle _ hV hcont
      simp only [drainBody, List.length_drop]
      omega
    · exact ⟨st, rfl⟩

/-- The second loop of `write` ends within as many passes as there are bytes
left of the caller, for a backend that progresses. -/
theorem sendLoop_terminates {β : Type} (B : Backend β) (hP : B.Progresses)
    (hs : 0 < B.BufferSize) :
    ∀ (fuel : Nat) (st : WriteState β),
      (st.ContinueWriting = true → st.Buffer.length ≤ fuel) →
      ∃ st', sendLoop B fuel st = some st' := by
  intro fuel
  induction fuel with
  | zero =>
    intro st h
    simp only [sendLoop]
    split
    · rename_i hc
      simp only [Bool.and_eq_true, Bool.not_eq_true', List.isEmpty_eq_false] at hc
      have := h hc.1
      have hpos : 0 < st.Buffer.length := List.length_pos.mpr hc.2
      omega
    · exact ⟨st, rfl⟩
  | succ n ih =>
    intro st h
    simp only [sendLoop]
    split
    · rename_i hc
      simp only [Bool.and_eq_true, Bool.not_eq_true', List.isEmpty_eq_false] at hc
      apply ih
      intro hcont
      have hle := h hc.1
      have hV := chunk_ne_nil st.Buffer B.BufferSize hs hc.2
      have hpos := hP st.Handle _ hV hcont
      simp only [sendBody, List.length_drop]
      omega
    · exact ⟨st, rfl⟩

/-- What a call of `write` that returns has done, for an honest backend: the
count returned is the number of bytes reported written, which is the number of
bytes handed over; these bytes followed by the new write buffer are the old
write buffer followed by the bytes of the caller, unless the first loop was
stopped by the backend, when they are the old write buffer alone. -/
theorem write_spec {β : Type} (B : Backend β) (hB : B.Honest) (fuel : Nat)
    (ch : CommunicationChannel β) (b : Bytes) (r : WriteResult β)
    (hrun : write B fuel ch b = some (.ok r)) :
    r.BytesSent = writtenBytes r.Calls ∧
      (acceptedBytes r.Calls).length = writtenBytes r.Calls ∧
      (acceptedBytes r.Calls ++ r.Channel.WriteBuffer = ch.WriteBuffer ++ b ∨
        (ch.WriteBuffer ≠ [] ∧
          acceptedBytes r.Calls ++ r.Channel.WriteBuffer = ch.WriteBuffer)) := by
  unfold write at hrun
  split at hrun
  · cases hrun
  · have h0 : DrainInv ch.WriteBuffer
        ({ Handle := ch.Handle, ContinueWriting := true, WriteBuffer := ch.WriteBuffer,
           Buffer := b, BytesSent := 0, Calls := [] } : WriteState β) :=
      ⟨rfl, rfl, rfl⟩
    split at hrun
    · cases hrun
    · rename_i st1 hd
      obtain ⟨⟨a1, a2, a3⟩, hbuf, hempty⟩ := drainLoop_spec B hB ch.WriteBuffer fuel _ st1 h0 hd
      split at hrun
      · rename_i hstop
        simp only [Option.some.injEq, Except.ok.injEq] at hrun
        rw [← hrun]
        refine ⟨a1, a2, ?_⟩
        by_cases hW : ch.WriteBuffer = []
        · -- with an empty write buffer the first loop makes no pass
          exfalso
          cases fuel with
          | zero =>
            simp only [drainLoop, hW, List.isEmpty_nil, Bool.not_true, Bool.and_false,
              Bool.false_eq_true, if_false, Option.some.injEq] at hd
            rw [← hd] at hstop
            simp at hstop
          | succ n =>
            simp only [drainLoop, hW, List.isEmpty_nil, Bool.not_true, Bool.and_false,
              Bool.false_eq_true, if_false, Option.some.injEq] at hd
            rw [← hd] at hstop
            simp at hstop
        · right
          exact ⟨hW, a3⟩
      · rename_i hgo
        have hcont : st1.ContinueWriting = true := by
          cases hc : st1.ContinueWriting with
          | true => rfl
          | false => rw [hc] at hgo; exact absurd rfl hgo
        have hW1 := hempty hcont
        have hs0 : SendInv (ch.WriteBuffer ++ b)
            ({ st1 with ContinueWriting := true } : WriteState β) := by
          refine ⟨a1, a2, ?_⟩
          show acceptedBytes st1.Calls ++ st1.Buffer = ch.WriteBuffer ++ b
          rw [hbuf, ← a3, hW1, List.append_nil]
        split at hrun
        · cases hrun
        · rename_i st2 hsend
          obtain ⟨⟨b1, b2, b3⟩, hwb⟩ := sendLoop_spec B hB _ fuel _ st2 hs0 hsend
          simp only [Option.some.injEq, Except.ok.injEq] at hrun
          rw [← hrun]
          refine ⟨b1, b2, Or.inl ?_⟩
          show acceptedBytes st2.Calls ++ (st2.WriteBuffer ++ st2.Buffer) = ch.WriteBuffer ++ b
          rw [hwb]
          show acceptedBytes st2.Calls ++ (st1.WriteBuffer ++ st2.Buffer) = ch.WriteBuffer ++ b
          rw [hW1, List.nil_append]
          exact b3

/-- A call of `write` on a channel that has not failed returns, for an honest
backend that progresses and a chunk size that is not zero. -/
theorem write_terminates {β : Type} (B : Backend β) (hB : B.Honest) (hP : B.Progresses)
    (hs : 0 < B.BufferSize) (fuel : Nat) (ch : CommunicationChannel β) (b : Bytes)
    (hF : ch.Failed = false) (h1 : ch.WriteBuffer.length ≤ fuel) (h2 : b.length ≤ fuel) :
    ∃ r, write B fuel ch b = some (.ok r) := by
  have h0 : DrainInv ch.WriteBuffer
      ({ Handle := ch.Handle, ContinueWriting := true, WriteBuffer := ch.WriteBuffer,
         Buffer := b, BytesSent := 0, Calls := [] } : WriteState β) :=
    ⟨rfl, rfl, rfl⟩
  obtain ⟨st1, hd⟩ := drainLoop_terminates B hP hs fuel
    ({ Handle := ch.Handle, ContinueWriting := true, WriteBuffer := ch.WriteBuffer,
       Buffer := b, BytesSent := 0, Calls := [] } : WriteState β) (fun _ => h1)
  obtain ⟨_, hbuf, _⟩ := drainLoop_spec B hB ch.WriteBuffer fuel _ st1 h0 hd
  unfold write
  simp only [hF, Bool.false_eq_true, if_false, hd]
  by_cases hstop : (!st1.ContinueWriting) = true
  · simp only [hstop, if_true]
    exact ⟨_, rfl⟩
  · simp only [hstop, if_false]
    obtain ⟨st2, hsend⟩ := sendLoop_terminates B hP hs fuel
      ({ st1 with ContinueWriting := true } : WriteState β)
      (fun _ => by show st1.Buffer.length ≤ fuel; rw [hbuf]; exact h2)
    simp only [hsend]
    exact ⟨_, rfl⟩

/-- A call of `write` that returns leaves the read buffer and the failure flag
of the channel as they were. -/
theorem write_keeps_flag {β : Type} (B : Backend β) (fuel : Nat)
    (ch : CommunicationChannel β) (b : Bytes) (r : WriteResult β)
    (hrun : write B fuel ch b = some (.ok r)) :
    r.Channel.Failed = ch.Failed ∧ r.Channel.ReadBuffer = ch.ReadBuffer := by
  unfold write at hrun
  split at hrun
  · cases hrun
  · split at hrun
    · cases hrun
    · split at hrun
      · simp only [Option.some.injEq, Except.ok.injEq] at hrun
        rw [← hrun]
        exact ⟨rfl, rfl⟩
      · split at hrun
        · cases hrun
        · simp only [Option.some.injEq, Except.ok.injEq] at hrun
          rw [← hrun]
          exact ⟨rfl, rfl⟩

theorem split_of_append_eq (x y b : Bytes) (h : x ++ y = b) :
    x = b.take x.length ∧ y = b.drop x.length ∧ x.length ≤ b.length := by
  subst h
  simp

theorem burstBackend_honest : burstBackend.Honest := by
  intro q V
  simp only [burstBackend]
  split
  · exact Nat.le_refl _
  · simp only; omega

theorem burstBackend_progresses : burstBackend.Progresses := by
  intro q V hV hc
  simp only [burstBackend] at hc ⊢
  split
  · exact List.length_pos.mpr hV
  · rename_i hgt
    simp only [hgt, if_false] at hc
    cases hc

theorem drainLoop_calls {β : Type} (B : Backend β) :
    ∀ (fuel : Nat) (st st' : WriteState β), drainLoop B fuel st = some st' →
      ∃ new, st'.Calls = st.Calls ++ new := by
  intro fuel
  induction fuel with
  | zero =>
    intro st st' hrun
    simp only [drainLoop] at hrun
    split at hrun
    · cases hrun
    · simp only [Option.some.injEq] at hrun
      exact ⟨[], by rw [← hrun, List.append_nil]⟩
  | succ n ih =>
    intro st st' hrun
    simp only [drainLoop] at hrun
    split at hrun
    · obtain ⟨new, hnew⟩ := ih _ st' hrun
      refine ⟨[(⟨st.WriteBuffer.take (min B.BufferSize st.WriteBuffer.length),
        (B.writeImpl st.Handle
          (st.WriteBuffer.take (min B.BufferSize st.WriteBuffer.length))).1⟩ : WriteCall)]
        ++ new, ?_⟩
      rw [hnew, ← List.append_assoc]
      rfl
    · simp only [Option.some.injEq] at hrun
      exact ⟨[], by rw [← hrun, List.append_nil]⟩

theorem sendLoop_calls {β : Type} (B : Backend β) :
    ∀ (fuel : Nat) (st st' : WriteState β), sendLoop B fuel st = some st' →
      ∃ new, st'.Calls = st.Calls ++ new := by
  intro fuel
  induction fuel with
  | zero =>
    intro st st' hrun
    simp only [sendLoop] at hrun
    split at hrun
    · cases hrun
    · simp only [Option.some.injEq] at hrun
      exact ⟨[], by rw [← hrun, List.append_nil]⟩
  | succ n ih =>
    intro st st' hrun
    simp only [sendLoop] at hrun
    split at hrun
    · obtain ⟨new, hnew⟩ := ih _ st' hrun
      refine ⟨[(⟨st.Buffer.take (min B.BufferSize st.Buffer.length),
        (B.writeImpl st.Handle
          (st.Buffer.take (min B.BufferSize st.Buffer.length))).1⟩ : WriteCall)]
        ++ new, ?_⟩
      rw [hnew, ← List.append_assoc]
      rfl
    · simp only [Option.some.injEq] at hrun
      exact ⟨[], by rw [← hrun, List.append_nil]⟩

/-- A call of `write` that returns, on a channel whose write buffer is not
empty, has first offered the backend the first chunk of the write buffer. -/
theorem write_first_call {β : Type} (B : Backend β) (fuel : Nat)
    (ch : CommunicationChannel β) (b : Bytes) (r : WriteResult β)
    (hW : ch.WriteBuffer ≠ []) (hrun : write B fuel ch b = some (.ok r)) :
    ∃ c rest, r.Calls = c :: rest ∧
      c.Offered = ch.WriteBuffer.take (min B.BufferSize ch.WriteBuffer.length) := by
  have hcond : (true && !ch.WriteBuffer.isEmpty) = true := by
    simp [hW]
  unfold write at hrun
  split at hrun
  · cases hrun
  · split at hrun
    · cases hrun
    · rename_i st1 hd
      have hfirst : ∃ c rest, st1.Calls = c :: rest ∧
          c.Offered = ch.WriteBuffer.take (min B.BufferSize ch.WriteBuffer.length) := by
        cases fuel with
        | zero =>
          simp only [drainLoop, hcond, if_true] at hd
          cases hd
        | succ n =>
          simp only [drainLoop, hcond, if_true] at hd
          obtain ⟨new, hnew⟩ := drainLoop_calls B n _ st1 hd
          exact ⟨⟨ch.WriteBuffer.take (min B.BufferSize ch.WriteBuffer.length),
            (B.writeImpl ch.Handle
              (ch.WriteBuffer.take (min B.BufferSize ch.WriteBuffer.length))).1⟩,
            new, by rw [hnew]; rfl, rfl⟩
      obtain ⟨c, rest, hc, hoff⟩ := hfirst
      split at hrun
      · simp only [Option.some.injEq, Except.ok.injEq] at hrun
        rw [← hrun]
        exact ⟨c, rest, hc, hoff⟩
      · split at hrun
        · cases hrun
        · rename_i st2 hsend
          obtain ⟨new, hnew⟩ := sendLoop_calls B fuel _ st2 hsend
          simp only [Option.some.injEq, Except.ok.injEq] at hrun
          rw [← hrun]
          refine ⟨c, rest ++ new, ?_, hoff⟩
          show st2.Calls = c :: (rest ++ new)
          rw [hnew]
          show st1.Calls ++ new = c :: (rest ++ new)
          rw [hc]
          rfl

theorem readBody_len {β : Type} (B : Backend β) (n : Nat) (P : Bytes) (st : ReadState β)
    (h : ReadLen n P st) : ReadLen n P (readBody B st) := by
  obtain ⟨h1, h2⟩ := h
  unfold readBody
  by_cases h0 : (B.readImpl st.Handle B.BufferSize).1.length = 0
  · simp only [h0, if_true]
    exact ⟨h1, h2⟩
  · simp only [h0, if_false]
    refine ⟨?_, ?_⟩
    · simp only [List.length_append, List.length_take]
      omega
    · exact h2.trans (List.prefix_append _ _)

theorem readLoop_len {β : Type} (B : Backend β) (n : Nat) (P : Bytes) :
    ∀ (fuel : Nat) (st : ReadState β), ReadLen n P st →
      ReadLen n P (readLoop B n fuel st) := by
  intro fuel
  induction fuel with
  | zero => intro st h; exact h
  | succ k ih =>
    intro st h
    unfold readLoop
    by_cases hc : readCond n st = true
    · rw [if_pos hc]
      exact ih _ (readBody_len B n P st h)
    · rw [if_neg hc]; exact h

/-- The case of the specification: a descriptor with room for ten bytes is
given twenty; `write` returns 10 and keeps the other ten, and the next `write`
of nothing hands these ten over and empties the write buffer. -/
theorem write_twenty_bytes_example :
    ∃ r r2, write burstBackend 20 ⟨10, [], [], false⟩ twentyBytes = some (.ok r) ∧
      r.BytesSent = 10 ∧ r.Channel.WriteBuffer = [11, 12, 13, 14, 15, 16, 17, 18, 19, 20] ∧
      write burstBackend 20 r.Channel [] = some (.ok r2) ∧
      r2.BytesSent = 10 ∧ acceptedBytes r2.Calls = [11, 12, 13, 14, 15, 16, 17, 18, 19, 20] ∧
      r2.Channel.WriteBuffer = [] :=
  ⟨_, _, rfl, rfl, rfl, rfl, rfl, rfl, rfl⟩

theorem writtenBytes_cons (c : WriteCall) (cs : List WriteCall) :
    writtenBytes (c :: cs) = c.Written + writtenBytes cs := by
  simp [writtenBytes]

theorem callsInOrder_snoc (size : Nat) (c : WriteCall) :
    ∀ (cs : List WriteCall) (S : Bytes),
      callsInOrder size S cs → c.Offered <+: S.drop (writtenBytes cs) →
      c.Offered.length ≤ size → c.Written ≤ c.Offered.length →
      callsInOrder size S (cs ++ [c]) := by
  intro cs
  induction cs with
  | nil =>
    intro S _ h1 h2 h3
    have h1' : c.Offered <+: S := by simpa [writtenBytes] using h1
    exact ⟨h1', h2, h3, trivial⟩
  | cons d ds ih =>
    intro S h h1 h2 h3
    obtain ⟨a1, a2, a3, a4⟩ := h
    refine ⟨a1, a2, a3, ?_⟩
    apply ih (S.drop d.Written) a4 _ h2 h3
    rw [List.drop_drop, ← writtenBytes_cons]
    exact h1

theorem callsInOrder_append_right (size : Nat) :
    ∀ (cs : List WriteCall) (W b : Bytes),
      callsInOrder size W cs → callsInOrder size (W ++ b) cs := by
  intro cs
  induction cs with
  | nil => intro W b _; trivial
  | cons c cs ih =>
    intro W b h
    obtain ⟨a1, a2, a3, a4⟩ := h
    refine ⟨a1.trans (List.prefix_append W b), a2, a3, ?_⟩
    rw [List.drop_append_eq_append_drop]
    exact ih _ _ a4

theorem callsInOrder_offered_le (size : Nat) :
    ∀ (cs : List WriteCall) (S : Bytes), callsInOrder size S cs →
      ∀ c ∈ cs, c.Offered.length ≤ size ∧ c.Written ≤ c.Offered.length := by
  intro cs
  induction cs with
  | nil => intro S _ c hc; cases hc
  | cons d ds ih =>
    intro S h c hc
    obtain ⟨_, a2, a3, a4⟩ := h
    rcases List.mem_cons.mp hc with h1 | h1
    · rw [h1]; exact ⟨a2, a3⟩
    · exact ih _ a4 c h1

theorem chunk_length_le (X : Bytes) (size : Nat) :
    (X.take (min size X.length)).length ≤ size := by
  rw [List.length_take]
  omega

theorem drainBody_order {β : Type} (B : Backend β) (hB : B.Honest) (W : Bytes)
    (st : WriteState β) (h : DrainOrder B.BufferSize W st) :
    DrainOrder B.BufferSize W (drainBody B st) := by
  obtain ⟨h1, h2⟩ := h
  have hn := hB st.Handle (st.WriteBuffer.take (min B.BufferSize st.WriteBuffer.length))
  refine ⟨?_, ?_⟩
  · apply callsInOrder_snoc B.BufferSize _ st.Calls W h1
    · show st.WriteBuffer.take _ <+: W.drop (writtenBytes st.Calls)
      rw [← h2]
      exact List.take_prefix _ _
    · exact chunk_length_le _ _
    · exact hn
  · show st.WriteBuffer.drop _ = W.drop (writtenBytes (st.Calls ++ [_]))
    rw [writtenBytes_append, h2, List.drop_drop]

theorem sendBody_order {β : Type} (B : Backend β) (hB : B.Honest) (S : Bytes)
    (st : WriteState β) (h : SendOrder B.BufferSize S st) :
    SendOrder B.BufferSize S (sendBody B st) := by
  obtain ⟨h1, h2⟩ := h
  have hn := hB st.Handle (st.Buffer.take (min B.BufferSize st.Buffer.length))
  refine ⟨?_, ?_⟩
  · apply callsInOrder_snoc B.BufferSize _ st.Calls S h1
    · show st.Buffer.take _ <+: S.drop (writtenBytes st.Calls)
      rw [← h2]
      exact List.take_prefix _ _
    · exact chunk_length_le _ _
    · exact hn
  · show st.Buffer.drop _ = S.drop (writtenBytes (st.Calls ++ [_]))
    rw [writtenBytes_append, h2, List.drop_drop]

theorem drainLoop_order {β : Type} (B : Backend β) (hB : B.Honest) (W : Bytes) :
    ∀ (fuel : Nat) (st st' : WriteState β), DrainOrder B.BufferSize W st →
      drainLoop B fuel st = some st' → DrainOrder B.BufferSize W st' := by
  intro fuel
  induction fuel with
  | zero =>
    intro st st' h hrun
    simp only [drainLoop] at hrun
    split at hrun
    · cases hrun
    · simp only [Option.some.injEq] at hrun
      rw [← hrun]; exact h
  | succ n ih =>
    intro st st' h hrun
    simp only [drainLoop] at hrun
    split at hrun
    · exact ih _ st' (drainBody_order B hB W st h) hrun
    · simp only [Option.some.injEq] at hrun
      rw [← hrun]; exact h

theorem sendLoop_order {β : Type} (B : Backend β) (hB : B.Honest) (S : Bytes) :
    ∀ (fuel : Nat) (st st' : WriteState β), SendOrder B.BufferSize S st →
      sendLoop B fuel st = some st' → SendOrder B.BufferSize S st' := by
  intro fuel
  induction fuel with
  | zero =>
    intro st st' h hrun
    simp only [sendLoop] at hrun
    split at hrun
    · cases hrun
    · simp only [Option.some.injEq] at hrun
      rw [← hrun]; exact h
  | succ n ih =>
    intro st st' h hrun
    simp only [sendLoop] at hrun
    split at hrun
    · exact ih _ st' (sendBody_order B hB S st h) hrun
    · simp only [Option.some.injEq] at hrun
      rw [← hrun]; exact h

/-- The order of the underlying writes of a call of `write` that returns, for
an honest backend: they take the old write buffer followed by the bytes of the
caller in order; and when the backend stopped the first loop, the call made
the underlying writes of that loop only, which take the old write buffer in
order, and it left the write buffer as that loop left it. -/
theorem write_order {β : Type} (B : Backend β) (hB : B.Honest) (fuel : Nat)
    (ch : CommunicationChannel β) (b : Bytes) (r : WriteResult β)
    (hrun : write B fuel ch b = some (.ok r)) :
    callsInOrder B.BufferSize (ch.WriteBuffer ++ b) r.Calls ∧
      ∀ st1, drainLoop B fuel (writeStart ch b) = some st1 → st1.ContinueWriting = false →
        r.Calls = st1.Calls ∧ r.Channel.WriteBuffer = st1.WriteBuffer ∧
          callsInOrder B.BufferSize ch.WriteBuffer r.Calls := by
  have h0 : DrainOrder B.BufferSize ch.WriteBuffer (writeStart ch b) := ⟨trivial, rfl⟩
  have hi : DrainInv ch.WriteBuffer (writeStart ch b) := ⟨rfl, rfl, rfl⟩
  unfold write at hrun
  split at hrun
  · cases hrun
  · split at hrun
    · cases hrun
    · rename_i st1 hd
      have hd1 : drainLoop B fuel (writeStart ch b) = some st1 := hd
      obtain ⟨o1, o2⟩ := drainLoop_order B hB ch.WriteBuffer fuel _ st1 h0 hd1
      obtain ⟨⟨_, a2, a3⟩, hbuf, hempty⟩ :=
        drainLoop_spec B hB ch.WriteBuffer fuel _ st1 hi hd1
      split at hrun
      · simp only [Option.some.injEq, Except.ok.injEq] at hrun
        rw [← hrun]
        refine ⟨callsInOrder_append_right _ _ _ _ o1, ?_⟩
        intro st1' hd' _
        have heq : st1' = st1 := Option.some.inj (hd'.symm.trans hd1)
        rw [heq]
        exact ⟨rfl, rfl, o1⟩
      · rename_i hgo
        have hcont : st1.ContinueWriting = true := by
          cases hc : st1.ContinueWriting with
          | true => rfl
          | false => rw [hc] at hgo; exact absurd rfl hgo
        have hW1 := hempty hcont
        split at hrun
        · cases hrun
        · rename_i st2 hsend
          have hw : writtenBytes st1.Calls = ch.WriteBuffer.length := by
            rw [hW1, List.append_nil] at a3
            rw [← a2, a3]
          have hs0 : SendOrder B.BufferSize (ch.WriteBuffer ++ b)
              ({ st1 with ContinueWriting := true } : WriteState β) := by
            refine ⟨callsInOrder_append_right _ _ _ _ o1, ?_⟩
            show st1.Buffer = (ch.WriteBuffer ++ b).drop (writtenBytes st1.Calls)
            rw [hw, List.drop_left, hbuf]
            rfl
          obtain ⟨p1, _⟩ := sendLoop_order B hB _ fuel _ st2 hs0 hsend
          simp only [Option.some.injEq, Except.ok.injEq] at hrun
          rw [← hrun]
          refine ⟨p1, ?_⟩
          intro st1' hd' hstop
          have heq : st1' = st1 := Option.some.inj (hd'.symm.trans hd1)
          rw [heq, hcont] at hstop
          cases hstop

theorem oneByteBackend_honest : oneByteBackend.Honest := by
  intro h V
  simp only [oneByteBackend]
  omega

/-- A draining that the backend stops: with `1, 2, 3` waiting and `4, 5` to
write, the backend is offered the chunk `1, 2`, takes the byte `1` and clears
`Continue`; `write` returns 1, keeps `2, 3` and makes no other underlying
write. -/
theorem write_stopped_drain_example :
    ∃ r st1, write oneByteBackend 5 ⟨(), [], [1, 2, 3], false⟩ [4, 5] = some (.ok r) ∧
      drainLoop oneByteBackend 5 (writeStart ⟨(), [], [1, 2, 3], false⟩ [4, 5]) = some st1 ∧
      st1.ContinueWriting = false ∧
      r.BytesSent = 1 ∧ r.Calls = [⟨[1, 2], 1⟩] ∧ r.Channel.WriteBuffer = [2, 3] :=
  ⟨_, _, rfl, rfl, rfl, rfl, rfl, rfl⟩

theorem readBody_chunks {β : Type} (B : Backend β) (st : ReadState β) :
    (readBody B st).Chunks = st.Chunks ++ [(B.readImpl st.Handle B.BufferSize).1] := by
  unfold readBody
  by_cases h0 : (B.readImpl st.Handle B.BufferSize).1.length = 0
  · simp only [h0, if_true]
  · simp only [h0, if_false]

/-- The reading loop goes on after an underlying read only if the chunk read
fills the chunk size and is not more than the bytes still wanted. -/
theorem readBody_continues {β : Type} (B : Backend β) (st : ReadState β)
    (h : (readBody B st).ContinueReading = true) :
    B.BufferSize ≤ (B.readImpl st.Handle B.BufferSize).1.length ∧
      (B.readImpl st.Handle B.BufferSize).1.length ≤ st.RemainingBytes ∧
      0 < (B.readImpl st.Handle B.BufferSize).1.length := by
  unfold readBody at h
  by_cases h0 : (B.readImpl st.Handle B.BufferSize).1.length = 0
  · simp only [h0, if_true] at h
    cases h
  · simp only [h0, if_false] at h
    by_cases hov : st.RemainingBytes < (B.readImpl st.Handle B.BufferSize).1.length
    · simp [hov] at h
    · by_cases hsh : (B.readImpl st.Handle B.BufferSize).1.length < B.BufferSize
      · simp [hov, hsh] at h
      · exact ⟨by omega, by omega, by omega⟩

/-- The reading loop stops after a chunk that is empty, shorter than the chunk
size, or longer than the bytes still wanted. -/
theorem readBody_stops {β : Type} (B : Backend β) (st : ReadState β)
    (h : (B.readImpl st.Handle B.BufferSize).1 = [] ∨
      (B.readImpl st.Handle B.BufferSize).1.length < B.BufferSize ∨
      st.RemainingBytes < (B.readImpl st.Handle B.BufferSize).1.length) :
    (readBody B st).ContinueReading = false := by
  cases hc : (readBody B st).ContinueReading with
  | false => rfl
  | true =>
    obtain ⟨a, b, c⟩ := readBody_continues B st hc
    rcases h with h | h | h
    · rw [h] at c; simp at c
    · omega
    · omega

theorem readBody_count {β : Type} (B : Backend β) (R0 : Nat) (st : ReadState β)
    (hc : st.ContinueReading = true) (hr : 0 < st.RemainingBytes)
    (h : ReadCount B.BufferSize R0 st) : ReadCount B.BufferSize R0 (readBody B st) := by
  have h2 := h.2 hc
  have hlen : (readBody B st).Chunks.length = st.Chunks.length + 1 := by
    rw [readBody_chunks, List.length_append]
    rfl
  refine ⟨?_, ?_⟩
  · rw [hlen, Nat.add_mul, Nat.one_mul]
    omega
  · intro hcont
    obtain ⟨a, b, c⟩ := readBody_continues B st hcont
    have hrem : (readBody B st).RemainingBytes =
        st.RemainingBytes - (B.readImpl st.Handle B.BufferSize).1.length := by
      unfold readBody
      have h0 : ¬ (B.readImpl st.Handle B.BufferSize).1.length = 0 := by omega
      simp only [h0, if_false, Nat.min_eq_left b]
    rw [hlen, hrem, Nat.add_mul, Nat.one_mul]
    omega

theorem readLoop_count {β : Type} (B : Backend β) (n R0 : Nat) :
    ∀ (fuel : Nat) (st : ReadState β), ReadCount B.BufferSize R0 st →
      ReadCount B.BufferSize R0 (readLoop B n fuel st) := by
  intro fuel
  induction fuel with
  | zero => intro st h; exact h
  | succ k ih =>
    intro st h
    unfold readLoop
    by_cases hc : readCond n st = true
    · rw [if_pos hc]
      simp only [readCond, Bool.and_eq_true, decide_eq_true_eq] at hc
      exact ih _ (readBody_count B R0 st hc.1.1 hc.1.2 h)
    · rw [if_neg hc]; exact h

/-- Three underlying reads serve `read(5)` with chunks of two bytes: two whole
chunks, and a third of which one byte is kept for the next call. -/
theorem read_five_bytes_example :
    ∃ r, read pairBackend ⟨(), [], [], false⟩ 5 = .ok r ∧
      r.Return = [7, 8, 7, 8, 7] ∧ r.Chunks.length = 3 ∧ r.Channel.ReadBuffer = [8] :=
  ⟨_, rfl, rfl, rfl, rfl⟩


theorem drainLoop_of_done {β : Type} (B : Backend β) (fuel : Nat) (st : WriteState β)
    (h : (st.ContinueWriting && !st.WriteBuffer.isEmpty) = false) :
    drainLoop B fuel st = some st := by
  cases fuel <;> simp only [drainLoop, h, Bool.false_eq_true, if_false]

theorem sendLoop_of_done {β : Type} (B : Backend β) (fuel : Nat) (st : WriteState β)
    (h : (st.ContinueWriting && !st.Buffer.isEmpty) = false) :
    sendLoop B fuel st = some st := by
  cases fuel <;> simp only [sendLoop, h, Bool.false_eq_true, if_false]

/-- More passes allowed do not change what the first loop of `write` gives. -/
theorem drainLoop_fuel_le {β : Type} (B : Backend β) :
    ∀ (fuel : Nat) (st st' : WriteState β), drainLoop B fuel st = some st' →
      ∀ fuel', fuel ≤ fuel' → drainLoop B fuel' st = some st' := by
  intro fuel
  induction fuel with
  | zero =>
    intro st st' hrun fuel' _
    simp only [drainLoop] at hrun
    split at hrun
    · cases hrun
    · rename_i hc
      rw [drainLoop_of_done B fuel' st (Bool.eq_false_iff.mpr hc)]
      exact hrun
  | succ fuel ih =>
    intro st st' hrun fuel' hle
    obtain ⟨f, rfl⟩ : ∃ f, fuel' = f + 1 := ⟨fuel' - 1, by omega⟩
    simp only [drainLoop] at hrun ⊢
    split at hrun
    · rename_i hc
      rw [if_pos hc]
      exact ih _ _ hrun f (by omega)
    · rename_i hc
      rw [if_neg hc]
      exact hrun

/-- More passes allowed do not change what the second loop of `write` gives. -/
theorem sendLoop_fuel_le {β : Type} (B : Backend β) :
    ∀ (fuel : Nat) (st st' : WriteState β), sendLoop B fuel st = some st' →
      ∀ fuel', fuel ≤ fuel' → sendLoop B fuel' st = some st' := by
  intro fuel
  induction fuel with
  | zero =>
    intro st st' hrun fuel' _
    simp only [sendLoop] at hrun
    split at hrun
    · cases hrun
    · rename_i hc
      rw [sendLoop_of_done B fuel' st (Bool.eq_false_iff.mpr hc)]
      exact hrun
  | succ fuel ih =>
    intro st st' hrun fuel' hle
    obtain ⟨f, rfl⟩ : ∃ f, fuel' = f + 1 := ⟨fuel' - 1, by omega⟩
    simp only [sendLoop] at hrun ⊢
    split at hrun
    · rename_i hc
      rw [if_pos hc]
      exact ih _ _ hrun f (by omega)
    · rename_i hc
      rw [if_neg hc]
      exact hrun

/-- A call of `write` that returns returns the same with more passes
allowed. -/
theorem write_fuel_le {β : Type} (B : Backend β) (fuel fuel' : Nat)
    (ch : CommunicationChannel β) (b : Bytes) (x : Except ChannelError (WriteResult β))
    (hrun : write B fuel ch b = some x) (hle : fuel ≤ fuel') :
    write B fuel' ch b = some x := by
  unfold write at hrun ⊢
  split at hrun
  · rename_i hF
    rw [if_pos hF]
    exact hrun
  · rename_i hF
    rw [if_neg hF]
    split at hrun
    · cases hrun
    · rename_i st1 hd
      rw [drainLoop_fuel_le B fuel _ st1 hd fuel' hle]
      simp only
      split at hrun
      · rename_i hstop
        rw [if_pos hstop]
        exact hrun
      · rename_i hstop
        rw [if_neg hstop]
        split at hrun
        · cases hrun
        · rename_i st2 hs
          rw [sendLoop_fuel_le B fuel _ st2 hs fuel' hle]
          exact hrun

/-- The second loop of `write` on a backend that accepts `k` bytes of the
caller's bytes and then reports an incomplete write. -/
theorem sendLoop_accepts {β : Type} (B : Backend β) (h : β) (X : Bytes) (k : Nat) (h1 : β)
    (hacc : AcceptsThenStops B h X k h1) :
    ∀ st : WriteState β, st.Handle = h → st.Buffer = X → st.ContinueWriting = true →
      ∃ (st' : WriteState β) (d : Nat),
        (∀ fuel, d ≤ fuel → sendLoop B fuel st = some st') ∧
        st'.Handle = h1 ∧ st'.WriteBuffer = st.WriteBuffer ∧
        st'.Buffer = X.drop k ∧ st'.BytesSent = st.BytesSent + k ∧
        acceptedBytes st'.Calls = acceptedBytes st.Calls ++ X.take k ∧ k ≤ X.length := by
  induction hacc with
  | stop h X n h1 hX hw hn =>
    intro st hH hBuf hC
    have hcond : (st.ContinueWriting && !st.Buffer.isEmpty) = true := by
      rw [hC, hBuf]
      cases X with
      | nil => exact absurd rfl hX
      | cons _ _ => rfl
    obtain ⟨ht, _⟩ := take_chunk_of_le X B.BufferSize n hn
    have hlen : n ≤ X.length := by
      have h0 := hn
      rw [List.length_take] at h0
      omega
    refine ⟨sendBody B st, 1, ?_, ?_, ?_, ?_, ?_, ?_, hlen⟩
    · intro fuel hfuel
      obtain ⟨f, rfl⟩ : ∃ f, fuel = f + 1 := ⟨fuel - 1, by omega⟩
      simp only [sendLoop]
      rw [if_pos hcond]
      apply sendLoop_of_done
      simp only [sendBody, hH, hBuf, hw, Bool.false_and]
    · simp only [sendBody, hH, hBuf, hw]
    · simp only [sendBody]
    · simp only [sendBody, hH, hBuf, hw]
    · simp only [sendBody, hH, hBuf, hw]
    · simp only [sendBody, hH, hBuf, hw, acceptedBytes_append, ht]
  | more h X n h1 k h2 hX hw hn _ ih =>
    intro st hH hBuf hC
    have hcond : (st.ContinueWriting && !st.Buffer.isEmpty) = true := by
      rw [hC, hBuf]
      cases X with
      | nil => exact absurd rfl hX
      | cons _ _ => rfl
    obtain ⟨ht, _⟩ := take_chunk_of_le X B.BufferSize n hn
    have hlen : n ≤ X.length := by
      have h0 := hn
      rw [List.length_take] at h0
      omega
    obtain ⟨st', d, hrun, a1, a2, a3, a4, a5, a6⟩ := ih (sendBody B st)
      (by simp only [sendBody, hH, hBuf, hw])
      (by simp only [sendBody, hH, hBuf, hw])
      (by simp only [sendBody, hH, hBuf, hw])
    refine ⟨st', d + 1, ?_, a1, ?_, ?_, ?_, ?_, ?_⟩
    · intro fuel hfuel
      obtain ⟨f, rfl⟩ : ∃ f, fuel = f + 1 := ⟨fuel - 1, by omega⟩
      simp only [sendLoop]
      rw [if_pos hcond]
      exact hrun f (by omega)
    · rw [a2]; simp only [sendBody]
    · rw [a3, List.drop_drop]
    · rw [a4]
      simp only [sendBody, hH, hBuf, hw]
      omega
    · rw [a5]
      simp only [sendBody, hH, hBuf, hw, acceptedBytes_append, ht, List.append_assoc]
      rw [List.take_add]
    · rw [List.length_drop] at a6
      omega

/-- The first loop of `write` on a backend that accepts all the bytes of the
write buffer without reporting an incomplete write. -/
theorem drainLoop_accepts {β : Type} (B : Backend β) (h : β) (X : Bytes) (h1 : β)
    (hacc : AcceptsAll B h X h1) :
    ∀ st : WriteState β, st.Handle = h → st.WriteBuffer = X → st.ContinueWriting = true →
      ∃ (st' : WriteState β) (d : Nat),
        (∀ fuel, d ≤ fuel → drainLoop B fuel st = some st') ∧
        st'.Handle = h1 ∧ st'.ContinueWriting = true ∧ st'.WriteBuffer = [] ∧
        st'.Buffer = st.Buffer ∧ st'.BytesSent = st.BytesSent + X.length ∧
        acceptedBytes st'.Calls = acceptedBytes st.Calls ++ X := by
  induction hacc with
  | done h =>
    intro st hH hBuf hC
    refine ⟨st, 0, ?_, hH, hC, hBuf, rfl, by simp, by simp⟩
    intro fuel _
    apply drainLoop_of_done
    rw [hBuf]
    simp
  | more h X n h1 h2 hX hw hn _ ih =>
    intro st hH hBuf hC
    have hcond : (st.ContinueWriting && !st.WriteBuffer.isEmpty) = true := by
      rw [hC, hBuf]
      cases X with
      | nil => exact absurd rfl hX
      | cons _ _ => rfl
    obtain ⟨ht, _⟩ := take_chunk_of_le X B.BufferSize n hn
    have hlen : n ≤ X.length := by
      have h0 := hn
      rw [List.length_take] at h0
      omega
    obtain ⟨st', d, hrun, a1, a2, a3, a4, a5, a6⟩ := ih (drainBody B st)
      (by simp only [drainBody, hH, hBuf, hw])
      (by simp only [drainBody, hH, hBuf, hw])
      (by simp only [drainBody, hH, hBuf, hw])
    refine ⟨st', d + 1, ?_, a1, a2, a3, ?_, ?_, ?_⟩
    · intro fuel hfuel
      obtain ⟨f, rfl⟩ : ∃ f, fuel = f + 1 := ⟨fuel - 1, by omega⟩
      simp only [drainLoop]
      rw [if_pos hcond]
      exact hrun f (by omega)
    · rw [a4]; simp only [drainBody]
    · rw [a5]
      simp only [drainBody, hH, hBuf, hw, List.length_drop]
      omega
    · rw [a6]
      simp only [drainBody, hH, hBuf, hw, acceptedBytes_append, ht, List.append_assoc,
        List.take_append_drop]

/-- `write` on an empty write buffer with a backend that accepts `k` of the
caller's bytes and then reports an incomplete write. -/
theorem write_accepts_then_stops {β : Type} (B : Backend β) (ch : CommunicationChannel β)
    (b : Bytes) (k : Nat) (h1 : β) (hF : ch.Failed = false) (hW : ch.WriteBuffer = [])
    (hacc : AcceptsThenStops B ch.Handle b k h1) :
    ∃ (Calls : List WriteCall) (d : Nat),
      (∀ fuel, d ≤ fuel → write B fuel ch b =
        some (.ok { BytesSent := k, Calls := Calls,
                    Channel := { ch with Handle := h1, WriteBuffer := b.drop k } })) ∧
      acceptedBytes Calls = b.take k ∧ k ≤ b.length := by
  obtain ⟨st', d, hrun, a1, a2, a3, a4, a5, a6⟩ := sendLoop_accepts B ch.Handle b k h1 hacc
    { Handle := ch.Handle, ContinueWriting := true, WriteBuffer := ch.WriteBuffer,
      Buffer := b, BytesSent := 0, Calls := [] } rfl rfl rfl
  refine ⟨st'.Calls, d, ?_, by simpa [acceptedBytes] using a5, a6⟩
  intro fuel hfuel
  have hd : drainLoop B fuel
      { Handle := ch.Handle, ContinueWriting := true, WriteBuffer := ch.WriteBuffer,
        Buffer := b, BytesSent := 0, Calls := [] } =
      some { Handle := ch.Handle, ContinueWriting := true, WriteBuffer := ch.WriteBuffer,
             Buffer := b, BytesSent := 0, Calls := [] } := by
    apply drainLoop_of_done
    simp [hW]
  unfold write
  simp only [hF, Bool.false_eq_true, if_false, hd, Bool.not_true]
  rw [hrun fuel hfuel]
  simp only [a1, a2, a3, a4, hW, List.nil_append, Nat.zero_add]

/-- `write` of nothing on a backend that accepts all the bytes of the write
buffer. -/
theorem write_accepts_all {β : Type} (B : Backend β) (ch : CommunicationChannel β)
    (h1 : β) (hF : ch.Failed = false) (hacc : AcceptsAll B ch.Handle ch.WriteBuffer h1) :
    ∃ (Calls : List WriteCall) (d : Nat),
      (∀ fuel, d ≤ fuel → write B fuel ch [] =
        some (.ok { BytesSent := ch.WriteBuffer.length, Calls := Calls,
                    Channel := { ch with Handle := h1, WriteBuffer := [] } })) ∧
      acceptedBytes Calls = ch.WriteBuffer := by
  obtain ⟨st', d, hrun, a1, a2, a3, a4, a5, a6⟩ :=
    drainLoop_accepts B ch.Handle ch.WriteBuffer h1 hacc
      { Handle := ch.Handle, ContinueWriting := true, WriteBuffer := ch.WriteBuffer,
        Buffer := [], BytesSent := 0, Calls := [] } rfl rfl rfl
  refine ⟨st'.Calls, d, ?_, by simpa [acceptedBytes] using a6⟩
  intro fuel hfuel
  have hs : sendLoop B fuel { st' with ContinueWriting := true } =
      some { st' with ContinueWriting := true } := by
    apply sendLoop_of_done
    simp [a4]
  unfold write
  simp only [hF, Bool.false_eq_true, if_false]
  rw [hrun fuel hfuel]
  simp only [a2, Bool.not_true, Bool.false_eq_true, if_false, hs]
  simp only [a1, a3, a4, a5, List.append_nil, Nat.zero_add]

/-- The descriptor of the specification's case, with room for ten bytes again,
accepts the ten bytes that were kept. -/
theorem burstBackend_accepts_rest : AcceptsAll burstBackend 10 (twentyBytes.drop 10) 0 :=
  AcceptsAll.more 10 (twentyBytes.drop 10) 10 0 0 (by decide) rfl (by decide)
    (AcceptsAll.done 0)

/-- A run of five `read` calls, the second of a size above `max_size()`: that
call throws and takes nothing, and the other four return the bytes of the
three chunks read, in order. -/
theorem readSeq_example :
    (readSeq threeByteBackend ⟨(), [], [], false⟩
        [2, 18446744073709551615, 2, 0, 5]).Outcomes =
      [.ok [7, 8], .error .length_error, .ok [9, 7], .ok [], .ok [8, 9, 7, 8, 9]] ∧
    (readSeq threeByteBackend ⟨(), [], [], false⟩
        [2, 18446744073709551615, 2, 0, 5]).Chunks = [[7, 8, 9], [7, 8, 9], [7, 8, 9]] ∧
    (readSeq threeByteBackend ⟨(), [], [], false⟩
        [2, 18446744073709551615, 2, 0, 5]).Channel.ReadBuffer = [] :=
  ⟨rfl, rfl, rfl⟩

/-! ## The claims -/

/-- Claim C1, at a failing input: with the byte `1` waiting in the write buffer and a
backend that takes nothing and asks to stop, `write` of the byte `2` returns 0
and leaves the write buffer as it was, so the bytes accepted followed by the
new write buffer are not the old write buffer followed by the caller's bytes:
the byte `2` is neither sent nor kept. -/
theorem write_loses_caller_bytes_when_drain_stops :
    ∃ r, write blockedBackend 1 ⟨(), [], [1], false⟩ [2] = some (.ok r) ∧
      r.BytesSent = 0 ∧ r.Channel.WriteBuffer = [1] ∧
      acceptedBytes r.Calls ++ r.Channel.WriteBuffer ≠ [1] ++ [2] :=
  ⟨_, rfl, rfl, rfl, by decide⟩

/-- Claim C2: for every sequence of `read` calls on a channel that has not failed and
whose read buffer is empty, the strings returned, concatenated, followed by
the final read buffer are the chunks of the underlying reads, concatenated; so
the bytes returned are a prefix of the bytes produced.  Each call of the
sequence returns a string, unless its reserve throws (`std::length_error` for
a size above `max_size()`, `std::bad_alloc` without the memory): such a call
returns no string and takes no byte. -/
theorem readSeq_returns_prefix_of_chunks {β : Type} (B : Backend β)
    (ch : CommunicationChannel β) (ns : List Nat)
    (hF : ch.Failed = false) (hE : ch.ReadBuffer = []) :
    returnedBytes (readSeq B ch ns).Outcomes ++ (readSeq B ch ns).Channel.ReadBuffer =
        (readSeq B ch ns).Chunks.flatten ∧
      returnedBytes (readSeq B ch ns).Outcomes <+: (readSeq B ch ns).Chunks.flatten ∧
      List.Forall₂ (ReserveOutcome B) ns (readSeq B ch ns).Outcomes := by
  obtain ⟨h1, h2⟩ := readSeq_stream B ns ch hF
  rw [hE, List.nil_append] at h1
  exact ⟨h1, ⟨_, h1⟩, h2⟩

theorem readSeq_returns_prefix_of_chunks_witness :
    returnedBytes
          (readSeq threeByteBackend ⟨(), [], [], false⟩
            [2, 18446744073709551615, 2, 0, 5]).Outcomes ++
        (readSeq threeByteBackend ⟨(), [], [], false⟩
            [2, 18446744073709551615, 2, 0, 5]).Channel.ReadBuffer =
        (readSeq threeByteBackend ⟨(), [], [], false⟩
            [2, 18446744073709551615, 2, 0, 5]).Chunks.flatten ∧
      returnedBytes
          (readSeq threeByteBackend ⟨(), [], [], false⟩
            [2, 18446744073709551615, 2, 0, 5]).Outcomes <+:
        (readSeq threeByteBackend ⟨(), [], [], false⟩
            [2, 18446744073709551615, 2, 0, 5]).Chunks.flatten ∧
      List.Forall₂ (ReserveOutcome threeByteBackend) [2, 18446744073709551615, 2, 0, 5]
        (readSeq threeByteBackend ⟨(), [], [], false⟩
            [2, 18446744073709551615, 2, 0, 5]).Outcomes :=
  readSeq_returns_prefix_of_chunks threeByteBackend ⟨(), [], [], false⟩
    [2, 18446744073709551615, 2, 0, 5] rfl rfl

/-- Claim C3: a `MakeSession` request with an empty name records the new session
under the decimal string of the least `k ≥ 1` whose decimal string names no
session, launches its program and reports that name with `Success = true`;
with no session in the table the name is `"1"`. -/
theorem requestMakeSession_empty_name_takes_least_number (Sys : System) (S : Server)
    (Client : ClientID) (C : ClientData) (Opts : request.SpawnOptions)
    (hC : Map.find S.Clients Client = some C) :
    ∃ (k : Nat) (S' : Server) (SOpts : SpawnOptions) (Sess : SessionData),
      1 ≤ k ∧ S.getSession (to_string k) = none ∧
      (∀ j, 1 ≤ j → j < k → (S.getSession (to_string j)).isSome = true) ∧
      requestMakeSession Sys S Client (some ⟨"", Opts⟩) =
        some (S', [.spawn SOpts, .createCallback (to_string k),
                   .sendMessage C.ControlConnection (.MakeSession (to_string k) true)]) ∧
      S'.getSession (to_string k) = some Sess ∧ Sess.Name = to_string k ∧
      (Map.keys S'.Sessions).Perm (to_string k :: Map.keys S.Sessions) ∧
      (S.Sessions = [] → to_string k = "1") := by
  obtain ⟨h1, h2, h3⟩ := defaultSessionNum_spec S
  have hfree : ¬ (("" : String) ≠ "" ∧ (S.getSession "").isSome = true) := fun h => h.1 rfl
  have hrun := requestMakeSession_of_free Sys S Client C ⟨"", Opts⟩ hC hfree
  have hnone := sessionNameFor_free S "" hfree
  have hname : sessionNameFor S "" = to_string (defaultSessionNum S (S.Sessions.length + 1) 1) :=
    rfl
  rw [hname] at hrun hnone
  refine ⟨defaultSessionNum S (S.Sessions.length + 1) 1, _, _, sessionFor Sys S ⟨"", Opts⟩,
    h1, h2, h3, hrun, ?_, rfl, ?_, ?_⟩
  · simp only [Server.getSession, Map.tryEmplace, hnone, Option.isSome_none,
      Bool.false_eq_true, if_false]
    exact Map.find_insertOrdered_self _ _ _ _ hnone
  · simp only [Map.tryEmplace, hnone, Option.isSome_none, Bool.false_eq_true, if_false]
    exact Map.keys_insertOrdered_perm _ _ _ _
  · intro hE
    simp only [hE, defaultSessionNum, Server.getSession, Map.find, List.length_nil]
    decide

theorem requestMakeSession_empty_name_takes_least_number_witness :
    ∃ (k : Nat) (S' : Server) (SOpts : SpawnOptions) (Sess : SessionData),
      1 ≤ k ∧ twoClients.getSession (to_string k) = none ∧
      (∀ j, 1 ≤ j → j < k → (twoClients.getSession (to_string j)).isSome = true) ∧
      requestMakeSession failingSystem twoClients 1 (some ⟨"", shell⟩) =
        some (S', [.spawn SOpts, .createCallback (to_string k),
                   .sendMessage (11 : Connection) (.MakeSession (to_string k) true)]) ∧
      S'.getSession (to_string k) = some Sess ∧ Sess.Name = to_string k ∧
      (Map.keys S'.Sessions).Perm (to_string k :: Map.keys twoClients.Sessions) ∧
      (twoClients.Sessions = [] → to_string k = "1") :=
  requestMakeSession_empty_name_takes_least_number failingSystem twoClients 1
    ⟨none, 11, none, none⟩ shell rfl

/-- Claim C5: when a `DataSocket` request names a client of the table that has no
data connection and the nonce of the request is not the pending nonce of that
client, the request is refused and the client has no pending nonce afterwards;
from then on, through any run of requests in which that client sends no
decodable `ClientID` request, every `DataSocket` request that names the client
is refused, whatever nonce it carries and whoever sends it. -/
theorem nonce_is_one_shot (S : Server) (Client : ClientID) (C M : ClientData)
    (Msg : request.DataSocket)
    (hC : Map.find S.Clients Client = some C)
    (hM : Map.find S.Clients Msg.ID = some M) (hD : M.DataConnection = none)
    (hN : M.Nonce ≠ some Msg.Nonce) :
    ∃ S1, requestDataSocket S Client (some Msg) =
        some (S1, [.sendMessage C.ControlConnection (.DataSocket false)]) ∧
      Map.find S1.Clients Msg.ID = some { M with Nonce := none } ∧
      ∀ (later : List (ClientID × Request)) (S2 : Server),
        (∀ r ∈ later, ¬ ∃ Rnd, r = (Msg.ID, Request.ClientID (some ()) Rnd)) →
        run S1 later = some S2 →
        ∀ (Client' : ClientID) (C' : ClientData) (n : Nonce),
          Map.find S2.Clients Client' = some C' →
          ∃ S3, requestDataSocket S2 Client' (some ⟨Msg.ID, n⟩) =
            some (S3, [.sendMessage C'.ControlConnection (.DataSocket false)]) := by
  have hsome : ¬ (M.DataConnection.isSome = true) := by simp [hD]
  have hnonce : M.consumeNonce.1 ≠ some Msg.Nonce := hN
  have hfind : Map.find (Map.modify S.Clients Msg.ID (fun _ => M.consumeNonce.2)) Msg.ID
      = some { M with Nonce := none } := by
    rw [Map.find_modify, if_pos rfl, hM]; rfl
  refine ⟨{ S with Clients := Map.modify S.Clients Msg.ID (fun _ => M.consumeNonce.2) },
    ?_, hfind, ?_⟩
  · simp only [requestDataSocket, hC, hM]
    rw [if_neg hsome, if_pos hnonce]
  · intro later S2 hex hrun Client' C' n hC'
    have h1 : NonceCleared (Map.modify S.Clients Msg.ID (fun _ => M.consumeNonce.2)) Msg.ID := by
      intro M1 hM1
      rw [hfind] at hM1
      cases hM1
      rfl
    have h2 := run_keeps_NonceCleared Msg.ID later _ S2 hex h1 hrun
    exact requestDataSocket_of_cleared S2 Client' C' ⟨Msg.ID, n⟩ hC' h2

theorem nonce_is_one_shot_witness :
    ∃ S1, requestDataSocket twoClientsNonce 2 (some ⟨1, 8⟩) =
        some (S1, [.sendMessage (12 : Connection) (.DataSocket false)]) ∧
      Map.find S1.Clients 1 = some ⟨none, 11, none, none⟩ ∧
      ∀ (later : List (ClientID × Request)) (S2 : Server),
        (∀ r ∈ later, ¬ ∃ Rnd, r = ((1 : ClientID), Request.ClientID (some ()) Rnd)) →
        run S1 later = some S2 →
        ∀ (Client' : ClientID) (C' : ClientData) (n : Nonce),
          Map.find S2.Clients Client' = some C' →
          ∃ S3, requestDataSocket S2 Client' (some ⟨1, n⟩) =
            some (S3, [.sendMessage C'.ControlConnection (.DataSocket false)]) :=
  nonce_is_one_shot twoClientsNonce 2 ⟨none, 12, none, none⟩ ⟨some 7, 11, none, none⟩
    ⟨1, 8⟩ rfl rfl rfl (by decide)

/-- Claim C6: for a client `A` with no data connection, `requestClientID` answers on
the control connection of `A` with the id of `A` and the nonce just made, which
is then the pending nonce of `A`; a `DataSocket` request with that id and nonce
from another client `B` is then answered `Success = true`, and the connection
of `B` is the data connection of `A` afterwards. -/
theorem handshake_round_trip (S : Server) (A B : ClientID) (CA CB : ClientData)
    (Rnd : Nonce)
    (hA : Map.find S.Clients A = some CA) (hAD : CA.DataConnection = none)
    (hB : Map.find S.Clients B = some CB) (hAB : B ≠ A) :
    ∃ S1 S2,
      requestClientID S A (some ()) Rnd =
        some (S1, [.sendMessage CA.ControlConnection (.ClientID A Rnd)]) ∧
      Map.find S1.Clients A = some { CA with Nonce := some Rnd } ∧
      requestDataSocket S1 B (some ⟨A, Rnd⟩) =
        some (S2, [.sendMessage CB.ControlConnection (.DataSocket true)]) ∧
      Map.find S2.Clients A =
        some { CA with Nonce := none, DataConnection := some CB.ControlConnection } := by
  have hA1 : Map.find (Map.modify S.Clients A (fun _ => (CA.makeNewNonce Rnd).2)) A
      = some { CA with Nonce := some Rnd } := by
    rw [Map.find_modify, if_pos rfl, hA]; rfl
  have hB1 : Map.find (Map.modify S.Clients A (fun _ => (CA.makeNewNonce Rnd).2)) B
      = some CB := by
    rw [Map.find_modify, if_neg hAB, hB]
  obtain ⟨S2, hrun, hmain, _, _⟩ := requestDataSocket_of_match
    { S with Clients := Map.modify S.Clients A (fun _ => (CA.makeNewNonce Rnd).2) }
    B CB { CA with Nonce := some Rnd } ⟨A, Rnd⟩ hB1 (fun h => hAB h.symm) hA1 hAD rfl
  refine ⟨{ S with Clients := Map.modify S.Clients A (fun _ => (CA.makeNewNonce Rnd).2) },
    S2, ?_, hA1, hrun, hmain⟩
  simp only [requestClientID, hA]
  rfl

theorem handshake_round_trip_witness :
    ∃ S1 S2,
      requestClientID twoClients 1 (some ()) 7 =
        some (S1, [.sendMessage (11 : Connection) (.ClientID 1 7)]) ∧
      Map.find S1.Clients 1 = some ⟨some 7, 11, none, none⟩ ∧
      requestDataSocket S1 2 (some ⟨1, 7⟩) =
        some (S2, [.sendMessage (12 : Connection) (.DataSocket true)]) ∧
      Map.find S2.Clients 1 = some ⟨none, 11, some 12, none⟩ :=
  handshake_round_trip twoClients 1 2 ⟨none, 11, none, none⟩ ⟨none, 12, none, none⟩ 7
    rfl rfl rfl (by decide)

/-- Claim C7: a `MakeSession` request with a non-empty name that is a key of the
session table is answered `{Name, Success = false}` on the control connection
of the requester; nothing else happens: no launch, and the server is as it
was. -/
theorem requestMakeSession_taken_name_refused (Sys : System) (S : Server)
    (Client : ClientID) (C : ClientData) (Msg : request.MakeSession)
    (hC : Map.find S.Clients Client = some C) (hN : Msg.Name ≠ "")
    (hK : Msg.Name ∈ Map.keys S.Sessions) :
    requestMakeSession Sys S Client (some Msg) =
      some (S, [.sendMessage C.ControlConnection (.MakeSession Msg.Name false)]) := by
  have hs : (S.getSession Msg.Name).isSome = true := (Map.find_isSome_iff _ _).mpr hK
  simp only [requestMakeSession, hC]
  rw [if_pos ⟨hN, hs⟩]

theorem requestMakeSession_taken_name_refused_witness :
    requestMakeSession failingSystem oneSession 2 (some ⟨"s", shell⟩) =
      some (oneSession, [.sendMessage (12 : Connection) (.MakeSession "s" false)]) :=
  requestMakeSession_taken_name_refused failingSystem oneSession 2 ⟨none, 12, none, none⟩
    ⟨"s", shell⟩ rfl (by decide) (by decide)

/-- Claim C8: after a `MakeSession` request that is answered `Success = true` with
the name `Name`, a `SessionList` request of any client is answered with one
entry for each session of the table, in the order of the table, and exactly
one of the entries has the name `Name`; `Name` is the name of the request when
that name is not empty. -/
theorem made_session_is_listed_once (Sys : System) (S S1 : Server) (Client : ClientID)
    (Msg : request.MakeSession) (eff : List Effect) (To : Connection) (Name : String)
    (Client' : ClientID) (C' : ClientData)
    (hWF : (Map.keys S.Sessions).Nodup)
    (hrun : requestMakeSession Sys S Client (some Msg) = some (S1, eff))
    (hans : Effect.sendMessage To (.MakeSession Name true) ∈ eff)
    (hC' : Map.find S1.Clients Client' = some C') :
    ∃ L : List SessionInfo,
      requestSessionList S1 Client' (some ()) =
        some (S1, [.sendMessage C'.ControlConnection (.SessionList L)]) ∧
      L.map (fun I => I.Name) = Map.keys S1.Sessions ∧
      L.length = S1.Sessions.length ∧
      (L.map (fun I => I.Name)).count Name = 1 ∧
      (Msg.Name ≠ "" → Name = Msg.Name) := by
  cases hC : Map.find S.Clients Client with
  | none => simp only [requestMakeSession, hC] at hrun; cases hrun
  | some C =>
    by_cases hfree : Msg.Name ≠ "" ∧ (S.getSession Msg.Name).isSome = true
    · simp only [requestMakeSession, hC] at hrun
      rw [if_pos hfree] at hrun
      simp only [Option.some.injEq, Prod.mk.injEq] at hrun
      rw [← hrun.2] at hans
      simp at hans
    · rw [requestMakeSession_of_free Sys S Client C Msg hC hfree] at hrun
      simp only [Option.some.injEq, Prod.mk.injEq] at hrun
      obtain ⟨hS1, heff⟩ := hrun
      rw [← heff] at hans
      have hName : Name = sessionNameFor S Msg.Name := by
        simp at hans
        exact hans.2
      have hnone := sessionNameFor_free S Msg.Name hfree
      have hkeys : (Map.keys S1.Sessions).Perm (Name :: Map.keys S.Sessions) := by
        rw [← hS1, hName]
        simp only [Map.tryEmplace, hnone, Option.isSome_none, Bool.false_eq_true, if_false]
        exact Map.keys_insertOrdered_perm _ _ _ _
      have hnotin : Name ∉ Map.keys S.Sessions := by
        rw [hName]; exact (Map.find_eq_none_iff _ _).mp hnone
      have hnodup : (Map.keys S1.Sessions).Nodup :=
        hkeys.nodup_iff.mpr (List.nodup_cons.mpr ⟨hnotin, hWF⟩)
      have hmem : Name ∈ Map.keys S1.Sessions := hkeys.mem_iff.mpr (List.mem_cons_self _ _)
      have hmap : (S1.Sessions.map (fun SessionElem =>
          ({ Name := SessionElem.1, Created := SessionElem.2.Created } : SessionInfo))).map
          (fun I => I.Name) = Map.keys S1.Sessions := by
        simp only [List.map_map, Map.keys]
        rfl
      refine ⟨_, ?_, hmap, by simp, ?_, ?_⟩
      · simp only [requestSessionList, hC']
      · rw [hmap]
        exact List.count_eq_one_of_mem hnodup hmem
      · intro hne
        rw [hName, sessionNameFor, if_neg hne]

theorem made_session_is_listed_once_witness :
    ∃ L : List SessionInfo,
      requestSessionList afterMakeSession 2 (some ()) =
        some (afterMakeSession, [.sendMessage (12 : Connection) (.SessionList L)]) ∧
      L.map (fun I => I.Name) = Map.keys afterMakeSession.Sessions ∧
      L.length = afterMakeSession.Sessions.length ∧
      (L.map (fun I => I.Name)).count "1" = 1 ∧
      ((⟨"", shell⟩ : request.MakeSession).Name ≠ "" →
        "1" = (⟨"", shell⟩ : request.MakeSession).Name) :=
  made_session_is_listed_once failingSystem oneSession afterMakeSession 1 ⟨"", shell⟩
    [.spawn (spawnOptionsFor failingSystem oneSession ⟨"", shell⟩), .createCallback "1",
     .sendMessage (11 : Connection) (.MakeSession "1" true)]
    11 "1" 2 ⟨none, 12, none, none⟩ (by decide) (by decide) (by decide) (by decide)

/-- Claim C9, at a failing input: the launcher reports a launch that failed, and
`requestMakeSession` all the same records the session `"s"` and answers
`{Name = "s", Success = true}`. -/
theorem requestMakeSession_records_failed_launch :
    ∃ S' SOpts Sess,
      failingSystem.spawn SOpts = ⟨0, false⟩ ∧
      requestMakeSession failingSystem twoClients 1 (some ⟨"s", shell⟩) =
        some (S', [.spawn SOpts, .createCallback "s",
                   .sendMessage (11 : Connection) (.MakeSession "s" true)]) ∧
      S'.getSession "s" = some Sess ∧ Sess.Process = some ⟨0, false⟩ :=
  ⟨_, _, _, rfl, rfl, rfl, rfl⟩

/-- Claim C12: for a requester attached to a session of the table whose attached
clients are all clients of the table, a `Detach` request with the mode `All`
sends `notification::Detached{Detach}` to each attached client on its control
connection, in the order of attachment, and then `response::Detach` to the
requester; afterwards the session is still in the table, nobody is attached to
it, and none of the clients that were attached records a session. -/
theorem requestDetach_all (S : Server) (Client : ClientID) (C : ClientData)
    (Name : String) (Sess : SessionData)
    (hC : Map.find S.Clients Client = some C) (hA : C.AttachedSession = some Name)
    (hS : S.getSession Name = some Sess)
    (hT : ∀ c ∈ Sess.AttachedClients, (Map.find S.Clients c).isSome = true) :
    ∃ S', requestDetach S Client (some ⟨.All⟩) =
        some (S', Sess.AttachedClients.filterMap (detachNotice S.Clients) ++
          [.sendMessage C.ControlConnection .Detach]) ∧
      (Sess.AttachedClients.filterMap (detachNotice S.Clients)).length =
        Sess.AttachedClients.length ∧
      (∀ c ∈ Sess.AttachedClients, ∃ CD, Map.find S.Clients c = some CD ∧
        Effect.sendMessage CD.ControlConnection (.Detached .Detach) ∈
          Sess.AttachedClients.filterMap (detachNotice S.Clients)) ∧
      S'.getSession Name = some { Sess with AttachedClients := [] } ∧
      Map.keys S'.Sessions = Map.keys S.Sessions ∧
      (∀ c ∈ Sess.AttachedClients,
        (Map.find S'.Clients c).bind (fun X => X.AttachedSession) = none) := by
  refine ⟨detachAll Name Sess.AttachedClients S,
    requestDetach_eq S Client C ⟨.All⟩ Name Sess Sess.AttachedClients hC hA hS rfl hT,
    filterMap_length_of_isSome _ _ ?_, ?_, ?_, detachAll_keys Name _ S, ?_⟩
  · intro c hc
    have := hT c hc
    simp only [detachNotice, Option.isSome_map']
    exact this
  · intro c hc
    cases hf : Map.find S.Clients c with
    | none => have := hT c hc; rw [hf] at this; cases this
    | some CD =>
      refine ⟨CD, rfl, ?_⟩
      rw [List.mem_filterMap]
      exact ⟨c, hc, by simp only [detachNotice, hf, Option.map_some']; rfl⟩
  · rw [detachAll_getSession Name Sess.AttachedClients S Sess hS]
    have := foldl_erase_self Sess.AttachedClients []
    rw [List.append_nil] at this
    rw [this]
  · intro c hc
    rw [detachAll_find_client]
    cases hf : Map.find S.Clients c with
    | none => rfl
    | some CD => simp [hc]

theorem requestDetach_all_witness :
    ∃ S', requestDetach bothAttached 1 (some ⟨.All⟩) =
        some (S', [1, 2].filterMap (detachNotice bothAttached.Clients) ++
          [.sendMessage (11 : Connection) .Detach]) ∧
      (([1, 2] : List ClientID).filterMap (detachNotice bothAttached.Clients)).length =
        ([1, 2] : List ClientID).length ∧
      (∀ c ∈ ([1, 2] : List ClientID), ∃ CD, Map.find bothAttached.Clients c = some CD ∧
        Effect.sendMessage CD.ControlConnection (.Detached .Detach) ∈
          ([1, 2] : List ClientID).filterMap (detachNotice bothAttached.Clients)) ∧
      S'.getSession "s" = some ⟨"s", 1650000000, some ⟨4242, true⟩, []⟩ ∧
      Map.keys S'.Sessions = Map.keys bothAttached.Sessions ∧
      (∀ c ∈ ([1, 2] : List ClientID),
        (Map.find S'.Clients c).bind (fun X => X.AttachedSession) = none) :=
  requestDetach_all bothAttached 1 ⟨none, 11, some 21, some "s"⟩ "s"
    ⟨"s", 1650000000, some ⟨4242, true⟩, [1, 2]⟩ rfl rfl rfl (by decide)

/-- Claim C13: for a requester attached to a session of the table whose
attachments are not empty and have no duplicates, and whose last attached
client is a client of the table, a `Detach` request with the mode `Latest`
notifies that last client, and nobody else, with
`notification::Detached{Detach}`, then answers the requester; afterwards the
attachments are the former ones without the last, in the same order, the
last client records no session, and every other client is as it was. -/
theorem requestDetach_latest (S : Server) (Client : ClientID) (C L : ClientData)
    (Name : String) (Sess : SessionData)
    (hC : Map.find S.Clients Client = some C) (hA : C.AttachedSession = some Name)
    (hS : S.getSession Name = some Sess)
    (hne : Sess.AttachedClients ≠ []) (hN : Sess.AttachedClients.Nodup)
    (hL : Map.find S.Clients (Sess.AttachedClients.getLast hne) = some L) :
    ∃ S', requestDetach S Client (some ⟨.Latest⟩) =
        some (S', [.sendMessage L.ControlConnection (.Detached .Detach),
                   .sendMessage C.ControlConnection .Detach]) ∧
      S'.getSession Name =
        some { Sess with AttachedClients := Sess.AttachedClients.dropLast } ∧
      Map.find S'.Clients (Sess.AttachedClients.getLast hne) =
        some { L with AttachedSession := none } ∧
      (∀ c, c ≠ Sess.AttachedClients.getLast hne →
        Map.find S'.Clients c = Map.find S.Clients c) ∧
      Map.keys S'.Sessions = Map.keys S.Sessions := by
  have hlatest : Sess.getLatestClient.toList = [Sess.AttachedClients.getLast hne] := by
    simp only [SessionData.getLatestClient, List.getLast?_eq_getLast _ hne, Option.toList]
  have hT : ∀ c ∈ [Sess.AttachedClients.getLast hne], (Map.find S.Clients c).isSome = true := by
    intro c hc
    rw [List.mem_singleton] at hc
    rw [hc, hL]; rfl
  have hrun := requestDetach_eq S Client C ⟨.Latest⟩ Name Sess
    [Sess.AttachedClients.getLast hne] hC hA hS hlatest.symm hT
  refine ⟨detachAll Name [Sess.AttachedClients.getLast hne] S, ?_, ?_, ?_, ?_,
    detachAll_keys Name _ S⟩
  · rw [hrun]
    simp only [List.filterMap_cons, List.filterMap_nil, detachNotice, hL, Option.map_some',
      ClientData.sendDetachReason, List.singleton_append]
  · rw [detachAll_getSession Name _ S Sess hS]
    simp only [List.foldl_cons, List.foldl_nil]
    rw [erase_getLast_of_nodup _ hne hN]
  · rw [detachAll_find_client, hL]
    simp
  · intro c hc
    rw [detachAll_find_client]
    cases Map.find S.Clients c with
    | none => rfl
    | some CD => simp [hc]

theorem requestDetach_latest_witness :
    ∃ S', requestDetach bothAttached 1 (some ⟨.Latest⟩) =
        some (S', [.sendMessage (12 : Connection) (.Detached .Detach),
                   .sendMessage (11 : Connection) .Detach]) ∧
      S'.getSession "s" = some ⟨"s", 1650000000, some ⟨4242, true⟩, [1]⟩ ∧
      Map.find S'.Clients 2 = some ⟨none, 12, some 22, none⟩ ∧
      (∀ c, c ≠ (2 : ClientID) → Map.find S'.Clients c = Map.find bothAttached.Clients c) ∧
      Map.keys S'.Sessions = Map.keys bothAttached.Sessions :=
  requestDetach_latest bothAttached 1 ⟨none, 11, some 21, some "s"⟩
    ⟨none, 12, some 22, some "s"⟩ "s" ⟨"s", 1650000000, some ⟨4242, true⟩, [1, 2]⟩
    rfl rfl rfl (by decide) (by decide) rfl

/-- Claim C14: whatever the server, the client and the request, when one of the
six handlers has run, every key of the session table is still a key of it, and
the session under it has the name, the creation time and the process it had;
this holds also when the handler detached the last client of the session. -/
theorem handlers_keep_sessions (S : Server) (Client : ClientID) (r : Request)
    (R : Server × List Effect) (hrun : dispatch S Client r = some R) :
    (∀ k ∈ Map.keys S.Sessions, k ∈ Map.keys R.1.Sessions) ∧ SessionsSurvive S R.1 := by
  have hsurv := dispatch_SessionsSurvive S Client r R hrun
  refine ⟨?_, hsurv⟩
  intro k hk
  rw [← Map.find_isSome_iff] at hk ⊢
  cases hf : Map.find S.Sessions k with
  | none => rw [hf] at hk; cases hk
  | some Sess =>
    obtain ⟨Sess', hk', _⟩ := hsurv k Sess hf
    have hk'' : Map.find R.1.Sessions k = some Sess' := hk'
    rw [hk'']; rfl

theorem handlers_keep_sessions_witness :
    (∀ k ∈ Map.keys bothAttached.Sessions, k ∈ Map.keys
      (bothDetached, [Effect.sendMessage 11 (.Detached .Detach),
        Effect.sendMessage 12 (.Detached .Detach),
        Effect.sendMessage 11 .Detach]).1.Sessions) ∧
    SessionsSurvive bothAttached
      (bothDetached, [Effect.sendMessage 11 (.Detached .Detach),
        Effect.sendMessage 12 (.Detached .Detach),
        Effect.sendMessage 11 .Detach]).1 :=
  handlers_keep_sessions bothAttached 1 (.Detach (some ⟨.All⟩))
    (bothDetached, [Effect.sendMessage 11 (.Detached .Detach),
        Effect.sendMessage 12 (.Detached .Detach),
        Effect.sendMessage 11 .Detach]) (by decide)

/-- Claim C15: when the body of a request does not decode, each of the six
handlers returns with the server as it was (client table, session table,
nonces and attachments) and sends nothing. -/
theorem undecodable_request_is_ignored (Sys : System) (S : Server) (Client : ClientID)
    (C : ClientData) (Rnd : Nonce) (hC : Map.find S.Clients Client = some C) :
    requestClientID S Client none Rnd = some (S, []) ∧
    requestDataSocket S Client none = some (S, []) ∧
    requestSessionList S Client none = some (S, []) ∧
    requestMakeSession Sys S Client none = some (S, []) ∧
    requestAttach S Client none = some (S, []) ∧
    requestDetach S Client none = some (S, []) := by
  refine ⟨?_, ?_, ?_, ?_, ?_, ?_⟩
  · simp only [requestClientID, hC]
  · simp only [requestDataSocket, hC]
  · simp only [requestSessionList, hC]
  · simp only [requestMakeSession, hC]
  · simp only [requestAttach, hC]
  · simp only [requestDetach, hC]

theorem undecodable_request_is_ignored_witness :
    requestClientID bothAttached 1 none 7 = some (bothAttached, []) ∧
    requestDataSocket bothAttached 1 none = some (bothAttached, []) ∧
    requestSessionList bothAttached 1 none = some (bothAttached, []) ∧
    requestMakeSession failingSystem bothAttached 1 none = some (bothAttached, []) ∧
    requestAttach bothAttached 1 none = some (bothAttached, []) ∧
    requestDetach bothAttached 1 none = some (bothAttached, []) :=
  undecodable_request_is_ignored failingSystem bothAttached 1
    ⟨none, 11, some 21, some "s"⟩ 7 rfl

/-- Claim C16: on a channel that has not failed and whose write buffer is empty,
when the backend, offered the bytes of `b` chunk by chunk, accepts `k` of them
and then reports an incomplete write, `write` of `b` returns `k`, has handed
the backend the first `k` bytes of `b`, and leaves in the write buffer the
other `|b| - k` bytes of `b`, in order: the call returns, and no call returns
anything else.  A following `write` of the empty string, whenever it returns,
has first offered the backend the first chunk of that rest (all of it, when it
fits in a chunk) and, with an honest backend, has handed over bytes of the
rest only, from its front; when the backend accepts the rest, the call
returns `|b| - k`, the backend has been handed exactly the rest, and the write
buffer is empty. -/
theorem partial_write_keeps_rest {β : Type} (B : Backend β) (ch : CommunicationChannel β)
    (b : Bytes) (k : Nat) (h1 : β) (hF : ch.Failed = false) (hW : ch.WriteBuffer = [])
    (hacc : AcceptsThenStops B ch.Handle b k h1) :
    ∃ r : WriteResult β,
      (∃ d : Nat, ∀ fuel : Nat, d ≤ fuel → write B fuel ch b = some (.ok r)) ∧
      (∀ (fuel : Nat) (x : Except ChannelError (WriteResult β)),
        write B fuel ch b = some x → x = .ok r) ∧
      r.BytesSent = k ∧ k ≤ b.length ∧
      acceptedBytes r.Calls = b.take k ∧
      r.Channel.WriteBuffer = b.drop k ∧
      r.Channel.WriteBuffer.length = b.length - k ∧
      r.Channel.Handle = h1 ∧
      (∀ (fuel2 : Nat) (r2 : WriteResult β), write B fuel2 r.Channel [] = some (.ok r2) →
        (k < b.length → ∃ c rest, r2.Calls = c :: rest ∧
          c.Offered = (b.drop k).take (min B.BufferSize (b.drop k).length)) ∧
        (B.Honest → acceptedBytes r2.Calls ++ r2.Channel.WriteBuffer = b.drop k)) ∧
      (∀ h2 : β, AcceptsAll B h1 (b.drop k) h2 →
        ∃ r2 : WriteResult β,
          (∃ d2 : Nat, ∀ fuel : Nat, d2 ≤ fuel →
            write B fuel r.Channel [] = some (.ok r2)) ∧
          r2.BytesSent = b.length - k ∧ acceptedBytes r2.Calls = b.drop k ∧
          r2.Channel.WriteBuffer = [] ∧ r2.Channel.Handle = h2) := by
  obtain ⟨Calls, d, hrun, hacc1, hk⟩ := write_accepts_then_stops B ch b k h1 hF hW hacc
  refine ⟨{ BytesSent := k, Calls := Calls,
            Channel := { ch with Handle := h1, WriteBuffer := b.drop k } },
    ⟨d, hrun⟩, ?_, rfl, hk, hacc1, rfl, List.length_drop _ _, rfl, ?_, ?_⟩
  · intro fuel x hx
    have h2 := write_fuel_le B fuel (max fuel d) ch b x hx (Nat.le_max_left _ _)
    rw [hrun (max fuel d) (Nat.le_max_right _ _)] at h2
    exact (Option.some.inj h2).symm
  · intro fuel2 r2 hrun2
    constructor
    · intro hlt
      have hne : b.drop k ≠ [] := by
        intro hnil
        have hl := congrArg List.length hnil
        rw [List.length_drop, List.length_nil] at hl
        omega
      exact write_first_call B fuel2 _ [] r2 hne hrun2
    · intro hB
      obtain ⟨_, _, c3⟩ := write_spec B hB fuel2 _ [] r2 hrun2
      rcases c3 with h | ⟨_, h⟩
      · rw [List.append_nil] at h; exact h
      · exact h
  · intro h2 hall
    obtain ⟨Calls2, d2, hrun2, hacc2⟩ := write_accepts_all B
      { ch with Handle := h1, WriteBuffer := b.drop k } h2 hF hall
    exact ⟨_, ⟨d2, hrun2⟩, List.length_drop _ _, hacc2, rfl, rfl⟩

theorem partial_write_keeps_rest_witness :
    ∃ r : WriteResult Nat,
      (∃ d : Nat, ∀ fuel : Nat, d ≤ fuel →
        write burstBackend fuel ⟨10, [], [], false⟩ twentyBytes = some (.ok r)) ∧
      (∀ (fuel : Nat) (x : Except ChannelError (WriteResult Nat)),
        write burstBackend fuel ⟨10, [], [], false⟩ twentyBytes = some x → x = .ok r) ∧
      r.BytesSent = 10 ∧ 10 ≤ twentyBytes.length ∧
      acceptedBytes r.Calls = twentyBytes.take 10 ∧
      r.Channel.WriteBuffer = twentyBytes.drop 10 ∧
      r.Channel.WriteBuffer.length = twentyBytes.length - 10 ∧
      r.Channel.Handle = 10 ∧
      (∀ (fuel2 : Nat) (r2 : WriteResult Nat),
        write burstBackend fuel2 r.Channel [] = some (.ok r2) →
        (10 < twentyBytes.length → ∃ c rest, r2.Calls = c :: rest ∧
          c.Offered = (twentyBytes.drop 10).take
            (min burstBackend.BufferSize (twentyBytes.drop 10).length)) ∧
        (burstBackend.Honest →
          acceptedBytes r2.Calls ++ r2.Channel.WriteBuffer = twentyBytes.drop 10)) ∧
      (∃ r2 : WriteResult Nat,
        (∃ d2 : Nat, ∀ fuel : Nat, d2 ≤ fuel →
          write burstBackend fuel r.Channel [] = some (.ok r2)) ∧
        r2.BytesSent = twentyBytes.length - 10 ∧
        acceptedBytes r2.Calls = twentyBytes.drop 10 ∧
        r2.Channel.WriteBuffer = [] ∧ r2.Channel.Handle = 0) := by
  obtain ⟨r, a1, a2, a3, a4, a5, a6, a7, a8, a9, a10⟩ :=
    partial_write_keeps_rest burstBackend ⟨10, [], [], false⟩ twentyBytes 10 10 rfl rfl
      (AcceptsThenStops.stop 10 twentyBytes 10 10 (by decide) rfl (by decide))
  exact ⟨r, a1, a2, a3, a4, a5, a6, a7, a8, a9, a10 0 burstBackend_accepts_rest⟩

/-- Claim C17: on a channel that has not failed, with an honest backend, the
value a call of `write` returns is the number of bytes the backend reported
written during the call, in the first loop and in the second alike; it is the
number of bytes handed over, and it is at most the length of the old write
buffer plus the length of the bytes of the caller.  The call returns when the
backend progresses and the chunk size is not zero. -/
theorem write_returns_bytes_accepted {β : Type} (B : Backend β)
    (ch : CommunicationChannel β) (b : Bytes)
    (hB : B.Honest) (hF : ch.Failed = false) :
    (∀ (fuel : Nat) (r : WriteResult β), write B fuel ch b = some (.ok r) →
      r.BytesSent = writtenBytes r.Calls ∧
      r.BytesSent = (acceptedBytes r.Calls).length ∧
      r.BytesSent ≤ ch.WriteBuffer.length + b.length) ∧
    (B.Progresses → 0 < B.BufferSize →
      ∃ r, write B (max ch.WriteBuffer.length b.length) ch b = some (.ok r)) := by
  constructor
  · intro fuel r hrun
    obtain ⟨a1, a2, a3⟩ := write_spec B hB fuel ch b r hrun
    refine ⟨a1, by rw [a2, a1], ?_⟩
    have hlen : (acceptedBytes r.Calls).length ≤ ch.WriteBuffer.length + b.length := by
      rcases a3 with h | ⟨_, h⟩
      · have := congrArg List.length h
        simp only [List.length_append] at this
        omega
      · have := congrArg List.length h
        simp only [List.length_append] at this
        omega
    rw [a1, ← a2]
    exact hlen
  · intro hP hs
    exact write_terminates B hB hP hs _ ch b hF (Nat.le_max_left _ _) (Nat.le_max_right _ _)

theorem write_returns_bytes_accepted_witness :
    (∀ (fuel : Nat) (r : WriteResult Nat),
      write burstBackend fuel ⟨4, [], [1, 2, 3], false⟩ [4, 5, 6] = some (.ok r) →
      r.BytesSent = writtenBytes r.Calls ∧
      r.BytesSent = (acceptedBytes r.Calls).length ∧
      r.BytesSent ≤ ([1, 2, 3] : Bytes).length + ([4, 5, 6] : Bytes).length) ∧
    (burstBackend.Progresses → 0 < burstBackend.BufferSize →
      ∃ r, write burstBackend (max ([1, 2, 3] : Bytes).length ([4, 5, 6] : Bytes).length)
        ⟨4, [], [1, 2, 3], false⟩ [4, 5, 6] = some (.ok r)) :=
  write_returns_bytes_accepted burstBackend ⟨4, [], [1, 2, 3], false⟩ [4, 5, 6]
    burstBackend_honest rfl

/-- Claim C18 fails above `max_size()`: on a channel that has not failed and has the
bytes `1, 2, 3, 4` in its read buffer, `read(2^64 - 1)` returns no string at
all.  The size is above `max_size()`, so `Return.reserve` throws
`std::length_error` before a byte is taken from the read buffer, although the
buffer holds fewer bytes than are asked for. -/
theorem read_above_max_size_throws :
    threeByteBackend.max_size < 18446744073709551615 ∧
    read threeByteBackend ⟨(), [1, 2, 3, 4], [], false⟩ 18446744073709551615 =
      .error .length_error ∧
    ¬ ∃ r, read threeByteBackend ⟨(), [1, 2, 3, 4], [], false⟩ 18446744073709551615 =
      .ok r := by
  have h0 : read threeByteBackend ⟨(), [1, 2, 3, 4], [], false⟩ 18446744073709551615 =
      .error .length_error := rfl
  refine ⟨by decide, h0, ?_⟩
  rintro ⟨r, h⟩
  rw [h0] at h
  cases h

/-- Claim C18, amended: on a channel that has not failed, for every backend and
every `n` whose reserve goes through (`n` not above `max_size()`, and the
memory to be had), `read(n)` returns a string of at most `n` bytes (the empty
string for `n = 0`) that starts with the first `n` bytes of the read buffer
(all of it, when it is shorter); when the read buffer holds `n` bytes or more
the string is exactly these `n` bytes, no underlying read is made, the
descriptor is not touched and the rest of the read buffer stays.  For every
other `n` the call throws at the reserve, `std::length_error` above
`max_size()` and `std::bad_alloc` otherwise: the outcome is the error alone,
with nothing taken from the read buffer and no underlying read. -/
theorem read_returns_at_most {β : Type} (B : Backend β) (ch : CommunicationChannel β)
    (n : Nat) (hF : ch.Failed = false) :
    (n ≤ B.max_size → B.allocates n = true →
      ∃ r, read B ch n = .ok r ∧
        r.Return.length ≤ n ∧ (n = 0 → r.Return = []) ∧
        ch.ReadBuffer.take n <+: r.Return ∧
        (n ≤ ch.ReadBuffer.length →
          r.Chunks = [] ∧ r.Return = ch.ReadBuffer.take n ∧
          r.Channel.ReadBuffer = ch.ReadBuffer.drop n ∧ r.Channel.Handle = ch.Handle)) ∧
    (B.max_size < n → read B ch n = .error .length_error) ∧
    (n ≤ B.max_size → B.allocates n = false → read B ch n = .error .bad_alloc) := by
  refine ⟨?_, read_length_error B ch n hF, read_bad_alloc B ch n hF⟩
  intro hm ha
  have key : ∃ r, read B ch n = .ok r ∧ r.Return.length ≤ n ∧
      ch.ReadBuffer.take n <+: r.Return ∧
      (n ≤ ch.ReadBuffer.length →
        r.Chunks = [] ∧ r.Return = ch.ReadBuffer.take n ∧
        r.Channel.ReadBuffer = ch.ReadBuffer.drop n ∧ r.Channel.Handle = ch.Handle) := by
    rw [read_of_reserved B ch n hF hm ha]
    by_cases h0 : n - min ch.ReadBuffer.length n = 0
    · have hle : n ≤ ch.ReadBuffer.length := by
        simp only [Nat.min_def] at h0
        split at h0 <;> omega
      have hmin : min ch.ReadBuffer.length n = n := Nat.min_eq_right hle
      simp only [h0, if_true]
      refine ⟨_, rfl, ?_, ?_, ?_⟩
      · simp only [List.length_take]; omega
      · rw [hmin]
      · intro _
        rw [hmin]
        exact ⟨rfl, rfl, rfl, rfl⟩
    · have hlt : ch.ReadBuffer.length < n := by
        simp only [Nat.min_def] at h0
        split at h0 <;> omega
      have hmin : min ch.ReadBuffer.length n = ch.ReadBuffer.length :=
        Nat.min_eq_left (Nat.le_of_lt hlt)
      simp only [h0, if_false]
      have hinv := readLoop_len B n (ch.ReadBuffer.take n) (n - min ch.ReadBuffer.length n)
        { Handle := ch.Handle, ContinueReading := true,
          RemainingBytes := n - min ch.ReadBuffer.length n,
          Return := ch.ReadBuffer.take (min ch.ReadBuffer.length n),
          ReadBuffer := ch.ReadBuffer.drop (min ch.ReadBuffer.length n), Chunks := [] }
        ⟨by simp only [List.length_take]; omega, by
          rw [hmin, List.take_of_length_le (Nat.le_of_lt hlt), List.take_length]⟩
      refine ⟨_, rfl, ?_, hinv.2, ?_⟩
      · have := hinv.1
        show (readLoop B n _ _).Return.length ≤ n
        omega
      · intro hle
        omega
  obtain ⟨r, h1, h2, h3, h4⟩ := key
  refine ⟨r, h1, h2, ?_, h3, h4⟩
  intro hn
  rw [hn] at h2
  exact List.length_eq_zero.mp (Nat.le_zero.mp h2)

theorem read_returns_at_most_witness :
    ∃ r, read threeByteBackend ⟨(), [1, 2, 3, 4], [], false⟩ 2 = .ok r ∧
      r.Return.length ≤ 2 ∧ ((2 : Nat) = 0 → r.Return = []) ∧
      ([1, 2, 3, 4] : Bytes).take 2 <+: r.Return ∧
      (2 ≤ ([1, 2, 3, 4] : Bytes).length →
        r.Chunks = [] ∧ r.Return = ([1, 2, 3, 4] : Bytes).take 2 ∧
        r.Channel.ReadBuffer = ([1, 2, 3, 4] : Bytes).drop 2 ∧ r.Channel.Handle = ()) :=
  (read_returns_at_most threeByteBackend ⟨(), [1, 2, 3, 4], [], false⟩ 2 rfl).1
    (by decide) rfl

/-- Claim C19: on a channel that is marked failed, `read` of any size and
`write` of any bytes end at once with the error, whatever the backend: the
outcome is the error alone, with no underlying read or write and no new state
of the channel, whose read buffer and write buffer therefore stay as they
are. -/
theorem failed_channel_fails_at_once {β : Type} (B : Backend β)
    (ch : CommunicationChannel β) (hF : ch.Failed = true) :
    (∀ n : Nat, read B ch n = .error .io_error) ∧
    (∀ (fuel : Nat) (b : Bytes), write B fuel ch b = some (.error .io_error)) := by
  constructor
  · intro n
    simp only [read, hF, if_true]
  · intro fuel b
    simp only [write, hF, if_true]

theorem failed_channel_fails_at_once_witness :
    (∀ n : Nat, read threeByteBackend ⟨(), [1], [2], true⟩ n = .error .io_error) ∧
    (∀ (fuel : Nat) (b : Bytes),
      write threeByteBackend fuel ⟨(), [1], [2], true⟩ b = some (.error .io_error)) :=
  failed_channel_fails_at_once threeByteBackend ⟨(), [1], [2], true⟩ rfl

/-- Claim C20: for a `MakeSession` request that is not refused, the environment
handed to the launcher gives each built-in variable of MonoMux its built-in
value, the session variable being the name reported in the answer, whatever
the set-list and the unset-list of the request say about these variables; for
every other variable it holds what the request says: the value of the first
entry of the set-list for it, else an unset if the unset-list names it, else
nothing. -/
theorem spawn_environment_has_builtins (Sys : System) (S : Server) (Client : ClientID)
    (C : ClientData) (Msg : request.MakeSession)
    (hC : Map.find S.Clients Client = some C)
    (hfree : ¬ (Msg.Name ≠ "" ∧ (S.getSession Msg.Name).isSome = true)) :
    ∃ (S' : Server) (SOpts : SpawnOptions) (Name : String),
      requestMakeSession Sys S Client (some Msg) =
        some (S', [.spawn SOpts, .createCallback Name,
                   .sendMessage C.ControlConnection (.MakeSession Name true)]) ∧
      (∀ kv ∈ createEnvVars Name (Sys.absolutise S.Sock),
        Map.find SOpts.Environment kv.1 = some (some kv.2)) ∧
      Map.find SOpts.Environment "MONOMUX_SESSION" = some (some Name) ∧
      (∀ k, k ∉ (createEnvVars Name (Sys.absolutise S.Sock)).map Prod.fst →
        Map.find SOpts.Environment k = clientOverlay Msg.SpawnOpts k) := by
  refine ⟨_, spawnOptionsFor Sys S Msg, sessionNameFor S Msg.Name,
    requestMakeSession_of_free Sys S Client C Msg hC hfree, ?_, ?_, ?_⟩
  · intro kv hkv
    simp only [createEnvVars, List.mem_cons, List.mem_singleton, List.not_mem_nil,
      or_false] at hkv
    simp only [spawnOptionsFor, createEnvVars]
    rw [find_makeEnvironment]
    rcases hkv with h | h
    · have hne : ¬ ("MONOMUX_SESSION" : String) = "MONOMUX_SOCKET" := by decide
      rw [h]
      simp only [if_neg hne, if_true]
    · rw [h]
      simp only [if_true]
  · simp only [spawnOptionsFor, createEnvVars]
    have hne : ¬ ("MONOMUX_SESSION" : String) = "MONOMUX_SOCKET" := by decide
    rw [find_makeEnvironment, if_neg hne, if_pos rfl]
  · intro k hk
    simp only [createEnvVars, List.map_cons, List.map_nil, List.mem_cons, List.mem_singleton,
      List.not_mem_nil, or_false, not_or] at hk
    simp only [spawnOptionsFor, createEnvVars]
    rw [find_makeEnvironment, if_neg hk.2, if_neg hk.1]

theorem spawn_environment_has_builtins_witness :
    ∃ (S' : Server) (SOpts : SpawnOptions) (Name : String),
      requestMakeSession failingSystem twoClients 1 (some ⟨"", busyEnvironment⟩) =
        some (S', [.spawn SOpts, .createCallback Name,
                   .sendMessage (11 : Connection) (.MakeSession Name true)]) ∧
      (∀ kv ∈ createEnvVars Name (failingSystem.absolutise twoClients.Sock),
        Map.find SOpts.Environment kv.1 = some (some kv.2)) ∧
      Map.find SOpts.Environment "MONOMUX_SESSION" = some (some Name) ∧
      (∀ k, k ∉ (createEnvVars Name (failingSystem.absolutise twoClients.Sock)).map Prod.fst →
        Map.find SOpts.Environment k = clientOverlay busyEnvironment k) :=
  spawn_environment_has_builtins failingSystem twoClients 1 ⟨none, 11, none, none⟩
    ⟨"", busyEnvironment⟩ rfl (by decide)

/-- Claim C21: on a channel that has not failed, with an honest backend, whenever
`write` of `b` returns: the bytes handed over to the backend are a prefix of
the old write buffer followed by `b`; the underlying writes take these bytes in
order, each offered at most one chunk, from the front of what has not been
accepted yet; and when the backend stopped the draining of the write buffer,
the call made the underlying writes of the draining only, which take the old
write buffer in order, so that what was handed over followed by the new write
buffer is the old write buffer and no byte of `b` was offered.  The call
returns when the backend progresses and the chunk size is not zero. -/
theorem write_hands_bytes_in_order {β : Type} (B : Backend β)
    (ch : CommunicationChannel β) (b : Bytes)
    (hB : B.Honest) (hF : ch.Failed = false) :
    (∀ (fuel : Nat) (r : WriteResult β), write B fuel ch b = some (.ok r) →
      acceptedBytes r.Calls <+: ch.WriteBuffer ++ b ∧
      callsInOrder B.BufferSize (ch.WriteBuffer ++ b) r.Calls ∧
      (∀ c ∈ r.Calls, c.Offered.length ≤ B.BufferSize) ∧
      (∀ st1, drainLoop B fuel (writeStart ch b) = some st1 →
        st1.ContinueWriting = false →
        r.Calls = st1.Calls ∧
        callsInOrder B.BufferSize ch.WriteBuffer r.Calls ∧
        acceptedBytes r.Calls ++ r.Channel.WriteBuffer = ch.WriteBuffer)) ∧
    (B.Progresses → 0 < B.BufferSize →
      ∃ r, write B (max ch.WriteBuffer.length b.length) ch b = some (.ok r)) := by
  constructor
  · intro fuel r hrun
    obtain ⟨_, _, a3⟩ := write_spec B hB fuel ch b r hrun
    obtain ⟨o1, o2⟩ := write_order B hB fuel ch b r hrun
    refine ⟨?_, o1, ?_, ?_⟩
    · rcases a3 with h | ⟨_, h⟩
      · exact ⟨r.Channel.WriteBuffer, h⟩
      · have hp : acceptedBytes r.Calls <+: ch.WriteBuffer := ⟨r.Channel.WriteBuffer, h⟩
        exact List.IsPrefix.trans hp (List.prefix_append _ _)
    · intro c hc
      exact (callsInOrder_offered_le _ _ _ o1 c hc).1
    · intro st1 hd hstop
      obtain ⟨q1, q2, q3⟩ := o2 st1 hd hstop
      refine ⟨q1, q3, ?_⟩
      have hi : DrainInv ch.WriteBuffer (writeStart ch b) := ⟨rfl, rfl, rfl⟩
      obtain ⟨⟨_, _, d3⟩, _, _⟩ := drainLoop_spec B hB ch.WriteBuffer fuel _ st1 hi hd
      rw [q1, q2]
      exact d3
  · intro hP hs
    exact write_terminates B hB hP hs _ ch b hF (Nat.le_max_left _ _) (Nat.le_max_right _ _)

theorem write_hands_bytes_in_order_witness :
    (∀ (fuel : Nat) (r : WriteResult Unit),
      write oneByteBackend fuel ⟨(), [], [1, 2, 3], false⟩ [4, 5] = some (.ok r) →
      acceptedBytes r.Calls <+: ([1, 2, 3] : Bytes) ++ [4, 5] ∧
      callsInOrder oneByteBackend.BufferSize (([1, 2, 3] : Bytes) ++ [4, 5]) r.Calls ∧
      (∀ c ∈ r.Calls, c.Offered.length ≤ oneByteBackend.BufferSize) ∧
      (∀ st1, drainLoop oneByteBackend fuel
          (writeStart ⟨(), [], [1, 2, 3], false⟩ [4, 5]) = some st1 →
        st1.ContinueWriting = false →
        r.Calls = st1.Calls ∧
        callsInOrder oneByteBackend.BufferSize ([1, 2, 3] : Bytes) r.Calls ∧
        acceptedBytes r.Calls ++ r.Channel.WriteBuffer = ([1, 2, 3] : Bytes))) ∧
    (oneByteBackend.Progresses → 0 < oneByteBackend.BufferSize →
      ∃ r, write oneByteBackend (max ([1, 2, 3] : Bytes).length ([4, 5] : Bytes).length)
        ⟨(), [], [1, 2, 3], false⟩ [4, 5] = some (.ok r)) :=
  write_hands_bytes_in_order oneByteBackend ⟨(), [], [1, 2, 3], false⟩ [4, 5]
    oneByteBackend_honest rfl

/-- Claim C22 fails for a backend that gives more than it is asked for: with a chunk
size of two bytes and underlying reads that give the three bytes `7, 8, 9`
each, the loop of `read(6)` goes on after the first chunk, which has three
bytes and not exactly two, and makes a second underlying read. -/
theorem read_continues_after_longer_chunk :
    overfullBackend.BufferSize = 2 ∧
    (overfullBackend.readImpl () overfullBackend.BufferSize).1 = [7, 8, 9] ∧
    (readBody overfullBackend ⟨(), true, 6, [], [], []⟩).ContinueReading = true ∧
    (∃ r, read overfullBackend ⟨(), [], [], false⟩ 6 = .ok r ∧
      r.Chunks = [[7, 8, 9], [7, 8, 9]] ∧ r.Return = [7, 8, 9, 7, 8, 9]) ∧
    ¬ (∀ st : ReadState Unit, (readBody overfullBackend st).ContinueReading = true →
      (overfullBackend.readImpl st.Handle overfullBackend.BufferSize).1.length =
        overfullBackend.BufferSize) := by
  refine ⟨rfl, rfl, rfl, ⟨_, rfl, rfl, rfl⟩, ?_⟩
  intro h
  have h1 := h ⟨(), true, 6, [], [], []⟩ rfl
  revert h1
  decide

/-- Claim C22, amended: with a chunk size `B` that is not zero, on a channel that
has not failed and for every backend, `read(n)` ends after at most
`ceil(n / B)` underlying reads (at most `ceil(m / B)`, `m` being the bytes the
read buffer does not provide): it returns when the reserve goes through, and
throws with no underlying read when it does not; the loop of `read` always
ends, its condition being false where it returns.  The loop goes on after an
underlying read only if the chunk read has at least `B` bytes, exactly `B`
when the backend gives no more than it was asked for, and no more than the
bytes still wanted; it stops after a chunk that is empty, shorter than `B`, or
longer than the bytes still wanted. -/
theorem read_makes_few_underlying_reads {β : Type} (B : Backend β)
    (ch : CommunicationChannel β) (n : Nat)
    (hs : 0 < B.BufferSize) (hF : ch.Failed = false) :
    underlyingReads (read B ch n) ≤
      (n - ch.ReadBuffer.length + B.BufferSize - 1) / B.BufferSize ∧
    underlyingReads (read B ch n) ≤ (n + B.BufferSize - 1) / B.BufferSize ∧
    (n ≤ B.max_size → B.allocates n = true →
      ∃ r, read B ch n = .ok r ∧
        r.Chunks.length ≤ (n - ch.ReadBuffer.length + B.BufferSize - 1) / B.BufferSize ∧
        r.Chunks.length ≤ (n + B.BufferSize - 1) / B.BufferSize) ∧
    (B.max_size < n → read B ch n = .error .length_error) ∧
    (n ≤ B.max_size → B.allocates n = false → read B ch n = .error .bad_alloc) ∧
    (∀ st : ReadState β, readCond n (readLoop B n st.RemainingBytes st) = false) ∧
    (∀ st : ReadState β, (readBody B st).ContinueReading = true →
      B.BufferSize ≤ (B.readImpl st.Handle B.BufferSize).1.length ∧
      (B.readImpl st.Handle B.BufferSize).1.length ≤ st.RemainingBytes ∧
      ((B.readImpl st.Handle B.BufferSize).1.length ≤ B.BufferSize →
        (B.readImpl st.Handle B.BufferSize).1.length = B.BufferSize)) ∧
    (∀ st : ReadState β,
      ((B.readImpl st.Handle B.BufferSize).1 = [] ∨
        (B.readImpl st.Handle B.BufferSize).1.length < B.BufferSize ∨
        st.RemainingBytes < (B.readImpl st.Handle B.BufferSize).1.length) →
      (readBody B st).ContinueReading = false) := by
  have hmono : (n - ch.ReadBuffer.length + B.BufferSize - 1) / B.BufferSize ≤
      (n + B.BufferSize - 1) / B.BufferSize :=
    Nat.div_le_div_right (by omega)
  have hok : n ≤ B.max_size → B.allocates n = true →
      ∃ r, read B ch n = .ok r ∧
        r.Chunks.length ≤ (n - ch.ReadBuffer.length + B.BufferSize - 1) / B.BufferSize := by
    intro hm ha
    rw [read_of_reserved B ch n hF hm ha]
    by_cases h0 : n - min ch.ReadBuffer.length n = 0
    · simp only [h0, if_true]
      exact ⟨_, rfl, Nat.zero_le _⟩
    · simp only [h0, if_false]
      refine ⟨_, rfl, ?_⟩
      have hR : n - min ch.ReadBuffer.length n = n - ch.ReadBuffer.length := by
        simp only [Nat.min_def]
        split <;> omega
      have hinv := readLoop_count B n (n - min ch.ReadBuffer.length n)
        (n - min ch.ReadBuffer.length n)
        { Handle := ch.Handle, ContinueReading := true,
          RemainingBytes := n - min ch.ReadBuffer.length n,
          Return := ch.ReadBuffer.take (min ch.ReadBuffer.length n),
          ReadBuffer := ch.ReadBuffer.drop (min ch.ReadBuffer.length n), Chunks := [] }
        ⟨by simp only [List.length_nil, Nat.zero_mul]; omega,
         by intro _; simp only [List.length_nil, Nat.zero_mul, Nat.zero_add, Nat.le_refl]⟩
      have hlt := hinv.1
      rw [hR] at hlt
      show (readLoop B n _ _).Chunks.length ≤ _
      rw [Nat.le_div_iff_mul_le hs]
      rw [hR]
      omega
  have hcount : underlyingReads (read B ch n) ≤
      (n - ch.ReadBuffer.length + B.BufferSize - 1) / B.BufferSize := by
    rcases read_outcome B ch n hF with ⟨_, hr⟩ | ⟨_, _, hr⟩ | ⟨hm, ha, _⟩
    · rw [hr]; exact Nat.zero_le _
    · rw [hr]; exact Nat.zero_le _
    · obtain ⟨r, hr, hle⟩ := hok hm ha
      rw [hr]; exact hle
  refine ⟨hcount, Nat.le_trans hcount hmono, ?_, read_length_error B ch n hF,
    read_bad_alloc B ch n hF, ?_, ?_, ?_⟩
  · intro hm ha
    obtain ⟨r, h1, h2⟩ := hok hm ha
    exact ⟨r, h1, h2, Nat.le_trans h2 hmono⟩
  · intro st
    exact readLoop_exits B n st.RemainingBytes st (fun _ => Nat.le_refl _)
  · intro st h
    obtain ⟨a, b, _⟩ := readBody_continues B st h
    exact ⟨a, b, fun hle => Nat.le_antisymm hle a⟩
  · intro st h
    exact readBody_stops B st h

theorem read_makes_few_underlying_reads_witness :
    underlyingReads (read pairBackend ⟨(), [], [], false⟩ 5) ≤
      (5 - ([] : Bytes).length + pairBackend.BufferSize - 1) / pairBackend.BufferSize ∧
    underlyingReads (read pairBackend ⟨(), [], [], false⟩ 5) ≤
      (5 + pairBackend.BufferSize - 1) / pairBackend.BufferSize ∧
    (∃ r, read pairBackend ⟨(), [], [], false⟩ 5 = .ok r ∧
      r.Chunks.length ≤ (5 - ([] : Bytes).length + pairBackend.BufferSize - 1) /
        pairBackend.BufferSize ∧
      r.Chunks.length ≤ (5 + pairBackend.BufferSize - 1) / pairBackend.BufferSize) ∧
    (∀ st : ReadState Unit, readCond 5 (readLoop pairBackend 5 st.RemainingBytes st) = false) ∧
    (∀ st : ReadState Unit, (readBody pairBackend st).ContinueReading = true →
      pairBackend.BufferSize ≤ (pairBackend.readImpl st.Handle pairBackend.BufferSize).1.length ∧
      (pairBackend.readImpl st.Handle pairBackend.BufferSize).1.length ≤ st.RemainingBytes ∧
      ((pairBackend.readImpl st.Handle pairBackend.BufferSize).1.length ≤ pairBackend.BufferSize →
        (pairBackend.readImpl st.Handle pairBackend.BufferSize).1.length =
          pairBackend.BufferSize)) ∧
    (∀ st : ReadState Unit,
      ((pairBackend.readImpl st.Handle pairBackend.BufferSize).1 = [] ∨
        (pairBackend.readImpl st.Handle pairBackend.BufferSize).1.length <
          pairBackend.BufferSize ∨
        st.RemainingBytes < (pairBackend.readImpl st.Handle pairBackend.BufferSize).1.length) →
      (readBody pairBackend st).ContinueReading = false) := by
  obtain ⟨a1, a2, a3, _, _, a6, a7, a8⟩ :=
    read_makes_few_underlying_reads pairBackend ⟨(), [], [], false⟩ 5 (by decide) rfl
  exact ⟨a1, a2, a3 (by decide) rfl, a6, a7, a8⟩
end monomux
